import Mathlib

/-!
# The Executive's local-client IPC layer (`exec/main.c`)

A shallow embedding of the connection object, the outbound sender
(`libais_send_response`, `cleanup_send_response`), the disconnect path
(`libais_disconnect`) and the deliver loop (`poll_handler_libais_deliver`).

Conventions of the embedding

* A C buffer `(ptr, len)` is a `List Byte`; `struct conn_info` is the record
  `conn_info`, threaded explicitly through every function.
* The kernel side of the socket is part of the record: `wire` collects the bytes
  `sendmsg` has accepted so far, `sock` is the list of results the coming
  `sendmsg` calls will produce and `heap` the results of the coming `malloc`
  calls.  Every terminating run of the C code performs finitely many such calls,
  so quantifying over all lists covers every behaviour of the socket.
* `int` fields that the code can drive below zero (`inb_start`, `inb_inuse`) are
  `Int`; conversions to `unsigned`/`size_t` are the explicit `% 2^32` / `% 2^64`.
* Function pointers of the service table are parameters (`exec_env`).
-/

namespace Corosync

/-- One octet. -/
abbrev Byte := Fin 256

/-- The connection life-cycle states of `enum conn_state`. -/
inductive conn_state
  | CONN_STATE_ACTIVE
  | CONN_STATE_DISCONNECTING
  | CONN_STATE_DISCONNECTING_DELAYED
  deriving DecidableEq, Repr

/-- The record `struct outq_item`: an owned copy of a message and its length. -/
structure outq_item where
  msg : List Byte
  mlen : Nat
  deriving DecidableEq, Repr

/-- Modelled from the spec: the bounded FIFO of `include/queue.h` (not in the sources at
hand), "fixed-capacity ring of T with is_full, is_empty, get (peek head), remove (pop head),
add (enqueue)".  `size` is the capacity handed to `queue_init`, `items` the records in FIFO
order, head first. -/
structure queue where
  size : Nat
  items : List outq_item
  deriving DecidableEq, Repr

/-- Modelled from the spec: `queue_init` of `include/queue.h`, an empty queue of the given
capacity. -/
def queue_init (size : Nat) : queue := ⟨size, []⟩

/-- Modelled from the spec: `queue_is_full` of `include/queue.h`, no free slot is left. -/
def queue_is_full (q : queue) : Bool := decide (q.size ≤ q.items.length)

/-- Modelled from the spec: `queue_is_empty` of `include/queue.h`. -/
def queue_is_empty (q : queue) : Bool := q.items.isEmpty

/-- Modelled from the spec: `queue_item_get` of `include/queue.h`, peek at the head. -/
def queue_item_get (q : queue) : Option outq_item := q.items.head?

/-- Modelled from the spec: `queue_item_remove` of `include/queue.h`, pop the head. -/
def queue_item_remove (q : queue) : queue := { q with items := q.items.tail }

/-- Modelled from the spec: `queue_item_add` of `include/queue.h`, enqueue at the tail. -/
def queue_item_add (q : queue) (it : outq_item) : queue := { q with items := q.items ++ [it] }

/-- The interest set registered with the poll reactor for a descriptor. -/
structure poll_mask where
  pollin : Bool
  pollout : Bool
  pollnval : Bool
  deriving DecidableEq, Repr

/-- The mask `POLLIN|POLLNVAL`. -/
def POLLIN_POLLNVAL : poll_mask := ⟨true, false, true⟩

/-- The mask `POLLOUT|POLLIN|POLLNVAL`. -/
def POLLOUT_POLLIN_POLLNVAL : poll_mask := ⟨true, true, true⟩

/-- What one `sendmsg (fd, .., MSG_DONTWAIT | MSG_NOSIGNAL)` call does: it accepts `n` bytes
(never more than requested), or fails with `EINTR`, `EAGAIN` or another errno. -/
inductive send_result
  | sent (n : Nat)
  | eintr
  | eagain
  | error
  deriving DecidableEq, Repr

/-- The result of a `sendmsg` retry loop once `EINTR` has been retried away. -/
inductive send_outcome
  | sent (n : Nat)
  | eagain
  | error
  deriving DecidableEq, Repr

/-- The record `struct conn_info` together with the kernel side of its socket. -/
structure conn_info where
  /-- the descriptor number -/
  fd : Int
  state : conn_state
  /-- the receive buffer, `SIZEINB` bytes -/
  inb : List Byte
  inb_start : Int
  inb_inuse : Int
  outq : queue
  byte_start : Nat
  /-- `SOCKET_SERVICE_INIT` is 0, a bound service is its table index plus one -/
  service : Nat
  authenticated : Bool
  /-- interest set last registered by `poll_dispatch_add` / `poll_dispatch_modify` -/
  poll : poll_mask
  /-- `SO_PASSCRED` as last set by `setsockopt` -/
  passcred : Bool
  /-- bytes the socket has accepted from `sendmsg`, oldest first -/
  wire : List Byte
  /-- results of the coming `sendmsg` calls; once used up the socket reports `EAGAIN` -/
  sock : List send_result
  /-- results of the coming `malloc` calls (`false` is a null return); once used up
  allocation succeeds -/
  heap : List Bool
  /-- number of `close (fd)` calls made -/
  closes : Nat
  /-- number of `free (inb)` calls made -/
  inb_frees : Nat
  /-- number of `queue_free (outq)` calls made -/
  outq_frees : Nat
  /-- number of `free (conn_info)` calls made -/
  conn_frees : Nat
  deriving DecidableEq, Repr

/-- The function `conn_info_create` on its success path: zeroed record, empty `outq` of
`SIZEQUEUE` slots, a receive buffer of `SIZEINB` bytes, state `ACTIVE`, service `INIT`.  The
receive buffer comes from `malloc` and is not cleared; `garbage` is what it holds at first
(cut or zero-padded to `SIZEINB` bytes). -/
def conn_info_create (SIZEQUEUE SIZEINB : Nat) (garbage : List Byte) (fd : Int) : conn_info :=
  { fd := fd
    state := conn_state.CONN_STATE_ACTIVE
    inb := (garbage ++ List.replicate SIZEINB 0).take SIZEINB
    inb_start := 0
    inb_inuse := 0
    outq := queue_init SIZEQUEUE
    byte_start := 0
    service := 0
    authenticated := false
    poll := POLLIN_POLLNVAL
    passcred := true
    wire := []
    sock := []
    heap := []
    closes := 0
    inb_frees := 0
    outq_frees := 0
    conn_frees := 0 }

/-- The function `libais_connection_active`. -/
def libais_connection_active (c : conn_info) : Bool :=
  decide (c.state = conn_state.CONN_STATE_ACTIVE)

/-- The function `libais_disconnect_delayed`. -/
def libais_disconnect_delayed (c : conn_info) : conn_info :=
  { c with state := conn_state.CONN_STATE_DISCONNECTING_DELAYED }

/-- The function `poll_dispatch_modify (aisexec_poll_handle, conn_info->fd, events, ..)`. -/
def poll_dispatch_modify (c : conn_info) (events : poll_mask) : conn_info :=
  { c with poll := events }

/-- One `sendmsg` of `len` bytes including the `retry_sendmsg` loop: results are taken from
the script, `EINTR` results are retried, an accepted count is at most `len`. -/
def sendmsg : List send_result → Nat → send_outcome × List send_result
  | [], _ => (send_outcome.eagain, [])
  | send_result.eintr :: rest, len => sendmsg rest len
  | send_result.eagain :: rest, _ => (send_outcome.eagain, rest)
  | send_result.error :: rest, _ => (send_outcome.error, rest)
  | send_result.sent n :: rest, len => (send_outcome.sent (min n len), rest)

/-- One `malloc` call: the next scripted result, success once the script is used up. -/
def malloc (c : conn_info) : Bool × conn_info :=
  match c.heap with
  | [] => (true, c)
  | b :: rest => (b, { c with heap := rest })

/-- How the loop `while (!queue_is_empty (outq))` of the two senders was left. -/
inductive drain_exit
  /-- the loop condition failed: the queue is empty -/
  | emptied
  /-- `break` on `EAGAIN` -/
  | would_block
  /-- `sendmsg` failed with another errno -/
  | failed
  /-- `break` after a short write -/
  | short_write
  deriving DecidableEq, Repr

/-- The loop `while (!queue_is_empty (outq))` shared, statement for statement, by
`cleanup_send_response` and `libais_send_response`; the second argument is the queue content
still to be visited.  The two callers differ only in what they do on `failed`. -/
def outq_drain (c : conn_info) : List outq_item → drain_exit × conn_info
  | [] => (drain_exit.emptied, { c with outq := { c.outq with items := [] } })
  | item :: rest =>
    match sendmsg c.sock (item.mlen - c.byte_start) with
    | (send_outcome.eagain, s) =>
      (drain_exit.would_block, { c with sock := s, outq := { c.outq with items := item :: rest } })
    | (send_outcome.error, s) =>
      (drain_exit.failed, { c with sock := s, outq := { c.outq with items := item :: rest } })
    | (send_outcome.sent k, s) =>
      let w := c.wire ++ (item.msg.drop c.byte_start).take k
      if k + c.byte_start ≠ item.mlen then
        (drain_exit.short_write,
          { c with sock := s, wire := w, byte_start := c.byte_start + k,
                   outq := { c.outq with items := item :: rest } })
      else
        outq_drain { c with sock := s, wire := w, byte_start := 0 } rest

/-- The function `cleanup_send_response`. -/
def cleanup_send_response (c : conn_info) : Int × conn_info :=
  if !libais_connection_active c then (-1, c)
  else
    match outq_drain c c.outq.items with
    | (drain_exit.failed, c1) => (-1, c1)
    | (_, c1) =>
      if queue_is_empty c1.outq then (0, poll_dispatch_modify c1 POLLIN_POLLNVAL)
      else (0, c1)

/-- The "send requested message" block of `libais_send_response`, entered with `res = -1`:
the direct `sendmsg` of the new message when the queue is empty.  Returns the new `res`. -/
def send_requested (c : conn_info) (msg : List Byte) (mlen : Nat) : Int × conn_info :=
  if queue_is_empty c.outq then
    match sendmsg c.sock mlen with
    | (send_outcome.eagain, s) =>
      (-1, poll_dispatch_modify { c with sock := s, byte_start := 0 } POLLIN_POLLNVAL)
    | (send_outcome.error, s) => (-1, { c with sock := s })
    | (send_outcome.sent k, s) =>
      let c1 := { c with sock := s, wire := c.wire ++ (msg.take mlen).take k }
      if k + c.byte_start ≠ mlen then
        (-1, { c1 with byte_start := c.byte_start + k })
      else
        ((k : Int), poll_dispatch_modify { c1 with byte_start := 0 } POLLIN_POLLNVAL)
  else (-1, c)

/-- The function `libais_send_response`. -/
def libais_send_response (c : conn_info) (msg : List Byte) (mlen : Nat) : Int × conn_info :=
  if !libais_connection_active c then (-1, c)
  else if queue_is_full c.outq then (-1, libais_disconnect_delayed c)
  else
    let c1 := (outq_drain c c.outq.items).2
    let r := send_requested c1 msg mlen
    if r.1 = -1 then
      match malloc r.2 with
      | (false, c3) => (-1, libais_disconnect_delayed c3)
      | (true, c3) =>
        (0, poll_dispatch_modify
              { c3 with outq := queue_item_add c3.outq ⟨msg.take mlen, mlen⟩ }
              POLLOUT_POLLIN_POLLNVAL)
    else (0, r.2)

/-! ## The deliver side -/

/-- Modelled from the spec: `struct req_header` of `include/ais_msg.h` (not in the sources at
hand), "request header (wire-framed, first bytes of every request): { size: u32, id: u32 }". -/
structure req_header where
  size : Nat
  id : Nat
  deriving DecidableEq, Repr

/-- Modelled from the spec: `struct res_header` of `include/ais_msg.h` (not in the sources at
hand), "response header: { size: u32, id: u32, error: u32 }". -/
structure res_header where
  size : Nat
  id : Nat
  error : Nat
  deriving DecidableEq, Repr

/-- Modelled from the spec: `sizeof (struct req_header)`, two `u32` fields. -/
def sizeof_req_header : Nat := 8

/-- A little-endian `u32` read from the first four bytes of a buffer ("little-endian host
format"); bytes that are missing read as zero. -/
def le32 (bs : List Byte) : Nat :=
  (bs.getD 0 0).val + 256 * (bs.getD 1 0).val + 65536 * (bs.getD 2 0).val
    + 16777216 * (bs.getD 3 0).val

/-- The four little-endian bytes of a `u32`. -/
def enc32 (n : Nat) : List Byte :=
  [Fin.ofNat (n % 256), Fin.ofNat (n / 256 % 256), Fin.ofNat (n / 65536 % 256),
   Fin.ofNat (n / 16777216 % 256)]

/-- The cast `(struct req_header *)&inb[off]`. -/
def req_header_at (inb : List Byte) (off : Nat) : req_header :=
  ⟨le32 (inb.drop off), le32 (inb.drop (off + 4))⟩

/-- The bytes of a `struct message_overlay` whose header has been filled in; `buf` is the
content of the uninitialised member `buf[4096]`. -/
def msg_overlay_bytes (h : res_header) (buf : List Byte) : List Byte :=
  enc32 h.size ++ enc32 h.id ++ enc32 h.error ++ buf

/-- The `flow_control` member of a handler entry: the code compares it with the two
constants `FLOW_CONTROL_REQUIRED` and `FLOW_CONTROL_NOT_REQUIRED`; `OTHER` is any value that
is neither. -/
inductive flow_control
  | FLOW_CONTROL_REQUIRED
  | FLOW_CONTROL_NOT_REQUIRED
  | OTHER
  deriving DecidableEq, Repr

/-- An entry of a service's `libais_handlers[]`.  The function pointer receives the
connection, the decoded header and the `size` bytes of the frame, and returns its result
together with the connection as it left it. -/
structure libais_handler where
  libais_handler_fn : conn_info → req_header → List Byte → Int × conn_info
  response_size : Nat
  response_id : Nat
  flow_control : flow_control

/-- The members of `struct service_handler` the IPC paths use.  `libais_exit_fn` may be a
null pointer (`none`); `libais_handlers_count` is a member of its own, next to the array. -/
structure service_handler where
  libais_handlers : List libais_handler
  libais_handlers_count : Nat
  libais_init_fn : conn_info → req_header → List Byte → Int × conn_info
  libais_exit_fn : Option (conn_info → Int × conn_info)

/-- The record `struct ucred` delivered as `SCM_CREDENTIALS` ancillary data. -/
structure ucred where
  pid : Nat
  uid : Nat
  gid : Nat
  deriving DecidableEq, Repr

/-- Everything `poll_handler_libais_deliver` reads that is not in `struct conn_info`: the
macro `SIZEINB`, the global `gid_valid`, the table `ais_service_handlers[]`, the results of
`totempg_send_ok (n)` and `sync_in_process ()`, the constant `SA_ERR_TRY_AGAIN`, the
uninitialised stack bytes of `msg_overlay.buf`, and what the uninitialised stack buffer
`cmsg_cred` reads as through `(struct ucred *)CMSG_DATA (..)` when `recvmsg` has not written
to it. -/
structure exec_env where
  SIZEINB : Nat
  gid_valid : Nat
  ais_service_handlers : List service_handler
  totempg_send_ok : Nat → Bool
  sync_in_process : Bool
  SA_ERR_TRY_AGAIN : Nat
  overlay_buf : List Byte
  cmsg_cred : ucred

/-- What `recvmsg (fd, .., MSG_DONTWAIT | MSG_NOSIGNAL)` does: it delivers bytes (at most the
space offered; an empty delivery is the return value 0) together with an `SCM_CREDENTIALS`
control message (`some`) or with none (`none`: `msg_controllen` comes back 0), fails with
`EAGAIN` or another errno (the message header and the control buffer are then left as they
were), or fails with `EINTR` and then behaves as `next` on the retry. -/
inductive recv_result
  | data (bytes : List Byte) (cred : Option ucred)
  | eagain
  | error
  | eintr (next : recv_result)
  deriving DecidableEq, Repr

/-- The result of the `retry_recv` loop. -/
inductive recv_outcome
  | got (bytes : List Byte) (cred : Option ucred)
  | eagain
  | error
  deriving DecidableEq, Repr

/-- One `recvmsg` into `iov_len` bytes including the `retry_recv` loop. -/
def recvmsg : recv_result → Nat → recv_outcome
  | recv_result.data bytes cred, iov_len => recv_outcome.got (bytes.take iov_len) cred
  | recv_result.eagain, _ => recv_outcome.eagain
  | recv_result.error, _ => recv_outcome.error
  | recv_result.eintr next, iov_len => recvmsg next iov_len

/-- Ways the C code leaves defined behaviour. -/
inductive fault
  /-- an index outside `ais_service_handlers[]` or a service's `libais_handlers[]` -/
  | table_index
  /-- `assert (iov_recv.iov_len != 0)` failed -/
  | assert_iov_len
  /-- an access outside the receive buffer -/
  | inb_index
  /-- the read of `cred->uid` when `recvmsg` attached no control message: `CMSG_FIRSTHDR` is
  null and `cred = CMSG_DATA (0)` is not -/
  | cred_deref
  deriving DecidableEq, Repr

/-- Calls and other observable steps made by the deliver path, in program order. -/
inductive event
  /-- `recvmsg` was called with `iov_len` bytes of space; `want_cred` says whether a control
  buffer was offered -/
  | recvmsg (iov_len : Nat) (want_cred : Bool)
  /-- `log_printf (LOG_LEVEL_SECURITY, ..)` -/
  | security_log
  /-- the call `ais_service_handlers[id]->libais_init_fn (conn_info, header)` -/
  | init_fn (id : Nat) (frame : List Byte)
  /-- the call `ais_service_handlers[service - 1]->libais_handlers[id].libais_handler_fn`;
  `auth` is `conn_info->authenticated` at the time of the call -/
  | handler_fn (service : Nat) (id : Nat) (frame : List Byte) (auth : Bool)
  /-- the call `libais_send_response (conn_info, &msg_overlay, mlen)` of the overload path;
  `msg` is the content of `msg_overlay` at the call -/
  | send_response (msg : List Byte) (mlen : Nat)
  /-- the call `libais_disconnect (conn_info)` -/
  | disconnect
  /-- the call of the service's `libais_exit_fn` -/
  | exit_fn (service : Nat)
  deriving DecidableEq, Repr

/-- How a function of the deliver path ended. -/
inductive status
  | returned (res : Int)
  | fault (f : fault)
  | out_of_fuel
  deriving DecidableEq, Repr

/-- Final status, connection and events of a call. -/
structure result where
  status : status
  conn : conn_info
  trace : List event

/-- Array indexing with a C `int` index. -/
def lookup {α : Type} (l : List α) (i : Int) : Option α :=
  if 0 ≤ i then l[i.toNat]? else none

/-- The function `libais_disconnect`. -/
def libais_disconnect (env : exec_env) (c : conn_info) : result :=
  match lookup env.ais_service_handlers ((c.service : Int) - 1) with
  | none => ⟨status.fault fault.table_index, c, []⟩
  | some sh =>
    let r : (Int × conn_info) × List event :=
      match sh.libais_exit_fn with
      | none => ((0, c), [])
      | some f => (f c, [event.exit_fn c.service])
    let res := r.1.1
    let c1 := r.1.2
    let c2 :=
      if c1.state ≠ conn_state.CONN_STATE_DISCONNECTING then
        { c1 with state := conn_state.CONN_STATE_DISCONNECTING
                  closes := c1.closes + 1
                  outq := { c1.outq with items := [] }
                  outq_frees := c1.outq_frees + 1
                  inb_frees := c1.inb_frees + 1 }
      else c1
    let c3 := if res ≠ -1 then { c2 with conn_frees := c2.conn_frees + 1 } else c2
    ⟨status.returned (if res ≠ -1 then -1 else 0), c3, r.2⟩

/-- The conversion of an `int` to `size_t`. -/
def to_size_t (x : Int) : Int := x % 18446744073709551616

/-- The conversion of an `int` to `unsigned int`. -/
def to_u32 (x : Int) : Int := x % 4294967296

/-- The conversion of an out-of-range value back to `int`. -/
def to_int32 (x : Int) : Int := (x + 2147483648) % 4294967296 - 2147483648

/-- The value of `send_ok` computed for a handler entry and a request of `size` bytes.  The
frame loop dispatches a frame only when `size <= inb_inuse`, so `1000 + size` does not leave
the range of `int`. -/
def send_ok (env : exec_env) (h : libais_handler) (size : Nat) : Bool :=
  h.flow_control == flow_control.FLOW_CONTROL_NOT_REQUIRED ||
    (h.flow_control == flow_control.FLOW_CONTROL_REQUIRED &&
      env.totempg_send_ok (1000 + size) && !env.sync_in_process)

/-- How one pass through the body of the frame loop ended. -/
inductive step_exit
  /-- fall through to `conn_info->inb_inuse -= header->size` with this `res` -/
  | next (res : Int)
  /-- `goto error_disconnect` -/
  | error_disconnect
  | fault (f : fault)
  deriving DecidableEq, Repr

/-- Exit, connection and events of one pass through the loop body. -/
structure step_result where
  exit : step_exit
  conn : conn_info
  trace : List event

/-- The body of the frame loop from `service = conn_info->service` down to the end of the
`if (service == SOCKET_SERVICE_INIT) .. else ..` statement, for the frame whose header is
`hdr`; `res` is the value of the variable `res` on entry. -/
def dispatch_frame (env : exec_env) (res : Int) (c : conn_info) (hdr : req_header)
    (frame : List Byte) : step_result :=
  if c.service = 0 then
    match env.ais_service_handlers[hdr.id]? with
    | none => ⟨step_exit.fault fault.table_index, c, []⟩
    | some sh =>
      let r := sh.libais_init_fn c hdr frame
      ⟨step_exit.next r.1, r.2, [event.init_fn hdr.id frame]⟩
  else
    match lookup env.ais_service_handlers ((c.service : Int) - 1) with
    | none => ⟨step_exit.fault fault.table_index, c, []⟩
    | some sh =>
      if hdr.id > sh.libais_handlers_count then
        ⟨step_exit.error_disconnect, c, [event.security_log]⟩
      else
        match sh.libais_handlers[hdr.id]? with
        | none => ⟨step_exit.fault fault.table_index, c, []⟩
        | some h =>
          if send_ok env h hdr.size then
            let r := h.libais_handler_fn c hdr frame
            ⟨step_exit.next r.1, r.2, [event.handler_fn c.service hdr.id frame c.authenticated]⟩
          else
            let rh : res_header := ⟨h.response_size, h.response_id, env.SA_ERR_TRY_AGAIN⟩
            let r := libais_send_response c (msg_overlay_bytes rh env.overlay_buf) rh.size
            ⟨step_exit.next res, r.2,
              [event.send_response (msg_overlay_bytes rh env.overlay_buf) rh.size]⟩

/-- How the frame loop ended. -/
inductive loop_exit
  /-- the loop condition failed or `break` was taken; `res` is the variable `res` -/
  | done (res : Int)
  | error_disconnect
  | fault (f : fault)
  | out_of_fuel
  deriving DecidableEq, Repr

/-- Exit, connection and events of the frame loop. -/
structure loop_result where
  exit : loop_exit
  conn : conn_info
  trace : List event

/-- The loop `while (conn_info->inb_inuse >= sizeof (struct req_header) && res != -1)`.  The C
loop need not terminate; `fuel` bounds the number of passes. -/
def deliver_loop (env : exec_env) : Nat → Int → conn_info → loop_result
  | fuel, res, c =>
    if to_size_t c.inb_inuse ≥ sizeof_req_header ∧ res ≠ -1 then
      let off := c.inb_start - c.inb_inuse
      if off < 0 ∨ (c.inb.length : Int) < off + sizeof_req_header then
        ⟨loop_exit.fault fault.inb_index, c, []⟩
      else
        let hdr := req_header_at c.inb off.toNat
        if (hdr.size : Int) > to_u32 c.inb_inuse then ⟨loop_exit.done res, c, []⟩
        else
          match fuel with
          | 0 => ⟨loop_exit.out_of_fuel, c, []⟩
          | fuel + 1 =>
            let s := dispatch_frame env res c hdr ((c.inb.drop off.toNat).take hdr.size)
            match s.exit with
            | step_exit.fault f => ⟨loop_exit.fault f, s.conn, s.trace⟩
            | step_exit.error_disconnect => ⟨loop_exit.error_disconnect, s.conn, s.trace⟩
            | step_exit.next res1 =>
              let size1 := (req_header_at s.conn.inb off.toNat).size
              let c1 := { s.conn with inb_inuse := to_int32 (s.conn.inb_inuse - size1) }
              let r := deliver_loop env fuel res1 c1
              ⟨r.exit, r.conn, s.trace ++ r.trace⟩
    else ⟨loop_exit.done res, c, []⟩

/-- The authentication block.  `cmsg` is what `CMSG_FIRSTHDR (&msg_recv)` finds: the
credentials in the control buffer, or nothing (a null pointer).  The pointer
`cred = CMSG_DATA (cmsg)` is never null, so the test `if (cred)` always passes and a null
`cmsg` ends in the read of `cred->uid` through a bad pointer (`none`).  Otherwise: accept uid
0 or the expected gid, switch `SO_PASSCRED` off and set the flag; log when the flag is still
clear. -/
def authenticate (env : exec_env) (c : conn_info) (cmsg : Option ucred) :
    Option (conn_info × List event) :=
  if c.authenticated = false then
    match cmsg with
    | none => none
    | some cr =>
      if cr.uid = 0 ∨ cr.gid = env.gid_valid then
        some ({ c with passcred := false, authenticated := true }, [])
      else some (c, [event.security_log])
  else some (c, [])

/-- The receive-buffer compaction at the end of `poll_handler_libais_deliver`. -/
def compact (env : exec_env) (c : conn_info) : conn_info :=
  if c.inb_inuse = 0 then { c with inb_start := 0 }
  else if c.inb_start ≥ (env.SIZEINB : Int) then
    { c with inb := (c.inb.drop (c.inb_start - c.inb_inuse).toNat).take c.inb_inuse.toNat
                      ++ c.inb.drop c.inb_inuse.toNat
             inb_start := c.inb_inuse }
  else c

/-- The store of received bytes at `&inb[start]`. -/
def write_at (inb : List Byte) (start : Nat) (bytes : List Byte) : List Byte :=
  inb.take start ++ bytes ++ inb.drop (start + bytes.length)

/-- The label `error_disconnect`. -/
def error_disconnect (env : exec_env) (c : conn_info) (trace : List event) : result :=
  let r := libais_disconnect env c
  ⟨r.status, r.conn, trace ++ event.disconnect :: r.trace⟩

/-- The part of `poll_handler_libais_deliver` after `recvmsg` has produced `res` and stored
`bytes`: authentication, the frame loop, compaction.  `cmsg` is what `CMSG_FIRSTHDR` finds
after the call. -/
def deliver_received (env : exec_env) (fuel : Nat) (c : conn_info) (res : Int)
    (cmsg : Option ucred) (trace : List event) : result :=
  match authenticate env c cmsg with
  | none => ⟨status.fault fault.cred_deref, c, trace⟩
  | some a =>
    let c1 := { a.1 with inb_inuse := a.1.inb_inuse + res, inb_start := a.1.inb_start + res }
    let l := deliver_loop env fuel res c1
    let tr := trace ++ a.2 ++ l.trace
    match l.exit with
    | loop_exit.fault f => ⟨status.fault f, l.conn, tr⟩
    | loop_exit.out_of_fuel => ⟨status.out_of_fuel, l.conn, tr⟩
    | loop_exit.error_disconnect => error_disconnect env l.conn tr
    | loop_exit.done res1 => ⟨status.returned res1, compact env l.conn, tr⟩

/-- The function `poll_handler_libais_deliver`; `revent` is the ready set and `rx` what the
socket does when `recvmsg` is called.  After `EAGAIN` the code falls through to the
authentication block with `res = -1`; `msg_controllen` is still `sizeof (cmsg_cred)`, so
`CMSG_FIRSTHDR` finds the control buffer as the stack left it. -/
def poll_handler_libais_deliver (env : exec_env) (fuel : Nat) (revent : poll_mask)
    (rx : recv_result) (c : conn_info) : result :=
  let c0 := if revent.pollout then (cleanup_send_response c).2 else c
  if revent.pollin = false then ⟨status.returned 0, c0, []⟩
  else if c0.state ≠ conn_state.CONN_STATE_ACTIVE then error_disconnect env c0 []
  else if c0.inb_start < 0 ∨ (c0.inb.length : Int) < c0.inb_start then
    ⟨status.fault fault.inb_index, c0, []⟩
  else
    let iov_len := to_size_t ((env.SIZEINB : Int) - c0.inb_start)
    if iov_len = 0 then ⟨status.fault fault.assert_iov_len, c0, []⟩
    else
      let tr := [event.recvmsg iov_len.toNat (!c0.authenticated)]
      match recvmsg rx iov_len.toNat with
      | recv_outcome.error => error_disconnect env c0 tr
      | recv_outcome.eagain => deliver_received env fuel c0 (-1) (some env.cmsg_cred) tr
      | recv_outcome.got bytes cred =>
        if bytes.length = 0 then error_disconnect env c0 tr
        else
          deliver_received env fuel
            { c0 with inb := write_at c0.inb c0.inb_start.toNat bytes }
            bytes.length cred tr


/-! ## Vocabulary of the sender properties -/

/-- The bytes still owed to the peer by a queue content: the head record from `byte_start`
onward, then the later records in queue order. -/
def pending_of (items : List outq_item) (byte_start : Nat) : List Byte :=
  match items with
  | [] => []
  | h :: t => h.msg.drop byte_start ++ (t.map (fun it => it.msg)).flatten

/-- The bytes still pending in `outq` of a connection. -/
def pending (c : conn_info) : List Byte := pending_of c.outq.items c.byte_start

/-- Every record holds at most `mlen` bytes (it is a `memcpy` of `mlen` bytes). -/
def records_ok (items : List outq_item) : Prop := ∀ it ∈ items, it.msg.length ≤ it.mlen

/-- The state of `outq` between calls on a live connection: records are copies of their
`mlen` bytes, and no write offset is kept while nothing is queued. -/
def outq_wf (c : conn_info) : Prop :=
  records_ok c.outq.items ∧ (c.outq.items = [] → c.byte_start = 0)

/-- A call made on the sending side of a connection. -/
inductive send_op
  /-- `libais_send_response (conn_info, msg, mlen)` -/
  | send (msg : List Byte) (mlen : Nat)
  /-- a write-ready event: `cleanup_send_response (conn_info)` -/
  | drain
  deriving DecidableEq, Repr

/-- One call of the sending side: its return value and the connection afterwards. -/
def run_op (c : conn_info) : send_op → Int × conn_info
  | send_op.send msg mlen => libais_send_response c msg mlen
  | send_op.drain => cleanup_send_response c

/-- The connection after a sequence of calls. -/
def run_ops (c : conn_info) : List send_op → conn_info
  | [] => c
  | op :: ops => run_ops (run_op c op).2 ops

/-- Every `libais_send_response` call of the sequence returns 0. -/
def sends_return_zero (c : conn_info) : List send_op → Prop
  | [] => True
  | send_op.send msg mlen :: ops =>
    (libais_send_response c msg mlen).1 = 0 ∧
      sends_return_zero (libais_send_response c msg mlen).2 ops
  | send_op.drain :: ops => sends_return_zero (cleanup_send_response c).2 ops

/-- The message payloads of a sequence of calls, concatenated in call order. -/
def payloads : List send_op → List Byte
  | [] => []
  | send_op.send msg mlen :: ops => msg.take mlen ++ payloads ops
  | send_op.drain :: ops => payloads ops

/-- A sample payload: the bytes 0, 1, .., n - 1. -/
def ex_msg (n : Nat) : List Byte := (List.range n).map (fun i => Fin.ofNat i)

/-- A freshly created sample connection (4 queue slots, 32 buffer bytes) on a socket and an
allocator with the given behaviour. -/
def ex_conn (sock : List send_result) (heap : List Bool) : conn_info :=
  { conn_info_create 4 32 [] 7 with sock := sock, heap := heap }


/-- The relation between the write offset and the queue content claimed for every return of
the senders: the offset lies inside the head record, and is zero when nothing is queued. -/
def byte_start_ok (items : List outq_item) (byte_start : Nat) : Prop :=
  match items with
  | [] => byte_start = 0
  | h :: _ => byte_start < h.mlen

instance (items : List outq_item) (byte_start : Nat) : Decidable (byte_start_ok items byte_start) := by
  unfold byte_start_ok
  cases items <;> exact inferInstance

/-- The offset invariant of a connection: `byte_start < head.mlen` when `outq` is non-empty,
`byte_start == 0` when it is empty. -/
def byte_start_inv (c : conn_info) : Prop := byte_start_ok c.outq.items c.byte_start

instance (c : conn_info) : Decidable (byte_start_inv c) := by
  unfold byte_start_inv
  exact inferInstance

/-- No queued record has length zero. -/
def records_nonempty (items : List outq_item) : Prop := ∀ it ∈ items, 0 < it.mlen

/-- Every `libais_send_response` call of the sequence is given a message of non-zero length. -/
def sends_nonempty (ops : List send_op) : Prop :=
  ∀ msg mlen, send_op.send msg mlen ∈ ops → 0 < mlen

/-- The relation between the write offset and the queue content that the senders keep
whatever they are given: the offset lies inside the head record, or the head record has
length zero and the offset is zero; the offset is zero when nothing is queued. -/
def byte_start_rel (items : List outq_item) (byte_start : Nat) : Prop :=
  match items with
  | [] => byte_start = 0
  | h :: _ => byte_start < h.mlen ∨ (h.mlen = 0 ∧ byte_start = 0)

instance (items : List outq_item) (byte_start : Nat) :
    Decidable (byte_start_rel items byte_start) := by
  unfold byte_start_rel
  cases items <;> exact inferInstance

/-- The next `sendmsg` of `mlen` bytes on a socket with this behaviour accepts a part of
them: at least one byte, not all. -/
def partial_accept (sock : List send_result) (mlen : Nat) : Bool :=
  match (sendmsg sock mlen).1 with
  | send_outcome.sent k => decide (0 < k) && decide (k < mlen)
  | _ => false

/-- The call `libais_send_response (c, msg, mlen)` is about to take the one path on which
the offset is left behind: the connection is active and `outq` not full, the socket takes
all of `outq`, then a part of the new message (at least one byte, not all of it), and the
copy of the message cannot be allocated. -/
def partial_write_alloc_failure (c : conn_info) (mlen : Nat) : Bool :=
  libais_connection_active c && !queue_is_full c.outq &&
  queue_is_empty (outq_drain c c.outq.items).2.outq &&
  partial_accept (outq_drain c c.outq.items).2.sock mlen &&
  (c.heap.head? == some false)

/-- No `libais_send_response` call of the sequence takes that path. -/
def no_partial_write_alloc_failure (c : conn_info) : List send_op → Bool
  | [] => true
  | send_op.send msg mlen :: ops =>
    !partial_write_alloc_failure c mlen &&
      no_partial_write_alloc_failure (libais_send_response c msg mlen).2 ops
  | send_op.drain :: ops => no_partial_write_alloc_failure (cleanup_send_response c).2 ops

/-- A connection with one queue slot whose socket takes nothing: after one
`libais_send_response` the queue is full. -/
def ex_full : conn_info :=
  (libais_send_response (conn_info_create 1 32 [] 7) (ex_msg 4) 4).2

/-- A connection with four queue slots, one of them taken by a 4-byte record the socket
did not accept, in front of a socket with the given behaviour. -/
def ex_queued (sock : List send_result) : conn_info :=
  { (libais_send_response (conn_info_create 4 32 [] 7) (ex_msg 4) 4).2 with sock := sock }

/-- A service table with no entries and no flow control in force. -/
def ex_env0 : exec_env := ⟨32, 500, [], fun _ => true, false, 6, [], ⟨0, 1000, 1000⟩⟩

/-! ## Sample service tables -/

/-- A request handler that does nothing and returns 0. -/
def ex_handler_fn (c : conn_info) (_h : req_header) (_frame : List Byte) : Int × conn_info :=
  (0, c)

/-- A request handler that asks for a disconnect by returning -1. -/
def ex_failing_fn (c : conn_info) (_h : req_header) (_frame : List Byte) : Int × conn_info :=
  (-1, c)

/-- An init function that binds the connection to service `id + 1` whether or not the peer has
been authenticated. -/
def ex_init_any (c : conn_info) (h : req_header) (_frame : List Byte) : Int × conn_info :=
  (0, { c with service := h.id + 1 })

/-- An init function that binds the connection to service `id + 1` only when the peer has been
authenticated, and asks for a disconnect otherwise. -/
def ex_init_checked (c : conn_info) (h : req_header) (_frame : List Byte) : Int × conn_info :=
  if c.authenticated then (0, { c with service := h.id + 1 }) else (-1, c)

/-- The opcode table of the sample services: opcode 0 needs no flow control, opcode 1 is flow
controlled (overload reply: 12 bytes, id 77), opcode 2 fails, opcode 3 needs no flow
control. -/
def ex_handlers : List libais_handler :=
  [ ⟨ex_handler_fn, 12, 70, flow_control.FLOW_CONTROL_NOT_REQUIRED⟩,
    ⟨ex_handler_fn, 12, 77, flow_control.FLOW_CONTROL_REQUIRED⟩,
    ⟨ex_failing_fn, 12, 78, flow_control.FLOW_CONTROL_NOT_REQUIRED⟩,
    ⟨ex_handler_fn, 12, 79, flow_control.FLOW_CONTROL_NOT_REQUIRED⟩ ]

/-- A sample service whose init function does not look at the authenticated flag. -/
def ex_service_any : service_handler := ⟨ex_handlers, 4, ex_init_any, none⟩

/-- A sample service whose init function refuses an unauthenticated peer. -/
def ex_service_checked : service_handler := ⟨ex_handlers, 4, ex_init_checked, none⟩

/-- An environment with one service (`SIZEINB` 32, expected gid 500, `SA_ERR_TRY_AGAIN` 6;
the untouched control buffer reads as uid 1000, gid 1000). -/
def ex_env (sh : service_handler) (sync : Bool) : exec_env :=
  ⟨32, 500, [sh], fun _ => true, sync, 6, [], ⟨0, 1000, 1000⟩⟩

/-- A request frame of `size` bytes for opcode `id`: the header followed by zero bytes. -/
def ex_frame (size id : Nat) : List Byte :=
  enc32 size ++ enc32 id ++ List.replicate (size - 8) 0

/-- The ready set `POLLIN`. -/
def ex_pollin : poll_mask := ⟨true, false, false⟩

/-! ## Vocabulary of the deliver-side properties -/

/-- The fields of a connection that belong to the receive side: the senders never write
them. -/
def recv_side (c : conn_info) : Bool × Nat × List Byte × Int × Int × Bool :=
  (c.authenticated, c.service, c.inb, c.inb_start, c.inb_inuse, c.passcred)

/-- A connection that is not authenticated is not bound to a service. -/
def unauth_unbound (c : conn_info) : Prop := c.authenticated = false → c.service = 0

/-- No function of the service table leaves a connection both unauthenticated and bound to a
service: the conditions for binding an unauthenticated peer live in `libais_init_fn`. -/
def services_respect_auth (env : exec_env) : Prop :=
  ∀ sh ∈ env.ais_service_handlers,
    (∀ c h f, unauth_unbound c → unauth_unbound (sh.libais_init_fn c h f).2) ∧
    (∀ hd ∈ sh.libais_handlers, ∀ c h f,
      unauth_unbound c → unauth_unbound (hd.libais_handler_fn c h f).2) ∧
    (∀ g, sh.libais_exit_fn = some g → ∀ c, unauth_unbound c → unauth_unbound (g c).2)

/-- The reactor serving a connection: one `poll_handler_libais_deliver` call per ready event,
until a call returns -1 (the reactor then removes the descriptor) or does not return.  The
result carries the status of the last call made and the events of all calls. -/
def run_poll (env : exec_env) (fuel : Nat) : conn_info → List (poll_mask × recv_result) → result
  | c, [] => ⟨status.returned 0, c, []⟩
  | c, ev :: rest =>
    let r := poll_handler_libais_deliver env fuel ev.1 ev.2 c
    match r.status with
    | status.returned res =>
      if res = -1 then r
      else
        let r2 := run_poll env fuel r.conn rest
        ⟨r2.status, r2.conn, r.trace ++ r2.trace⟩
    | _ => r

/-- A request handler that returns 0 and leaves the receive side of the connection (the
receive buffer and its two offsets, the service binding and the authentication flag)
alone. -/
def handler_ok (fn : conn_info → req_header → List Byte → Int × conn_info) : Prop :=
  ∀ c hdr frame, (fn c hdr frame).1 = 0 ∧ recv_side (fn c hdr frame).2 = recv_side c

/-- The opcode in the header of a frame. -/
def frame_id (f : List Byte) : Nat := le32 (f.drop 4)

/-- A well-formed frame for a service: its header declares its own length, which lies
between `sizeof (struct req_header)` and `SIZEINB`; its opcode passes the bounds check and
selects an entry of the table; and if flow control lets the request through, the handler of
the entry behaves as `handler_ok`. -/
def well_formed_frame (env : exec_env) (sh : service_handler) (f : List Byte) : Prop :=
  le32 f = f.length ∧ sizeof_req_header ≤ f.length ∧ f.length ≤ env.SIZEINB ∧
  frame_id f ≤ sh.libais_handlers_count ∧
  ∃ h, sh.libais_handlers[frame_id f]? = some h ∧
    (send_ok env h f.length = true → handler_ok h.libais_handler_fn)

/-- The dispatch of the frame cannot move the connection out of ACTIVE: flow control lets the
request through and its handler does not write `state`. -/
def stays_active (env : exec_env) (sh : service_handler) (f : List Byte) : Prop :=
  ∀ h, sh.libais_handlers[frame_id f]? = some h →
    send_ok env h f.length = true ∧
    ∀ c hdr frame, (h.libais_handler_fn c hdr frame).2.state = c.state

/-- The number of leading frames of a stream that lie completely within its first `r`
bytes. -/
def complete_count : List (List Byte) → Nat → Nat
  | [], _ => 0
  | f :: fs, r => if f.length ≤ r then 1 + complete_count fs (r - f.length) else 0

/-- The calls made to service functions and to `libais_disconnect`, in order: the events of
a trace other than `recvmsg` and the security log. -/
def calls (tr : List event) : List event :=
  tr.filter (fun e =>
    match e with
    | event.recvmsg _ _ => false
    | event.security_log => false
    | _ => true)

/-! ## The wire dispatch path (`deliver_fn`) -/

/-- Modelled from the spec: `swab32` of `exec/swab.h` (not in the sources at hand), the
byte swap of a 32-bit value ("byte-swap the two header fields"). -/
def swab32 (n : Nat) : Nat := le32 (enc32 n).reverse

/-- Ways `deliver_fn` leaves defined behaviour or aborts. -/
inductive wire_fault
  /-- `iovec[0]` does not exist, or the header lies outside the buffer it is read from -/
  | header_outside
  /-- `assert (pos < MESSAGE_SIZE_MAX)` failed -/
  | assert_pos
  /-- `assert(iovec->iov_len == header->size)` failed -/
  | assert_size
  /-- the index into `aisexec_handler_fns[]` is not below `aisexec_handler_fns_count` -/
  | table_index
  deriving DecidableEq, Repr

/-- What `deliver_fn` does: it calls `aisexec_handler_fns[index]` with a pointer to `msg`
(the message as the handler finds it), the source address and the endian flag, or it
faults. -/
inductive deliver_outcome
  | invoked (index : Nat) (msg : List Byte) (source_addr : Nat) (endian : Bool)
  | fault (f : wire_fault)
  deriving DecidableEq, Repr

/-- The loop `for (i = 0; i < iov_len; i++)` of `deliver_fn`: the value of `pos` after the
segments have been copied, or `none` when `assert (pos < MESSAGE_SIZE_MAX)` fails after one of
the copies. -/
def assemble (MESSAGE_SIZE_MAX : Nat) : Nat → List (List Byte) → Option Nat
  | pos, [] => some pos
  | pos, seg :: rest =>
    if pos + seg.length < MESSAGE_SIZE_MAX then assemble MESSAGE_SIZE_MAX (pos + seg.length) rest
    else none

/-- The two statements `header->id = swab32 (header->id); header->size = swab32
(header->size)` applied in place to a buffer that begins with a `struct req_header`. -/
def swab_header (buf : List Byte) : List Byte :=
  enc32 (swab32 (le32 buf)) ++ enc32 (swab32 (le32 (buf.drop 4))) ++ buf.drop 8

/-- The end of `deliver_fn`, from `if (endian_conversion_required)` on: `buf` is the memory
`header` points to, `first_len` is `iovec->iov_len`. -/
def deliver_header (aisexec_handler_fns_count : Nat) (source_addr : Nat) (first_len : Nat)
    (buf : List Byte) (endian_conversion_required : Bool) : deliver_outcome :=
  if buf.length < sizeof_req_header then deliver_outcome.fault wire_fault.header_outside
  else
    let buf1 := if endian_conversion_required then swab_header buf else buf
    if first_len ≠ le32 buf1 then deliver_outcome.fault wire_fault.assert_size
    else if le32 (buf1.drop 4) < aisexec_handler_fns_count then
      deliver_outcome.invoked (le32 (buf1.drop 4)) buf1 source_addr endian_conversion_required
    else deliver_outcome.fault wire_fault.table_index

/-- The function `deliver_fn`.  `iovec` holds the segments (`iov_len` is their number),
`delivery_data` is the content of the global scratch buffer on entry.  With more than one
segment the header is read from the scratch buffer, into which the segments have been copied
one after the other; the handler is then handed the copied bytes. -/
def deliver_fn (MESSAGE_SIZE_MAX aisexec_handler_fns_count : Nat) (delivery_data : List Byte)
    (source_addr : Nat) (iovec : List (List Byte)) (endian_conversion_required : Bool) :
    deliver_outcome :=
  match iovec with
  | [] => deliver_outcome.fault wire_fault.header_outside
  | [seg] =>
    deliver_header aisexec_handler_fns_count source_addr seg.length seg
      endian_conversion_required
  | seg :: rest =>
    match assemble MESSAGE_SIZE_MAX 0 (seg :: rest) with
    | none => deliver_outcome.fault wire_fault.assert_pos
    | some pos =>
      match deliver_header aisexec_handler_fns_count source_addr seg.length
          ((seg :: rest).flatten ++ delivery_data.drop pos) endian_conversion_required with
      | deliver_outcome.invoked i buf a e => deliver_outcome.invoked i (buf.take pos) a e
      | deliver_outcome.fault f => deliver_outcome.fault f

/-- The wire message of scenario "endian flip": header bytes `00 00 00 20` (size) and
`00 00 00 02` (id) followed by 24 body bytes 1, 2, .., 24. -/
def ex_wire : List Byte :=
  [0, 0, 0, 32, 0, 0, 0, 2] ++ (List.range 24).map (fun i => Fin.ofNat (i + 1))

/-! ## Sample inputs for the robustness properties -/

/-- The credentials of an unprivileged peer: uid 1000, gid 1000. -/
def ex_cred : ucred := ⟨1, 1000, 1000⟩

/-- A connection bound to service 1 and authenticated. -/
def ex_bound : conn_info := { ex_conn [] [] with service := 1, authenticated := true }

/-- The connection `ex_bound` after it has received the 8 bytes of a frame whose header
declares size 0 and opcode 0. -/
def ex_zero_conn : conn_info :=
  { ex_bound with inb := write_at ex_bound.inb 0 (ex_frame 0 0), inb_inuse := 8, inb_start := 8 }

/-- An exit handler that asks for a retry by returning -1. -/
def ex_exit_retry (c : conn_info) : Int × conn_info := (-1, c)

/-- A sample service whose exit handler asks for a retry. -/
def ex_service_retry : service_handler := ⟨ex_handlers, 4, ex_init_any, some ex_exit_retry⟩

/-- An init function that returns 0 and leaves the connection unbound. -/
def ex_init_unbound (c : conn_info) (_h : req_header) (_frame : List Byte) : Int × conn_info :=
  (0, c)

/-- A sample service whose init function does not bind the connection. -/
def ex_service_unbound : service_handler := ⟨ex_handlers, 4, ex_init_unbound, none⟩

/-- The call of the service's exit handler at the start of `libais_disconnect`: its result and
the connection as it leaves it; a null `libais_exit_fn` leaves `res = 0`. -/
def exit_call (sh : service_handler) (c : conn_info) : Int × conn_info :=
  match sh.libais_exit_fn with
  | none => (0, c)
  | some g => g c

/-! ## Vocabulary of the life-cycle properties -/

/-- Whether a connection is bound to a service (`service != SOCKET_SERVICE_INIT`). -/
def is_bound (c : conn_info) : Bool := decide (c.service ≠ 0)

/-- The events that are calls of a `libais_init_fn`. -/
def is_init : event → Bool
  | event.init_fn _ _ => true
  | _ => false

/-- The events of an opcode dispatch: the call of a `libais_handler_fn`, or the overload reply
sent in its place when flow control holds the request back. -/
def is_dispatch : event → Bool
  | event.handler_fn _ _ _ _ => true
  | event.send_response _ _ => true
  | _ => false

/-- A `libais_handler_fn` call made while `service == SOCKET_SERVICE_INIT`. -/
def unbound_handler : event → Bool
  | event.handler_fn s _ _ _ => decide (s = 0)
  | _ => false

/-- The discipline of a trace, `seen` telling whether `libais_init_fn` has been called before
it: a `libais_init_fn` call is the first one, an opcode dispatch comes after it, and no
`libais_handler_fn` call is made while `service == SOCKET_SERVICE_INIT`. -/
def init_first : Bool → List event → Bool
  | _, [] => true
  | seen, e :: tr =>
    if is_init e then !seen && init_first true tr
    else if is_dispatch e then seen && !unbound_handler e && init_first seen tr
    else init_first seen tr

/-- Whether `libais_init_fn` has been called by the end of a trace. -/
def seen_after (seen : Bool) (tr : List event) : Bool := seen || tr.any is_init

/-- Every `libais_init_fn` that returns a value other than -1 has bound the connection. -/
def init_binds (env : exec_env) : Prop :=
  ∀ sh ∈ env.ais_service_handlers, ∀ c h f,
    (sh.libais_init_fn c h f).1 ≠ -1 → (sh.libais_init_fn c h f).2.service ≠ 0

/-- No request handler and no exit handler unbinds a connection. -/
def services_keep_binding (env : exec_env) : Prop :=
  ∀ sh ∈ env.ais_service_handlers,
    (∀ hd ∈ sh.libais_handlers, ∀ c h f,
      c.service ≠ 0 → (hd.libais_handler_fn c h f).2.service ≠ 0) ∧
    (∀ g, sh.libais_exit_fn = some g → ∀ c, c.service ≠ 0 → (g c).2.service ≠ 0)

/-! ## Vocabulary of the framing property: read events -/

/-- A read-ready event on a connection whose peer has written a byte stream: `avail` bytes of
the stream are waiting in the kernel, `revent` is the ready set handed to the callback, and
`cred` is the control message `recvmsg` attaches when a control buffer is offered. -/
structure read_event where
  avail : Nat
  revent : poll_mask
  cred : Option ucred
  deriving DecidableEq, Repr

/-- The opcode dispatches of a trace, in order: handler calls and overload replies. -/
def dispatches (tr : List event) : List event := tr.filter is_dispatch

/-- A dispatch without the record of the authentication flag. -/
def erase_auth : event → event
  | event.handler_fn s i f _ => event.handler_fn s i f false
  | e => e

/-- The dispatch the deliver loop makes for the complete frame `f` on a connection bound to
`svc` (table entry `sh`) whose flag is `a`: the handler call, or the overload reply when flow
control holds the request back.  (For an opcode without a table entry, which
`well_formed_frame` excludes, the value is immaterial.) -/
def dispatch_event (env : exec_env) (sh : service_handler) (svc : Nat) (a : Bool)
    (f : List Byte) : event :=
  match sh.libais_handlers[frame_id f]? with
  | some h =>
    if send_ok env h f.length then event.handler_fn svc (frame_id f) f a
    else
      event.send_response
        (msg_overlay_bytes ⟨h.response_size, h.response_id, env.SA_ERR_TRY_AGAIN⟩
          env.overlay_buf) h.response_size
  | none => event.handler_fn svc (frame_id f) f a

/-- The number of bytes `recvmsg` took in a call of `poll_handler_libais_deliver` with this
trace, when `avail` bytes were waiting: as many as fit into the space offered, and none when
`recvmsg` was not called. -/
def bytes_taken (avail : Nat) (tr : List event) : Nat :=
  match tr with
  | event.recvmsg iov_len _ :: _ => min avail iov_len
  | _ => 0

/-- What a byte stream waiting in the kernel turns into: one call of
`poll_handler_libais_deliver` per read event, each offered the bytes of the stream then
available.  Feeding stops when the stream is used up or a call does not return a value other
than -1.  The result is the connection, the bytes not yet received and the events. -/
def feed (env : exec_env) (fuel : Nat) :
    conn_info → List Byte → List read_event → conn_info × List Byte × List event
  | c, s, [] => (c, s, [])
  | c, [], _ :: _ => (c, [], [])
  | c, b :: s, ev :: evs =>
    let r := poll_handler_libais_deliver env fuel ev.revent
      (recv_result.data ((b :: s).take ev.avail) ev.cred) c
    let rest := (b :: s).drop (bytes_taken ev.avail r.trace)
    match r.status with
    | status.returned res =>
      if res = -1 then (r.conn, rest, r.trace)
      else
        let t := feed env fuel r.conn rest evs
        (t.1, t.2.1, r.trace ++ t.2.2)
    | _ => (r.conn, rest, r.trace)

/-- The receive side of a connection between read events while the frames `fs` are still to
be dispatched: it is bound to `svc`, the first `u` bytes of the frames are buffered at
`inb[st - u .. st]`, there is free space behind them, and the first frame is not yet
complete. -/
def framing_inv (env : exec_env) (svc : Nat) (c : conn_info)
    (fs : List (List Byte)) (u st : Nat) : Prop :=
  c.service = svc ∧
  c.inb.length = env.SIZEINB ∧ c.inb_inuse = (u : Int) ∧ c.inb_start = (st : Int) ∧
  u ≤ st ∧ st < env.SIZEINB ∧ (c.inb.drop (st - u)).take u = fs.flatten.take u ∧
  u ≤ fs.flatten.length ∧ complete_count fs u = 0

/-- An 8-byte frame for the flow-controlled opcode 1. -/
def ex_gated : List Byte := ex_frame 8 1

/-- A connection bound to service 1 and authenticated, ACTIVE, whose `outq` of one slot is
already full. -/
def ex_one_slot_full : conn_info := { ex_full with service := 1, authenticated := true }

/-- The overload reply of the sample opcode 1: size 12, id 77, error 6. -/
def ex_reply : event := event.send_response [12, 0, 0, 0, 77, 0, 0, 0, 6, 0, 0, 0] 12

/-! ## Header fields and their bytes -/

theorem le32_lt (bs : List Byte) : le32 bs < 4294967296 := by
  unfold le32
  have h0 := (bs.getD 0 0).isLt
  have h1 := (bs.getD 1 0).isLt
  have h2 := (bs.getD 2 0).isLt
  have h3 := (bs.getD 3 0).isLt
  omega

theorem le32_enc32 (n : Nat) (rest : List Byte) : le32 (enc32 n ++ rest) = n % 4294967296 := by
  unfold le32 enc32
  simp only [List.cons_append, List.nil_append, List.getD_cons_zero, List.getD_cons_succ,
    Fin.ofNat, Fin.val_mk]
  omega

theorem enc32_length (n : Nat) : (enc32 n).length = 4 := rfl


/-! ## The outbound sender: stream integrity -/

theorem sendmsg_le (s : List send_result) (len k : Nat) (s1 : List send_result)
    (h : sendmsg s len = (send_outcome.sent k, s1)) : k ≤ len := by
  induction s with
  | nil => simp [sendmsg] at h
  | cons r rest ih =>
    cases r with
    | sent n =>
      simp [sendmsg] at h
      omega
    | eintr => exact ih (by simpa [sendmsg] using h)
    | eagain => simp [sendmsg] at h
    | error => simp [sendmsg] at h

theorem outq_drain_stream (items : List outq_item) :
    ∀ c : conn_info, records_ok items →
      (outq_drain c items).2.wire
          ++ pending_of (outq_drain c items).2.outq.items (outq_drain c items).2.byte_start
        = c.wire ++ pending_of items c.byte_start
      ∧ records_ok (outq_drain c items).2.outq.items
      ∧ ((items = [] → c.byte_start = 0) →
          (outq_drain c items).2.outq.items = [] → (outq_drain c items).2.byte_start = 0) := by
  induction items with
  | nil =>
    intro c _
    simp [outq_drain, pending_of, records_ok]
  | cons item rest ih =>
    intro c hrec
    have hitem : item.msg.length ≤ item.mlen := hrec item (List.mem_cons_self _ _)
    have hrest : records_ok rest := fun it hit => hrec it (List.mem_cons_of_mem _ hit)
    unfold outq_drain
    rcases hs : sendmsg c.sock (item.mlen - c.byte_start) with ⟨o, s⟩
    cases o with
    | eagain => simpa [pending_of] using hrec
    | error => simpa [pending_of] using hrec
    | sent k =>
      have hk := sendmsg_le _ _ _ _ hs
      by_cases hne : k + c.byte_start ≠ item.mlen
      · simp only [if_pos hne]
        refine ⟨?_, hrec, ?_⟩
        · simp only [pending_of, List.append_assoc]
          rw [← List.append_assoc (List.take k _), ← List.drop_drop, List.take_append_drop]
        · simp
      · simp only [if_neg hne]
        have heq : k + c.byte_start = item.mlen := by omega
        have hih := ih ({ c with sock := s, wire := c.wire ++ (item.msg.drop c.byte_start).take k, byte_start := 0 } : conn_info) hrest
        obtain ⟨h1, h2, h3⟩ := hih
        refine ⟨?_, h2, fun _ => h3 (fun _ => rfl)⟩
        rw [h1]
        simp only [pending_of, List.append_assoc]
        have : (item.msg.drop c.byte_start).take k = item.msg.drop c.byte_start := by
          apply List.take_of_length_le
          simp only [List.length_drop]
          omega
        rw [this]
        cases rest with
        | nil => simp [pending_of]
        | cons r rs => simp [pending_of]

theorem pending_of_snoc (items : List outq_item) (bs : Nat) (it : outq_item)
    (h : items ≠ []) : pending_of (items ++ [it]) bs = pending_of items bs ++ it.msg := by
  cases items with
  | nil => exact absurd rfl h
  | cons a rest => simp [pending_of]

theorem malloc_fields (c : conn_info) :
    (malloc c).2.outq = c.outq ∧ (malloc c).2.byte_start = c.byte_start ∧
    (malloc c).2.wire = c.wire ∧ (malloc c).2.state = c.state := by
  unfold malloc
  cases c.heap <;> simp

theorem send_requested_stream (c : conn_info) (msg : List Byte) (mlen : Nat)
    (hwf : outq_wf c) :
    (send_requested c msg mlen).2.outq = c.outq ∧
    (((send_requested c msg mlen).1 = -1 ∧
        (send_requested c msg mlen).2.wire
            ++ pending_of (c.outq.items ++ [⟨msg.take mlen, mlen⟩])
                (send_requested c msg mlen).2.byte_start
          = c.wire ++ pending c ++ msg.take mlen) ∨
     ((send_requested c msg mlen).1 ≠ -1 ∧ c.outq.items = [] ∧
        (send_requested c msg mlen).2.byte_start = 0 ∧
        (send_requested c msg mlen).2.wire = c.wire ++ pending c ++ msg.take mlen)) := by
  unfold send_requested
  by_cases he : queue_is_empty c.outq = true
  · have hnil : c.outq.items = [] := by simpa [queue_is_empty] using he
    have hbs : c.byte_start = 0 := hwf.2 hnil
    rw [if_pos he]
    rcases hs : sendmsg c.sock mlen with ⟨o, s⟩
    cases o with
    | eagain => simp [poll_dispatch_modify, pending, pending_of, hnil]
    | error => simp [pending, pending_of, hnil, hbs]
    | sent k =>
      have hk := sendmsg_le _ _ _ _ hs
      by_cases hne : k + c.byte_start ≠ mlen
      · dsimp only
        rw [if_pos hne]
        refine ⟨rfl, Or.inl ⟨rfl, ?_⟩⟩
        simp [pending, pending_of, hnil, hbs]
      · dsimp only
        rw [if_neg hne]
        have hkm : k = mlen := by omega
        refine ⟨rfl, Or.inr ⟨by simp, hnil, rfl, ?_⟩⟩
        simp [poll_dispatch_modify, pending, pending_of, hnil, hkm]
  · rw [if_neg he]
    have hne : c.outq.items ≠ [] := by simpa [queue_is_empty] using he
    refine ⟨rfl, Or.inl ⟨rfl, ?_⟩⟩
    rw [pending_of_snoc _ _ _ hne]
    simp [pending]

theorem records_ok_snoc (items : List outq_item) (msg : List Byte) (mlen : Nat)
    (h : records_ok items) : records_ok (items ++ [⟨msg.take mlen, mlen⟩]) := by
  intro it hit
  rcases List.mem_append.mp hit with h1 | h1
  · exact h it h1
  · simp at h1
    subst h1
    simp

theorem drain_keeps (items : List outq_item) :
    ∀ c : conn_info, (outq_drain c items).2.state = c.state ∧
      (outq_drain c items).2.outq.size = c.outq.size ∧
      (outq_drain c items).2.outq.items.length ≤ items.length := by
  induction items with
  | nil => intro c; simp [outq_drain]
  | cons item rest ih =>
    intro c
    unfold outq_drain
    rcases hs : sendmsg c.sock (item.mlen - c.byte_start) with ⟨o, s⟩
    cases o with
    | eagain => simp
    | error => simp
    | sent k =>
      by_cases hne : k + c.byte_start ≠ item.mlen
      · simp only [if_pos hne]; simp
      · simp only [if_neg hne]
        have hih := ih ({ c with sock := s, wire := c.wire ++ (item.msg.drop c.byte_start).take k, byte_start := 0 } : conn_info)
        refine ⟨hih.1, hih.2.1, ?_⟩
        have := hih.2.2
        simp only [List.length_cons]
        omega

theorem libais_send_response_stream (c : conn_info) (msg : List Byte) (mlen : Nat)
    (hwf : outq_wf c) (h0 : (libais_send_response c msg mlen).1 = 0) :
    (libais_send_response c msg mlen).2.wire ++ pending (libais_send_response c msg mlen).2
        = c.wire ++ pending c ++ msg.take mlen
      ∧ outq_wf (libais_send_response c msg mlen).2 := by
  unfold libais_send_response at h0 ⊢
  by_cases ha : (!libais_connection_active c) = true
  · rw [if_pos ha] at h0; simp at h0
  rw [if_neg ha] at h0 ⊢
  by_cases hf : queue_is_full c.outq = true
  · rw [if_pos hf] at h0; simp at h0
  rw [if_neg hf] at h0 ⊢
  obtain ⟨d1, d2, d3⟩ := outq_drain_stream c.outq.items c hwf.1
  have hwf1 : outq_wf (outq_drain c c.outq.items).2 := ⟨d2, d3 hwf.2⟩
  obtain ⟨q, hq⟩ := send_requested_stream (outq_drain c c.outq.items).2 msg mlen hwf1
  rcases hq with ⟨hres, hstream⟩ | ⟨hres, hnil, hbs, hstream⟩
  · rw [if_pos hres] at h0 ⊢
    obtain ⟨m1, m2, m3, m4⟩ := malloc_fields (send_requested (outq_drain c c.outq.items).2 msg mlen).2
    rcases hm : malloc (send_requested (outq_drain c c.outq.items).2 msg mlen).2 with ⟨b, c3⟩
    rw [hm] at h0 m1 m2 m3 m4
    cases b with
    | false => simp at h0
    | true =>
      dsimp only at m1 m2 m3 m4 ⊢
      constructor
      · simp only [pending, poll_dispatch_modify, queue_item_add, m1, m2, m3, q]
        rw [hstream]
        simp only [pending] at d1 ⊢
        rw [← d1]
      · simp only [outq_wf, poll_dispatch_modify, queue_item_add, m1, q]
        exact ⟨records_ok_snoc _ _ _ d2, by simp⟩
  · rw [if_neg hres] at h0 ⊢
    constructor
    · have hq2 : (send_requested (outq_drain c c.outq.items).2 msg mlen).2.outq.items = [] := by
        rw [q]; exact hnil
      unfold pending
      rw [hq2, hstream]
      unfold pending
      rw [d1]
      simp [pending_of]
    · refine ⟨?_, fun _ => hbs⟩
      rw [q, hnil]
      simp [records_ok]

theorem cleanup_send_response_stream (c : conn_info) (hwf : outq_wf c) :
    (cleanup_send_response c).2.wire ++ pending (cleanup_send_response c).2
        = c.wire ++ pending c
      ∧ outq_wf (cleanup_send_response c).2 := by
  unfold cleanup_send_response
  by_cases ha : (!libais_connection_active c) = true
  · rw [if_pos ha]; exact ⟨rfl, hwf⟩
  rw [if_neg ha]
  obtain ⟨d1, d2, d3⟩ := outq_drain_stream c.outq.items c hwf.1
  rcases hd : outq_drain c c.outq.items with ⟨e, c1⟩
  rw [hd] at d1 d2 d3
  have hwf1 : outq_wf c1 := ⟨d2, d3 hwf.2⟩
  cases e <;> simp only [] <;> first
    | exact ⟨d1, hwf1⟩
    | (split <;> exact ⟨d1, hwf1⟩)

theorem outq_drain_shape (items : List outq_item) :
    ∀ c : conn_info,
      (∃ n, n ≤ items.length ∧ (outq_drain c items).2.outq.items = items.drop n) ∧
      (∃ w, (outq_drain c items).2.wire = c.wire ++ w) := by
  induction items with
  | nil =>
    intro c
    exact ⟨⟨0, le_refl _, rfl⟩, ⟨[], by simp [outq_drain]⟩⟩
  | cons item rest ih =>
    intro c
    unfold outq_drain
    rcases hs : sendmsg c.sock (item.mlen - c.byte_start) with ⟨o, s⟩
    cases o with
    | eagain => exact ⟨⟨0, Nat.zero_le _, rfl⟩, ⟨[], by simp⟩⟩
    | error => exact ⟨⟨0, Nat.zero_le _, rfl⟩, ⟨[], by simp⟩⟩
    | sent k =>
      dsimp only
      split
      · exact ⟨⟨0, Nat.zero_le _, rfl⟩, ⟨_, rfl⟩⟩
      · obtain ⟨⟨n, hn, h1⟩, ⟨w, h2⟩⟩ := ih ({ c with sock := s, wire := c.wire ++ (item.msg.drop c.byte_start).take k, byte_start := 0 } : conn_info)
        refine ⟨⟨n + 1, by simp only [List.length_cons]; omega, ?_⟩,
          ⟨(item.msg.drop c.byte_start).take k ++ w, ?_⟩⟩
        · rw [h1]; rfl
        · rw [h2, List.append_assoc]

theorem send_requested_shape (c : conn_info) (msg : List Byte) (mlen : Nat) :
    (send_requested c msg mlen).2.outq = c.outq ∧
    (∃ w, (send_requested c msg mlen).2.wire = c.wire ++ w) ∧
    ((send_requested c msg mlen).1 ≠ -1 → c.outq.items = []) := by
  unfold send_requested
  by_cases he : queue_is_empty c.outq = true
  · have hnil : c.outq.items = [] := by simpa [queue_is_empty] using he
    rw [if_pos he]
    rcases hs : sendmsg c.sock mlen with ⟨o, s⟩
    cases o with
    | eagain => exact ⟨rfl, ⟨[], by simp [poll_dispatch_modify]⟩, fun _ => hnil⟩
    | error => exact ⟨rfl, ⟨[], by simp⟩, fun _ => hnil⟩
    | sent k =>
      dsimp only
      split
      · exact ⟨rfl, ⟨_, rfl⟩, fun _ => hnil⟩
      · exact ⟨rfl, ⟨_, rfl⟩, fun _ => hnil⟩
  · rw [if_neg he]
    exact ⟨rfl, ⟨[], by simp⟩, fun h => absurd rfl h⟩

theorem outq_drain_heap (items : List outq_item) :
    ∀ c : conn_info, (outq_drain c items).2.heap = c.heap := by
  induction items with
  | nil => intro c; rfl
  | cons item rest ih =>
    intro c
    unfold outq_drain
    rcases hs : sendmsg c.sock (item.mlen - c.byte_start) with ⟨o, s⟩
    cases o with
    | eagain => rfl
    | error => rfl
    | sent k =>
      dsimp only
      split
      · rfl
      · rw [ih]

theorem send_requested_keeps (c : conn_info) (msg : List Byte) (mlen : Nat) :
    (send_requested c msg mlen).2.heap = c.heap ∧
    (send_requested c msg mlen).2.state = c.state := by
  unfold send_requested
  split
  · split
    · exact ⟨rfl, rfl⟩
    · exact ⟨rfl, rfl⟩
    · dsimp only
      split <;> exact ⟨rfl, rfl⟩
  · exact ⟨rfl, rfl⟩


/-- C1: for every connection whose `outq` is well formed, every sequence of
`libais_send_response` calls and write-ready drains in which each `libais_send_response`
returns 0, and every behaviour of the socket and of the allocator (`c.sock`, `c.heap`), the
bytes written to the socket followed by the bytes still pending in `outq` are the bytes that
were written and pending before, followed by the message payloads in call order. -/
theorem send_stream_integrity (c : conn_info) (ops : List send_op)
    (hwf : outq_wf c) (h0 : sends_return_zero c ops) :
    (run_ops c ops).wire ++ pending (run_ops c ops) = c.wire ++ pending c ++ payloads ops := by
  induction ops generalizing c with
  | nil => simp [run_ops, payloads]
  | cons op ops ih =>
    cases op with
    | send msg mlen =>
      obtain ⟨hz, hrest⟩ := h0
      obtain ⟨hs, hwf1⟩ := libais_send_response_stream c msg mlen hwf hz
      have := ih _ hwf1 hrest
      simp only [run_ops, run_op, payloads]
      rw [this, hs]
      simp
    | drain =>
      obtain ⟨hs, hwf1⟩ := cleanup_send_response_stream c hwf
      have := ih _ hwf1 h0
      simp only [run_ops, run_op, payloads]
      rw [this, hs]

/-- C1 at a concrete input: a 100-byte message of which the socket first takes 16 bytes, a drain
interrupted by `EINTR`, a second message and a second drain. -/
theorem send_stream_integrity_witness :
    outq_wf (ex_conn [send_result.sent 16, send_result.eintr, send_result.sent 50,
      send_result.eagain, send_result.sent 200, send_result.sent 3] []) ∧
    sends_return_zero (ex_conn [send_result.sent 16, send_result.eintr, send_result.sent 50,
      send_result.eagain, send_result.sent 200, send_result.sent 3] [])
      [send_op.send (ex_msg 100) 100, send_op.drain, send_op.send (ex_msg 7) 5, send_op.drain] ∧
    (run_ops (ex_conn [send_result.sent 16, send_result.eintr, send_result.sent 50,
      send_result.eagain, send_result.sent 200, send_result.sent 3] [])
      [send_op.send (ex_msg 100) 100, send_op.drain, send_op.send (ex_msg 7) 5,
        send_op.drain]).wire ++
      pending (run_ops (ex_conn [send_result.sent 16, send_result.eintr, send_result.sent 50,
      send_result.eagain, send_result.sent 200, send_result.sent 3] [])
      [send_op.send (ex_msg 100) 100, send_op.drain, send_op.send (ex_msg 7) 5,
        send_op.drain])
      = ex_msg 100 ++ (ex_msg 7).take 5 := by
  have hwf : outq_wf (ex_conn [send_result.sent 16, send_result.eintr, send_result.sent 50,
      send_result.eagain, send_result.sent 200, send_result.sent 3] []) :=
    ⟨by simp [ex_conn, conn_info_create, queue_init, records_ok], fun _ => rfl⟩
  have hz : sends_return_zero (ex_conn [send_result.sent 16, send_result.eintr,
      send_result.sent 50, send_result.eagain, send_result.sent 200, send_result.sent 3] [])
      [send_op.send (ex_msg 100) 100, send_op.drain, send_op.send (ex_msg 7) 5,
        send_op.drain] := by
    refine ⟨by decide, by decide, trivial⟩
  refine ⟨hwf, hz, ?_⟩
  have h := send_stream_integrity _ _ hwf hz
  rw [h]
  decide

/-! ## The outbound sender: the queue bound -/

theorem libais_send_response_bound (c : conn_info) (msg : List Byte) (mlen : Nat)
    (h : c.outq.items.length ≤ c.outq.size) :
    (libais_send_response c msg mlen).2.outq.items.length
        ≤ (libais_send_response c msg mlen).2.outq.size ∧
      (libais_send_response c msg mlen).2.outq.size = c.outq.size := by
  unfold libais_send_response
  by_cases ha : (!libais_connection_active c) = true
  · rw [if_pos ha]; exact ⟨h, rfl⟩
  rw [if_neg ha]
  by_cases hf : queue_is_full c.outq = true
  · rw [if_pos hf]; exact ⟨h, rfl⟩
  rw [if_neg hf]
  have hlt : c.outq.items.length < c.outq.size := by
    simpa [queue_is_full] using hf
  obtain ⟨_, k2, k3⟩ := drain_keeps c.outq.items c
  have hq : ∀ x : conn_info, (send_requested x msg mlen).2.outq = x.outq := by
    intro x
    unfold send_requested
    split
    · split
      · rfl
      · rfl
      · split <;> rfl
    · rfl
  have q := hq (outq_drain c c.outq.items).2
  dsimp only
  split
  · obtain ⟨m1, _, _, _⟩ := malloc_fields (send_requested (outq_drain c c.outq.items).2 msg mlen).2
    rcases hm : malloc (send_requested (outq_drain c c.outq.items).2 msg mlen).2 with ⟨b, c3⟩
    rw [hm] at m1
    dsimp only at m1
    cases b with
    | false =>
      simp only [libais_disconnect_delayed, m1, q, k2]
      exact ⟨by omega, trivial⟩
    | true =>
      simp only [poll_dispatch_modify, queue_item_add, m1, q, k2, List.length_append,
        List.length_singleton]
      exact ⟨by omega, trivial⟩
  · simp only [q, k2]
    exact ⟨by omega, trivial⟩

theorem cleanup_send_response_bound (c : conn_info)
    (h : c.outq.items.length ≤ c.outq.size) :
    (cleanup_send_response c).2.outq.items.length ≤ (cleanup_send_response c).2.outq.size ∧
      (cleanup_send_response c).2.outq.size = c.outq.size := by
  unfold cleanup_send_response
  by_cases ha : (!libais_connection_active c) = true
  · rw [if_pos ha]; exact ⟨h, rfl⟩
  rw [if_neg ha]
  obtain ⟨_, k2, k3⟩ := drain_keeps c.outq.items c
  rcases hd : outq_drain c c.outq.items with ⟨e, c1⟩
  rw [hd] at k2 k3
  dsimp only at k2 k3
  cases e <;> dsimp only <;> first
    | exact ⟨by omega, k2⟩
    | (split <;> (simp only [poll_dispatch_modify]; exact ⟨by omega, k2⟩))

theorem run_ops_bound (c : conn_info) (ops : List send_op)
    (h : c.outq.items.length ≤ c.outq.size) :
    (run_ops c ops).outq.items.length ≤ (run_ops c ops).outq.size ∧
      (run_ops c ops).outq.size = c.outq.size := by
  induction ops generalizing c with
  | nil => exact ⟨h, rfl⟩
  | cons op ops ih =>
    cases op with
    | send msg mlen =>
      obtain ⟨h1, h2⟩ := libais_send_response_bound c msg mlen h
      obtain ⟨h3, h4⟩ := ih _ h1
      exact ⟨h3, h4.trans h2⟩
    | drain =>
      obtain ⟨h1, h2⟩ := cleanup_send_response_bound c h
      obtain ⟨h3, h4⟩ := ih _ h1
      exact ⟨h3, h4.trans h2⟩

theorem poll_handler_not_active (env : exec_env) (fuel : Nat) (revent : poll_mask)
    (rx : recv_result) (c : conn_info) (hin : revent.pollin = true)
    (hs : c.state ≠ conn_state.CONN_STATE_ACTIVE) :
    poll_handler_libais_deliver env fuel revent rx c = error_disconnect env c [] := by
  have hc : (cleanup_send_response c).2 = c := by
    simp [cleanup_send_response, libais_connection_active, hs]
  unfold poll_handler_libais_deliver
  simp only [hc, ite_self, hin]
  simp [hs]


theorem libais_disconnect_trace (env : exec_env) (c : conn_info) :
    ∀ e ∈ (libais_disconnect env c).trace, e = event.exit_fn c.service := by
  unfold libais_disconnect
  split
  · simp
  · rename_i sh _
    cases sh.libais_exit_fn <;> simp

/-- C3: over every sequence of `libais_send_response` and `cleanup_send_response` calls the
length of `outq` stays within its capacity (`SIZEQUEUE` for a connection made by
`conn_info_create`); `libais_send_response` on an active connection whose `outq` is full
returns -1 and changes nothing but the state, which becomes `DISCONNECTING_DELAYED`; and the
next read-ready event on that connection calls `libais_disconnect` first and never reaches
`recvmsg`. -/
theorem outq_bounded_overflow_disconnects :
    (∀ (c : conn_info) (ops : List send_op), c.outq.items.length ≤ c.outq.size →
      (run_ops c ops).outq.items.length ≤ c.outq.size) ∧
    (∀ (c : conn_info) (msg : List Byte) (mlen : Nat),
      c.state = conn_state.CONN_STATE_ACTIVE → queue_is_full c.outq = true →
      libais_send_response c msg mlen
        = (-1, { c with state := conn_state.CONN_STATE_DISCONNECTING_DELAYED })) ∧
    (∀ (env : exec_env) (fuel : Nat) (revent : poll_mask) (rx : recv_result) (c : conn_info)
        (msg : List Byte) (mlen : Nat),
      c.state = conn_state.CONN_STATE_ACTIVE → queue_is_full c.outq = true →
      revent.pollin = true →
      poll_handler_libais_deliver env fuel revent rx (libais_send_response c msg mlen).2
          = error_disconnect env (libais_send_response c msg mlen).2 [] ∧
      (poll_handler_libais_deliver env fuel revent rx
          (libais_send_response c msg mlen).2).trace.head? = some event.disconnect ∧
      ∀ n b, event.recvmsg n b ∉ (poll_handler_libais_deliver env fuel revent rx
          (libais_send_response c msg mlen).2).trace) := by
  have hfull : ∀ (c : conn_info) (msg : List Byte) (mlen : Nat),
      c.state = conn_state.CONN_STATE_ACTIVE → queue_is_full c.outq = true →
      libais_send_response c msg mlen
        = (-1, { c with state := conn_state.CONN_STATE_DISCONNECTING_DELAYED }) := by
    intro c msg mlen ha hf
    simp [libais_send_response, libais_connection_active, ha, hf, libais_disconnect_delayed]
  refine ⟨?_, hfull, ?_⟩
  · intro c ops h
    obtain ⟨h1, h2⟩ := run_ops_bound c ops h
    omega
  · intro env fuel revent rx c msg mlen ha hf hin
    have hp := poll_handler_not_active env fuel revent rx (libais_send_response c msg mlen).2 hin
      (by rw [hfull c msg mlen ha hf]; simp)
    refine ⟨hp, ?_, ?_⟩
    · rw [hp]; simp [error_disconnect]
    · intro n b hmem
      rw [hp] at hmem
      simp only [error_disconnect, List.nil_append, List.mem_cons] at hmem
      rcases hmem with h | h
      · cases h
      · have := libais_disconnect_trace env _ _ h
        cases this

/-- C3 at concrete inputs: six sends into a queue of four slots, and a send into a full queue
followed by a read-ready event. -/
theorem outq_bounded_overflow_disconnects_witness :
    (run_ops (ex_conn [send_result.sent 1] []) [send_op.send (ex_msg 9) 9, send_op.send (ex_msg 9) 9,
        send_op.send (ex_msg 9) 9, send_op.send (ex_msg 9) 9, send_op.send (ex_msg 9) 9,
        send_op.send (ex_msg 9) 9, send_op.drain]).outq.items.length ≤ 4 ∧
    libais_send_response ex_full (ex_msg 3) 3
        = (-1, { ex_full with state := conn_state.CONN_STATE_DISCONNECTING_DELAYED }) ∧
    (poll_handler_libais_deliver ex_env0 8 ⟨true, false, false⟩ recv_result.eagain
        (libais_send_response ex_full (ex_msg 3) 3).2).trace.head? = some event.disconnect :=
  ⟨outq_bounded_overflow_disconnects.1 (ex_conn [send_result.sent 1] []) _ (by decide),
   outq_bounded_overflow_disconnects.2.1 ex_full (ex_msg 3) 3 (by decide) (by decide),
   (outq_bounded_overflow_disconnects.2.2 ex_env0 8 ⟨true, false, false⟩ recv_result.eagain
      ex_full (ex_msg 3) 3 (by decide) (by decide) rfl).2.1⟩

/-! ## The outbound sender: the write offset -/

theorem byte_start_rel_tail (rest : List outq_item) : byte_start_rel rest 0 := by
  cases rest with
  | nil => rfl
  | cons r rs =>
    show 0 < r.mlen ∨ (r.mlen = 0 ∧ 0 = 0)
    omega

theorem byte_start_rel_snoc (items : List outq_item) (bs : Nat) (it : outq_item)
    (hne : items ≠ []) (h : byte_start_rel items bs) : byte_start_rel (items ++ [it]) bs := by
  cases items with
  | nil => exact absurd rfl hne
  | cons a rest => exact h

theorem outq_drain_rel (items : List outq_item) :
    ∀ c : conn_info, byte_start_rel items c.byte_start →
      byte_start_rel (outq_drain c items).2.outq.items (outq_drain c items).2.byte_start := by
  induction items with
  | nil =>
    intro c h
    simpa [outq_drain] using h
  | cons item rest ih =>
    intro c hbs
    have hlt : c.byte_start < item.mlen ∨ (item.mlen = 0 ∧ c.byte_start = 0) := hbs
    unfold outq_drain
    rcases hs : sendmsg c.sock (item.mlen - c.byte_start) with ⟨o, s⟩
    cases o with
    | eagain => exact hbs
    | error => exact hbs
    | sent k =>
      have hk := sendmsg_le _ _ _ _ hs
      dsimp only
      by_cases hne : k + c.byte_start ≠ item.mlen
      · rw [if_pos hne]
        show c.byte_start + k < item.mlen ∨ (item.mlen = 0 ∧ c.byte_start + k = 0)
        omega
      · rw [if_neg hne]
        exact ih _ (byte_start_rel_tail rest)

theorem mem_of_mem_drop_snoc (items : List outq_item) (new it : outq_item) (n : Nat)
    (h : it ∈ (items ++ [new]).drop n) : it ∈ items ∨ it = new := by
  have := List.mem_of_mem_drop h
  rcases List.mem_append.1 this with h1 | h1
  · exact Or.inl h1
  · exact Or.inr (List.mem_singleton.1 h1)

/-- The queue after `libais_send_response`: what is left of the old queue, with or without
the new message behind it. -/
theorem libais_send_response_items (c : conn_info) (msg : List Byte) (mlen : Nat) :
    ∃ n, (libais_send_response c msg mlen).2.outq.items = c.outq.items.drop n ∨
      (libais_send_response c msg mlen).2.outq.items
        = (c.outq.items ++ [outq_item.mk (msg.take mlen) mlen]).drop n := by
  unfold libais_send_response
  split
  · exact ⟨0, Or.inl rfl⟩
  · split
    · exact ⟨0, Or.inl rfl⟩
    · obtain ⟨⟨n, hn, dq⟩, _⟩ := outq_drain_shape c.outq.items c
      obtain ⟨sq, _, snil⟩ := send_requested_shape (outq_drain c c.outq.items).2 msg mlen
      obtain ⟨m1, _, _, _⟩ :=
        malloc_fields (send_requested (outq_drain c c.outq.items).2 msg mlen).2
      dsimp only
      split
      · rcases hm : malloc (send_requested (outq_drain c c.outq.items).2 msg mlen).2
          with ⟨b, c3⟩
        rw [hm] at m1
        dsimp only at m1
        cases b with
        | false =>
          refine ⟨n, Or.inl ?_⟩
          show c3.outq.items = _
          rw [m1, sq, dq]
        | true =>
          refine ⟨n, Or.inr ?_⟩
          show (queue_item_add c3.outq ⟨msg.take mlen, mlen⟩).items = _
          unfold queue_item_add
          dsimp only
          rw [m1, sq, dq, List.drop_append_of_le_length hn]
      · refine ⟨n, Or.inl ?_⟩
        rw [sq, dq]

theorem cleanup_send_response_items (c : conn_info) :
    ∃ n, (cleanup_send_response c).2.outq.items = c.outq.items.drop n := by
  unfold cleanup_send_response
  split
  · exact ⟨0, rfl⟩
  · obtain ⟨⟨n, _, dq⟩, _⟩ := outq_drain_shape c.outq.items c
    rcases hd : outq_drain c c.outq.items with ⟨e, c1⟩
    rw [hd] at dq
    dsimp only at dq
    refine ⟨n, ?_⟩
    cases e <;> dsimp only <;> first
      | exact dq
      | (split <;> exact dq)

theorem malloc_result (c : conn_info) :
    ((malloc c).1 = false ↔ c.heap.head? = some false) := by
  unfold malloc
  cases c.heap with
  | nil => simp
  | cons b rest => cases b <;> simp

/-- The direct write of `libais_send_response` on an empty queue with offset zero. -/
theorem send_requested_empty (d : conn_info) (msg : List Byte) (mlen : Nat)
    (hnil : d.outq.items = []) (hb0 : d.byte_start = 0) :
    ((send_requested d msg mlen).1 ≠ -1 → (send_requested d msg mlen).2.byte_start = 0) ∧
    ((send_requested d msg mlen).1 = -1 →
      ((send_requested d msg mlen).2.byte_start < mlen ∨
        (mlen = 0 ∧ (send_requested d msg mlen).2.byte_start = 0)) ∧
      ((partial_accept d.sock mlen = false) → (send_requested d msg mlen).2.byte_start = 0) ∧
      ((partial_accept d.sock mlen = true) →
        0 < (send_requested d msg mlen).2.byte_start ∧
        (send_requested d msg mlen).2.byte_start < mlen)) ∧
    (partial_accept d.sock mlen = true → (send_requested d msg mlen).1 = -1) := by
  have he : queue_is_empty d.outq = true := by simp [queue_is_empty, hnil]
  unfold send_requested partial_accept
  rw [if_pos he]
  rcases hs : sendmsg d.sock mlen with ⟨o, s⟩
  cases o with
  | eagain =>
    refine ⟨fun h => absurd rfl h, fun _ => ⟨?_, fun _ => rfl, fun h => by cases h⟩,
      fun h => by cases h⟩
    show 0 < mlen ∨ (mlen = 0 ∧ 0 = 0)
    omega
  | error =>
    refine ⟨fun h => absurd rfl h, fun _ => ⟨?_, fun _ => hb0, fun h => by cases h⟩,
      fun h => by cases h⟩
    show d.byte_start < mlen ∨ (mlen = 0 ∧ d.byte_start = 0)
    omega
  | sent k =>
    have hk := sendmsg_le _ _ _ _ hs
    dsimp only
    by_cases hne : k + d.byte_start ≠ mlen
    · rw [if_pos hne]
      refine ⟨fun h => absurd rfl h, fun _ => ⟨?_, fun h => ?_, fun h => ?_⟩, fun _ => rfl⟩
      · show d.byte_start + k < mlen ∨ (mlen = 0 ∧ d.byte_start + k = 0)
        omega
      · show d.byte_start + k = 0
        simp only [Bool.and_eq_false_iff, decide_eq_false_iff_not] at h
        omega
      · simp only [Bool.and_eq_true, decide_eq_true_eq] at h
        constructor
        · show 0 < d.byte_start + k
          omega
        · show d.byte_start + k < mlen
          omega
    · rw [if_neg hne]
      refine ⟨fun _ => rfl, fun h => ?_, fun h => ?_⟩
      · exfalso
        have : (k : Int) = -1 := h
        omega
      · simp only [Bool.and_eq_true, decide_eq_true_eq] at h
        omega

theorem send_requested_nonempty (d : conn_info) (msg : List Byte) (mlen : Nat)
    (hne : d.outq.items ≠ []) : send_requested d msg mlen = (-1, d) := by
  have he : ¬ queue_is_empty d.outq = true := by simpa [queue_is_empty] using hne
  unfold send_requested
  rw [if_neg he]

/-- What `libais_send_response` does to the relation: it keeps it, except on the path
`partial_write_alloc_failure`, where it returns -1 with `outq` empty, the offset at the
number of bytes written and the connection marked `DISCONNECTING_DELAYED`. -/
theorem libais_send_response_rel (c : conn_info) (msg : List Byte) (mlen : Nat)
    (hbs : byte_start_rel c.outq.items c.byte_start) :
    (partial_write_alloc_failure c mlen = false →
      byte_start_rel (libais_send_response c msg mlen).2.outq.items
        (libais_send_response c msg mlen).2.byte_start) ∧
    (partial_write_alloc_failure c mlen = true →
      (libais_send_response c msg mlen).1 = -1 ∧
      (libais_send_response c msg mlen).2.outq.items = [] ∧
      0 < (libais_send_response c msg mlen).2.byte_start ∧
      (libais_send_response c msg mlen).2.byte_start < mlen ∧
      (libais_send_response c msg mlen).2.state
        = conn_state.CONN_STATE_DISCONNECTING_DELAYED) := by
  unfold libais_send_response partial_write_alloc_failure
  by_cases ha : libais_connection_active c = true
  swap
  · have ha2 : libais_connection_active c = false := by simpa using ha
    simp only [ha2, Bool.not_false, if_true, Bool.false_and]
    exact ⟨fun _ => hbs, fun h => by cases h⟩
  by_cases hf : queue_is_full c.outq = true
  · simp only [ha, hf, Bool.not_true, Bool.false_eq_true, if_false, if_true, Bool.true_and,
      Bool.false_and]
    exact ⟨fun _ => hbs, fun h => by cases h⟩
  have hf2 : queue_is_full c.outq = false := by simpa using hf
  simp only [ha, hf2, Bool.not_true, Bool.not_false, Bool.false_eq_true, if_false,
    Bool.true_and]
  have d1 := outq_drain_rel c.outq.items c hbs
  have dh := outq_drain_heap c.outq.items c
  generalize (outq_drain c c.outq.items).2 = d at d1 dh
  obtain ⟨sq, _, _⟩ := send_requested_shape d msg mlen
  obtain ⟨sh, _⟩ := send_requested_keeps d msg mlen
  obtain ⟨m1, m2, _, _⟩ := malloc_fields (send_requested d msg mlen).2
  have mr := malloc_result (send_requested d msg mlen).2
  rw [sh, dh] at mr
  by_cases he : queue_is_empty d.outq = true
  · have hnil : d.outq.items = [] := by simpa [queue_is_empty] using he
    have hb0 : d.byte_start = 0 := by rw [hnil] at d1; exact d1
    obtain ⟨e1, e2, e3⟩ := send_requested_empty d msg mlen hnil hb0
    simp only [he, Bool.true_and]
    generalize partial_accept d.sock mlen = P at e2 e3
    by_cases hres : (send_requested d msg mlen).1 = -1
    · rw [if_pos hres]
      obtain ⟨r1, r2, r3⟩ := e2 hres
      rcases hm : malloc (send_requested d msg mlen).2 with ⟨b, c3⟩
      rw [hm] at m1 m2 mr
      dsimp only at m1 m2 mr ⊢
      cases b with
      | false =>
        have hhead : (c.heap.head? == some false) = true := by
          rw [mr.mp rfl]; rfl
        rw [hhead, Bool.and_true]
        refine ⟨fun hP => ?_, fun hP => ?_⟩
        · show byte_start_rel c3.outq.items c3.byte_start
          rw [m1, sq, hnil, m2]
          exact r2 hP
        · refine ⟨rfl, ?_, ?_, ?_, rfl⟩
          · show c3.outq.items = []
            rw [m1, sq, hnil]
          · show 0 < c3.byte_start
            rw [m2]; exact (r3 hP).1
          · show c3.byte_start < mlen
            rw [m2]; exact (r3 hP).2
      | true =>
        have hhead : (c.heap.head? == some false) = false := by
          cases hq : (c.heap.head? == some false)
          · rfl
          · have := mr.mpr (by simpa using hq)
            cases this
        rw [hhead, Bool.and_false]
        refine ⟨fun _ => ?_, fun h => by cases h⟩
        show byte_start_rel (queue_item_add c3.outq ⟨msg.take mlen, mlen⟩).items c3.byte_start
        unfold queue_item_add
        dsimp only
        rw [m1, sq, hnil, m2]
        exact r1
    · rw [if_neg hres]
      have hP : P = false := by
        cases hq : P
        · rfl
        · exact absurd (e3 hq) hres
      rw [hP, Bool.false_and]
      refine ⟨fun _ => ?_, fun h => by cases h⟩
      show byte_start_rel (send_requested d msg mlen).2.outq.items
        (send_requested d msg mlen).2.byte_start
      rw [sq, hnil, e1 hres]
      rfl
  · have he2 : queue_is_empty d.outq = false := by simpa using he
    have hne : d.outq.items ≠ [] := by simpa [queue_is_empty] using he
    have hsr := send_requested_nonempty d msg mlen hne
    simp only [he2, Bool.false_and]
    rw [hsr] at m1 m2 ⊢
    dsimp only at m1 m2 ⊢
    rw [if_pos rfl]
    refine ⟨fun _ => ?_, fun h => by cases h⟩
    rcases hm : malloc d with ⟨b, c3⟩
    rw [hm] at m1 m2
    dsimp only at m1 m2 ⊢
    cases b with
    | false =>
      show byte_start_rel c3.outq.items c3.byte_start
      rw [m1, m2]; exact d1
    | true =>
      show byte_start_rel (queue_item_add c3.outq ⟨msg.take mlen, mlen⟩).items c3.byte_start
      unfold queue_item_add
      dsimp only
      rw [m1, m2]
      exact byte_start_rel_snoc _ _ _ hne d1

theorem cleanup_send_response_rel (c : conn_info)
    (hbs : byte_start_rel c.outq.items c.byte_start) :
    byte_start_rel (cleanup_send_response c).2.outq.items
      (cleanup_send_response c).2.byte_start := by
  unfold cleanup_send_response
  split
  · exact hbs
  · have d1 := outq_drain_rel c.outq.items c hbs
    rcases hd : outq_drain c c.outq.items with ⟨e, c1⟩
    rw [hd] at d1
    dsimp only at d1
    cases e <;> dsimp only <;> first
      | exact d1
      | (split <;> exact d1)

theorem byte_start_ok_of_rel (items : List outq_item) (bs : Nat)
    (hrec : records_nonempty items) (h : byte_start_rel items bs) : byte_start_ok items bs := by
  cases items with
  | nil => exact h
  | cons a rest =>
    have ha : 0 < a.mlen := hrec a (List.mem_cons_self _ _)
    have h2 : bs < a.mlen ∨ (a.mlen = 0 ∧ bs = 0) := h
    show bs < a.mlen
    omega

theorem byte_start_rel_of_ok (items : List outq_item) (bs : Nat)
    (h : byte_start_ok items bs) : byte_start_rel items bs := by
  cases items with
  | nil => exact h
  | cons a rest => exact Or.inl h

theorem run_ops_inactive (ops : List send_op) :
    ∀ c : conn_info, c.state ≠ conn_state.CONN_STATE_ACTIVE → run_ops c ops = c := by
  induction ops with
  | nil => intro c _; rfl
  | cons op ops ih =>
    intro c hs
    have hna : (!libais_connection_active c) = true := by
      simp [libais_connection_active, hs]
    cases op with
    | send msg mlen =>
      have : (libais_send_response c msg mlen).2 = c := by
        unfold libais_send_response
        rw [if_pos hna]
      show run_ops (libais_send_response c msg mlen).2 ops = c
      rw [this]
      exact ih c hs
    | drain =>
      have : (cleanup_send_response c).2 = c := by
        unfold cleanup_send_response
        rw [if_pos hna]
      show run_ops (cleanup_send_response c).2 ops = c
      rw [this]
      exact ih c hs

theorem run_ops_rel (ops : List send_op) :
    ∀ c : conn_info, byte_start_rel c.outq.items c.byte_start →
      no_partial_write_alloc_failure c ops = true →
      byte_start_rel (run_ops c ops).outq.items (run_ops c ops).byte_start := by
  induction ops with
  | nil => intro c h _; exact h
  | cons op ops ih =>
    intro c hbs hno
    cases op with
    | send msg mlen =>
      simp only [no_partial_write_alloc_failure, Bool.and_eq_true, Bool.not_eq_true'] at hno
      exact ih _ ((libais_send_response_rel c msg mlen hbs).1 hno.1) hno.2
    | drain =>
      exact ih _ (cleanup_send_response_rel c hbs) hno

theorem run_ops_records (ops : List send_op) :
    ∀ c : conn_info, records_nonempty c.outq.items → sends_nonempty ops →
      records_nonempty (run_ops c ops).outq.items := by
  induction ops with
  | nil => intro c h _; exact h
  | cons op ops ih =>
    intro c hrec hops
    have hops1 : sends_nonempty ops := fun m n h => hops m n (List.mem_cons_of_mem _ h)
    cases op with
    | send msg mlen =>
      have hm : 0 < mlen := hops msg mlen (List.mem_cons_self _ _)
      refine ih _ ?_ hops1
      obtain ⟨n, h | h⟩ := libais_send_response_items c msg mlen
      · intro it hit
        have hit2 : it ∈ (libais_send_response c msg mlen).2.outq.items := hit
        rw [h] at hit2
        exact hrec it (List.mem_of_mem_drop hit2)
      · intro it hit
        have hit2 : it ∈ (libais_send_response c msg mlen).2.outq.items := hit
        rw [h] at hit2
        rcases mem_of_mem_drop_snoc _ _ _ _ hit2 with h1 | h1
        · exact hrec it h1
        · rw [h1]; exact hm
    | drain =>
      refine ih _ ?_ hops1
      obtain ⟨n, h⟩ := cleanup_send_response_items c
      intro it hit
      have hit2 : it ∈ (cleanup_send_response c).2.outq.items := hit
      rw [h] at hit2
      exact hrec it (List.mem_of_mem_drop hit2)

/-- C6 (as amended): for every connection on which the relation between the write offset and
`outq` holds, after every sequence of `libais_send_response` and `cleanup_send_response`
calls, whatever they return, whatever the socket does, allocation failures and zero-length
messages included: if `outq` is non-empty then `byte_start < mlen` of the head record, or
the head record has length zero and `byte_start == 0`; if `outq` is empty then
`byte_start == 0` (and while no record and no message has length zero this is the relation
`byte_start < head.mlen`).  The one exception is the `libais_send_response` call that drains
`outq`, writes a part of its message (at least one byte, not all) and then cannot allocate
the copy: it returns -1 with `outq` empty, `byte_start` at the number of bytes written and
the connection `DISCONNECTING_DELAYED`, and the senders leave it so from then on. -/
theorem byte_start_invariant :
    (∀ (c : conn_info) (ops : List send_op),
      byte_start_rel c.outq.items c.byte_start →
      no_partial_write_alloc_failure c ops = true →
      byte_start_rel (run_ops c ops).outq.items (run_ops c ops).byte_start) ∧
    (∀ (c : conn_info) (ops : List send_op),
      byte_start_inv c → records_nonempty c.outq.items → sends_nonempty ops →
      no_partial_write_alloc_failure c ops = true →
      byte_start_inv (run_ops c ops)) ∧
    (∀ (c : conn_info) (msg : List Byte) (mlen : Nat) (ops : List send_op),
      byte_start_rel c.outq.items c.byte_start →
      partial_write_alloc_failure c mlen = true →
      (libais_send_response c msg mlen).1 = -1 ∧
      (libais_send_response c msg mlen).2.outq.items = [] ∧
      0 < (libais_send_response c msg mlen).2.byte_start ∧
      (libais_send_response c msg mlen).2.byte_start < mlen ∧
      (libais_send_response c msg mlen).2.state
        = conn_state.CONN_STATE_DISCONNECTING_DELAYED ∧
      run_ops (libais_send_response c msg mlen).2 ops = (libais_send_response c msg mlen).2 ∧
      ¬ byte_start_rel (run_ops c (send_op.send msg mlen :: ops)).outq.items
          (run_ops c (send_op.send msg mlen :: ops)).byte_start) := by
  refine ⟨fun c ops h1 h2 => run_ops_rel ops c h1 h2, ?_, ?_⟩
  · intro c ops hbs hrec hops hno
    exact byte_start_ok_of_rel _ _ (run_ops_records ops c hrec hops)
      (run_ops_rel ops c (byte_start_rel_of_ok _ _ hbs) hno)
  · intro c msg mlen ops hbs hp
    obtain ⟨h1, h2, h3, h4, h5⟩ := (libais_send_response_rel c msg mlen hbs).2 hp
    have hrun : run_ops (libais_send_response c msg mlen).2 ops
        = (libais_send_response c msg mlen).2 :=
      run_ops_inactive ops _ (by rw [h5]; decide)
    refine ⟨h1, h2, h3, h4, h5, hrun, ?_⟩
    show ¬ byte_start_rel (run_ops (libais_send_response c msg mlen).2 ops).outq.items
      (run_ops (libais_send_response c msg mlen).2 ops).byte_start
    rw [hrun, h2]
    intro h
    have : (libais_send_response c msg mlen).2.byte_start = 0 := h
    omega

/-- C6 (as amended) at concrete inputs: an allocation failure after `EAGAIN` followed by a
zero-length message; a short write, a failing drain and a second message; and a partial
write followed by an allocation failure. -/
theorem byte_start_invariant_witness :
    byte_start_rel
      (run_ops (ex_conn [send_result.eagain] [false])
        [send_op.send (ex_msg 100) 100, send_op.drain, send_op.send [] 0]).outq.items
      (run_ops (ex_conn [send_result.eagain] [false])
        [send_op.send (ex_msg 100) 100, send_op.drain, send_op.send [] 0]).byte_start ∧
    byte_start_inv (run_ops (ex_conn [send_result.sent 16, send_result.error] [true])
      [send_op.send (ex_msg 100) 100, send_op.drain, send_op.send (ex_msg 7) 5,
        send_op.drain]) ∧
    (libais_send_response (ex_conn [send_result.sent 16] [false]) (ex_msg 100) 100).2.byte_start
      < 100 :=
  ⟨byte_start_invariant.1 (ex_conn [send_result.eagain] [false])
      [send_op.send (ex_msg 100) 100, send_op.drain, send_op.send [] 0] (by decide)
      (by decide),
   byte_start_invariant.2.1 (ex_conn [send_result.sent 16, send_result.error] [true])
    [send_op.send (ex_msg 100) 100, send_op.drain, send_op.send (ex_msg 7) 5, send_op.drain]
    (by decide) (by simp [records_nonempty, ex_conn, conn_info_create, queue_init])
    (by intro m n h; simp at h; omega) (by decide),
   (byte_start_invariant.2.2 (ex_conn [send_result.sent 16] [false]) (ex_msg 100) 100 []
    (by decide) (by decide)).2.2.2.1⟩

/-- C6 (counterexample): on a fresh connection (which satisfies the invariant), a 100-byte
message of which the socket takes 16 bytes and whose copy cannot be allocated leaves `outq`
empty with `byte_start = 16`; and a zero-length message on which the socket reports `EAGAIN`
is queued, leaving `byte_start = 0 = mlen` of the head record. -/
theorem byte_start_invariant_fails :
    byte_start_inv (ex_conn [send_result.sent 16] [false]) ∧
    (libais_send_response (ex_conn [send_result.sent 16] [false]) (ex_msg 100) 100).1 = -1 ∧
    (libais_send_response (ex_conn [send_result.sent 16] [false]) (ex_msg 100) 100).2.outq.items
      = [] ∧
    (libais_send_response (ex_conn [send_result.sent 16] [false]) (ex_msg 100) 100).2.byte_start
      = 16 ∧
    ¬ byte_start_inv
        (libais_send_response (ex_conn [send_result.sent 16] [false]) (ex_msg 100) 100).2 ∧
    byte_start_inv (ex_conn [send_result.eagain] []) ∧
    (libais_send_response (ex_conn [send_result.eagain] []) [] 0).1 = 0 ∧
    (libais_send_response (ex_conn [send_result.eagain] []) [] 0).2.outq.items = [⟨[], 0⟩] ∧
    ¬ byte_start_inv (libais_send_response (ex_conn [send_result.eagain] []) [] 0).2 := by
  decide

/-! ## The deliver loop: flow control, `EAGAIN`, failing handlers -/

/-- C4: on a bound connection (`service != INIT`), for a frame whose opcode passes the bounds
check and selects the entry `h` of the service's `libais_handlers`: if the entry is marked
`FLOW_CONTROL_NOT_REQUIRED`, or is marked `FLOW_CONTROL_REQUIRED` while
`totempg_send_ok (1000 + header.size)` holds and `sync_in_process ()` is false, the loop body
makes exactly one call, the handler of the entry, on that frame; in every other case it makes
exactly one call, `libais_send_response (conn_info, &msg_overlay, response_size)`, where the
first twelve bytes of `msg_overlay` are the three header fields `size = response_size`,
`id = response_id`, `error = SA_ERR_TRY_AGAIN` (each a `u32` in host byte order, low byte
first) and the rest is the untouched `buf`; it leaves `res` as it was and does not call the
handler.  In particular a `FLOW_CONTROL_REQUIRED` handler is not called while
`sync_in_process ()` is true. -/
theorem flow_control_gate (env : exec_env) (res : Int) (c : conn_info) (hdr : req_header)
    (frame : List Byte) (sh : service_handler) (h : libais_handler)
    (hbound : c.service ≠ 0)
    (hsh : lookup env.ais_service_handlers ((c.service : Int) - 1) = some sh)
    (hid : hdr.id ≤ sh.libais_handlers_count)
    (hh : sh.libais_handlers[hdr.id]? = some h) :
    ((h.flow_control = flow_control.FLOW_CONTROL_NOT_REQUIRED ∨
        (h.flow_control = flow_control.FLOW_CONTROL_REQUIRED ∧
          env.totempg_send_ok (1000 + hdr.size) = true ∧ env.sync_in_process = false)) →
      (dispatch_frame env res c hdr frame).trace
          = [event.handler_fn c.service hdr.id frame c.authenticated] ∧
      (dispatch_frame env res c hdr frame).exit
          = step_exit.next (h.libais_handler_fn c hdr frame).1 ∧
      (dispatch_frame env res c hdr frame).conn = (h.libais_handler_fn c hdr frame).2) ∧
    (¬ (h.flow_control = flow_control.FLOW_CONTROL_NOT_REQUIRED ∨
        (h.flow_control = flow_control.FLOW_CONTROL_REQUIRED ∧
          env.totempg_send_ok (1000 + hdr.size) = true ∧ env.sync_in_process = false)) →
      ∃ msg : List Byte,
        (dispatch_frame env res c hdr frame).trace
            = [event.send_response msg h.response_size] ∧
        (dispatch_frame env res c hdr frame).exit = step_exit.next res ∧
        (dispatch_frame env res c hdr frame).conn
            = (libais_send_response c msg h.response_size).2 ∧
        msg.take 12
            = [Fin.ofNat (h.response_size % 256), Fin.ofNat (h.response_size / 256 % 256),
               Fin.ofNat (h.response_size / 65536 % 256),
               Fin.ofNat (h.response_size / 16777216 % 256),
               Fin.ofNat (h.response_id % 256), Fin.ofNat (h.response_id / 256 % 256),
               Fin.ofNat (h.response_id / 65536 % 256),
               Fin.ofNat (h.response_id / 16777216 % 256),
               Fin.ofNat (env.SA_ERR_TRY_AGAIN % 256),
               Fin.ofNat (env.SA_ERR_TRY_AGAIN / 256 % 256),
               Fin.ofNat (env.SA_ERR_TRY_AGAIN / 65536 % 256),
               Fin.ofNat (env.SA_ERR_TRY_AGAIN / 16777216 % 256)] ∧
        msg.drop 12 = env.overlay_buf ∧
        le32 msg = h.response_size % 4294967296 ∧
        le32 (msg.drop 4) = h.response_id % 4294967296 ∧
        le32 (msg.drop 8) = env.SA_ERR_TRY_AGAIN % 4294967296) ∧
    (h.flow_control = flow_control.FLOW_CONTROL_REQUIRED → env.sync_in_process = true →
      ∀ s i f a, event.handler_fn s i f a ∉ (dispatch_frame env res c hdr frame).trace) := by
  have hgate : send_ok env h hdr.size = true ↔
      (h.flow_control = flow_control.FLOW_CONTROL_NOT_REQUIRED ∨
        (h.flow_control = flow_control.FLOW_CONTROL_REQUIRED ∧
          env.totempg_send_ok (1000 + hdr.size) = true ∧ env.sync_in_process = false)) := by
    simp [send_ok, and_assoc]
  have hnid : ¬ hdr.id > sh.libais_handlers_count := by omega
  refine ⟨?_, ?_, ?_⟩
  · intro hg
    have hs := hgate.mpr hg
    simp [dispatch_frame, hbound, hsh, hnid, hh, hs]
  · intro hg
    have hs : send_ok env h hdr.size = false := by
      cases hso : send_ok env h hdr.size
      · rfl
      · exact absurd (hgate.mp hso) hg
    refine ⟨msg_overlay_bytes ⟨h.response_size, h.response_id, env.SA_ERR_TRY_AGAIN⟩
      env.overlay_buf, ?_, ?_, ?_, rfl, rfl, ?_, ?_, ?_⟩
    · simp [dispatch_frame, hbound, hsh, hnid, hh, hs]
    · simp [dispatch_frame, hbound, hsh, hnid, hh, hs]
    · simp [dispatch_frame, hbound, hsh, hnid, hh, hs]
    · unfold msg_overlay_bytes
      rw [List.append_assoc, List.append_assoc, le32_enc32]
    · unfold msg_overlay_bytes
      rw [List.append_assoc, List.append_assoc, List.drop_left' (enc32_length _), le32_enc32]
    · unfold msg_overlay_bytes
      rw [List.append_assoc, List.drop_left' (by simp [enc32_length]), le32_enc32]
  · intro hreq hsync s i f a
    have hs : send_ok env h hdr.size = false := by
      simp [send_ok, hreq, hsync]
    simp [dispatch_frame, hbound, hsh, hnid, hh, hs]

/-- C4 at concrete inputs: a flow-controlled opcode during synchronisation (the reply of 12
bytes carries size 12, id 77 and error 6) and outside it. -/
theorem flow_control_gate_witness :
    (dispatch_frame (ex_env ex_service_any true) 8 { ex_conn [] [] with service := 1 } ⟨8, 1⟩
        (ex_frame 8 1)).trace
      = [event.send_response [12, 0, 0, 0, 77, 0, 0, 0, 6, 0, 0, 0] 12] ∧
    (dispatch_frame (ex_env ex_service_any true) 8 { ex_conn [] [] with service := 1 } ⟨8, 1⟩
        (ex_frame 8 1)).conn.outq.items = [⟨[12, 0, 0, 0, 77, 0, 0, 0, 6, 0, 0, 0], 12⟩] ∧
    (dispatch_frame (ex_env ex_service_any false) 8 { ex_conn [] [] with service := 1 } ⟨8, 1⟩
        (ex_frame 8 1)).trace = [event.handler_fn 1 1 (ex_frame 8 1) false] :=
  ⟨by
    obtain ⟨msg, h1, _, _, h4, h5, _⟩ :=
      (flow_control_gate (ex_env ex_service_any true) 8 { ex_conn [] [] with service := 1 }
        ⟨8, 1⟩ (ex_frame 8 1) ex_service_any ⟨ex_handler_fn, 12, 77,
          flow_control.FLOW_CONTROL_REQUIRED⟩ (by decide) rfl (by decide) rfl).2.1
        (by simp [ex_env])
    have hm : msg = [12, 0, 0, 0, 77, 0, 0, 0, 6, 0, 0, 0] := by
      rw [← List.take_append_drop 12 msg, h4, h5]
      rfl
    rw [h1, hm],
   by decide,
   ((flow_control_gate (ex_env ex_service_any false) 8 { ex_conn [] [] with service := 1 }
      ⟨8, 1⟩ (ex_frame 8 1) ex_service_any ⟨ex_handler_fn, 12, 77,
        flow_control.FLOW_CONTROL_REQUIRED⟩ (by decide) rfl (by decide) rfl).1
      (Or.inr ⟨rfl, rfl, rfl⟩)).1⟩

/-- C9 (evaluation at the failing input): on a fresh ACTIVE connection a read-ready event on
which `recvmsg` fails with `EAGAIN` makes `poll_handler_libais_deliver` return -1 with
`inb_inuse = -1` and `inb_start = -1`; `libais_disconnect` is not called and the state stays
ACTIVE. -/
theorem eagain_returns_minus_one :
    (poll_handler_libais_deliver ex_env0 8 ex_pollin recv_result.eagain (ex_conn [] [])).status
        = status.returned (-1) ∧
    (poll_handler_libais_deliver ex_env0 8 ex_pollin recv_result.eagain (ex_conn [] [])).conn.inb_inuse
        = -1 ∧
    (poll_handler_libais_deliver ex_env0 8 ex_pollin recv_result.eagain (ex_conn [] [])).conn.inb_start
        = -1 ∧
    (poll_handler_libais_deliver ex_env0 8 ex_pollin recv_result.eagain (ex_conn [] [])).conn.state
        = conn_state.CONN_STATE_ACTIVE ∧
    (poll_handler_libais_deliver ex_env0 8 ex_pollin recv_result.eagain (ex_conn [] [])).trace
        = [event.recvmsg 32 true, event.security_log] := by
  decide

/-- C5 (evaluation at the failing input): starting from the state made by `conn_info_create`,
one invocation of `poll_handler_libais_deliver` on which `recvmsg` fails with `EAGAIN` ends
with `inb_inuse = -1`, so `0 <= inb_inuse` does not hold afterwards. -/
theorem eagain_breaks_inb_bounds :
    (ex_conn [] []).inb_inuse = 0 ∧ (ex_conn [] []).inb_start = 0 ∧
    ¬ (0 ≤ (poll_handler_libais_deliver ex_env0 8 ex_pollin recv_result.eagain
          (ex_conn [] [])).conn.inb_inuse) ∧
    ¬ (0 ≤ (poll_handler_libais_deliver ex_env0 8 ex_pollin recv_result.eagain
          (ex_conn [] [])).conn.inb_start) := by
  decide

/-- C10 (evaluation at the failing input): on an authenticated connection bound to service 1,
a frame for opcode 2, whose handler returns -1, makes `poll_handler_libais_deliver` return
-1 without calling `libais_disconnect`: the state is still ACTIVE, the socket has not been
closed and nothing has been freed.  On the same connection a frame with the opcode 9, which
fails the bounds check, does go through `libais_disconnect`. -/
theorem handler_failure_skips_disconnect :
    (poll_handler_libais_deliver (ex_env ex_service_any false) 8 ex_pollin
        (recv_result.data (ex_frame 8 2) none)
        { ex_conn [] [] with service := 1, authenticated := true }).status
      = status.returned (-1) ∧
    (poll_handler_libais_deliver (ex_env ex_service_any false) 8 ex_pollin
        (recv_result.data (ex_frame 8 2) none)
        { ex_conn [] [] with service := 1, authenticated := true }).trace
      = [event.recvmsg 32 false, event.handler_fn 1 2 (ex_frame 8 2) true] ∧
    (poll_handler_libais_deliver (ex_env ex_service_any false) 8 ex_pollin
        (recv_result.data (ex_frame 8 2) none)
        { ex_conn [] [] with service := 1, authenticated := true }).conn.state
      = conn_state.CONN_STATE_ACTIVE ∧
    (poll_handler_libais_deliver (ex_env ex_service_any false) 8 ex_pollin
        (recv_result.data (ex_frame 8 2) none)
        { ex_conn [] [] with service := 1, authenticated := true }).conn.closes = 0 ∧
    (poll_handler_libais_deliver (ex_env ex_service_any false) 8 ex_pollin
        (recv_result.data (ex_frame 8 2) none)
        { ex_conn [] [] with service := 1, authenticated := true }).conn.conn_frees = 0 ∧
    (poll_handler_libais_deliver (ex_env ex_service_any false) 8 ex_pollin
        (recv_result.data (ex_frame 8 9) none)
        { ex_conn [] [] with service := 1, authenticated := true }).trace
      = [event.recvmsg 32 false, event.security_log, event.disconnect] ∧
    (poll_handler_libais_deliver (ex_env ex_service_any false) 8 ex_pollin
        (recv_result.data (ex_frame 8 9) none)
        { ex_conn [] [] with service := 1, authenticated := true }).conn.state
      = conn_state.CONN_STATE_DISCONNECTING ∧
    (poll_handler_libais_deliver (ex_env ex_service_any false) 8 ex_pollin
        (recv_result.data (ex_frame 8 9) none)
        { ex_conn [] [] with service := 1, authenticated := true }).conn.closes = 1 := by
  decide


/-! ## The deliver loop: what the senders and the service functions leave alone -/

theorem outq_drain_recv_side (items : List outq_item) :
    ∀ c : conn_info, recv_side (outq_drain c items).2 = recv_side c := by
  induction items with
  | nil => intro c; rfl
  | cons item rest ih =>
    intro c
    unfold outq_drain
    rcases hs : sendmsg c.sock (item.mlen - c.byte_start) with ⟨o, s⟩
    cases o with
    | eagain => rfl
    | error => rfl
    | sent k =>
      dsimp only
      split
      · rfl
      · rw [ih]; rfl

theorem cleanup_recv_side (c : conn_info) :
    recv_side (cleanup_send_response c).2 = recv_side c := by
  unfold cleanup_send_response
  split
  · rfl
  · have h := outq_drain_recv_side c.outq.items c
    rcases hd : outq_drain c c.outq.items with ⟨e, c1⟩
    rw [hd] at h
    cases e <;> dsimp only <;> first
      | exact h
      | (split <;> exact h)

theorem send_requested_recv_side (c : conn_info) (msg : List Byte) (mlen : Nat) :
    recv_side (send_requested c msg mlen).2 = recv_side c := by
  unfold send_requested
  split
  · split
    · rfl
    · rfl
    · dsimp only
      split <;> rfl
  · rfl

theorem malloc_recv_side (c : conn_info) : recv_side (malloc c).2 = recv_side c := by
  unfold malloc
  cases c.heap <;> rfl

theorem send_recv_side (c : conn_info) (msg : List Byte) (mlen : Nat) :
    recv_side (libais_send_response c msg mlen).2 = recv_side c := by
  unfold libais_send_response
  split
  · rfl
  · split
    · rfl
    · dsimp only
      have h1 := outq_drain_recv_side c.outq.items c
      have h2 := send_requested_recv_side (outq_drain c c.outq.items).2 msg mlen
      have h3 := malloc_recv_side (send_requested (outq_drain c c.outq.items).2 msg mlen).2
      split
      · rcases hm : malloc (send_requested (outq_drain c c.outq.items).2 msg mlen).2 with ⟨b, c3⟩
        rw [hm] at h3
        cases b
        · exact h3.trans (h2.trans h1)
        · exact h3.trans (h2.trans h1)
      · exact h2.trans h1

theorem lookup_mem {α : Type} (l : List α) (i : Int) (a : α) (h : lookup l i = some a) :
    a ∈ l := by
  unfold lookup at h
  split at h
  · exact List.getElem?_mem h
  · cases h

theorem error_disconnect_trace (env : exec_env) (c : conn_info) (tr : List event)
    (e : event) (h : e ∈ (error_disconnect env c tr).trace) :
    e ∈ tr ∨ e = event.disconnect ∨ e = event.exit_fn c.service := by
  simp only [error_disconnect, List.mem_append, List.mem_cons] at h
  rcases h with h | h | h
  · exact Or.inl h
  · exact Or.inr (Or.inl h)
  · exact Or.inr (Or.inr (libais_disconnect_trace env c e h))

/-- What the authentication block can leave behind when it does not fault. -/
theorem authenticate_cases (env : exec_env) (d : conn_info) (cred : Option ucred)
    (a : conn_info × List event) (h : authenticate env d cred = some a) :
    (a.1 = d ∨ a.1 = { d with passcred := false, authenticated := true }) ∧
    (∀ e ∈ a.2, e = event.security_log) := by
  unfold authenticate at h
  split at h
  · split at h
    · cases h
    · split at h
      · injection h with h
        subst h
        exact ⟨Or.inr rfl, by simp⟩
      · injection h with h
        subst h
        exact ⟨Or.inl rfl, by simp⟩
  · injection h with h
    subst h
    exact ⟨Or.inl rfl, by simp⟩

theorem authenticate_trace (env : exec_env) (c : conn_info) (cred : Option ucred)
    (a : conn_info × List event) (ha : authenticate env c cred = some a) (e : event)
    (h : e ∈ a.2) : e = event.security_log :=
  (authenticate_cases env c cred a ha).2 e h

theorem authenticate_of_auth (env : exec_env) (c : conn_info) (cred : Option ucred)
    (h : c.authenticated = true) : authenticate env c cred = some (c, []) := by
  simp [authenticate, h]

theorem deliver_received_none (env : exec_env) (fuel : Nat) (c : conn_info) (res : Int)
    (cred : Option ucred) (tr : List event) (h : authenticate env c cred = none) :
    deliver_received env fuel c res cred tr = ⟨status.fault fault.cred_deref, c, tr⟩ := by
  unfold deliver_received
  rw [h]

theorem cleanup_state (c : conn_info) : (cleanup_send_response c).2.state = c.state := by
  unfold cleanup_send_response
  split
  · rfl
  · have h := (drain_keeps c.outq.items c).1
    rcases hd : outq_drain c c.outq.items with ⟨e, c1⟩
    rw [hd] at h
    cases e <;> dsimp only <;> first
      | exact h
      | (split <;> exact h)

theorem authenticate_policy (env : exec_env) (c : conn_info) (cr : ucred)
    (ha : c.authenticated = false) :
    ∃ a, authenticate env c (some cr) = some a ∧
      (a.1.authenticated = true ↔ (cr.uid = 0 ∨ cr.gid = env.gid_valid)) := by
  unfold authenticate
  rw [if_pos ha]
  dsimp only
  by_cases hp : cr.uid = 0 ∨ cr.gid = env.gid_valid
  · rw [if_pos hp]
    exact ⟨_, rfl, by simp [hp]⟩
  · rw [if_neg hp]
    exact ⟨_, rfl, by simp [hp, ha]⟩

/-- The receive step is reached and `recvmsg` delivers data: the callback continues with the
authentication block. -/
theorem poll_handler_data (env : exec_env) (fuel : Nat) (revent : poll_mask)
    (bytes : List Byte) (cred : Option ucred) (c : conn_info)
    (hin : revent.pollin = true) (hs : c.state = conn_state.CONN_STATE_ACTIVE)
    (h0 : 0 ≤ c.inb_start) (h1 : c.inb_start < (env.SIZEINB : Int))
    (h2 : c.inb_start ≤ (c.inb.length : Int)) (h3 : env.SIZEINB < 2147483648)
    (hb : bytes ≠ []) :
    ∃ c1 : conn_info, ∃ k : Nat,
      recv_side c1 = (c.authenticated, c.service,
        write_at c.inb c.inb_start.toNat (bytes.take k), c.inb_start, c.inb_inuse, c.passcred) ∧
      c1.state = conn_state.CONN_STATE_ACTIVE ∧
      (k : Int) = (env.SIZEINB : Int) - c.inb_start ∧
      poll_handler_libais_deliver env fuel revent (recv_result.data bytes cred) c
        = deliver_received env fuel c1 ((bytes.take k).length : Nat) cred
            [event.recvmsg k (!c.authenticated)] := by
  unfold poll_handler_libais_deliver
  dsimp only
  have hc0 : recv_side (if revent.pollout = true then (cleanup_send_response c).2 else c)
      = recv_side c ∧
      (if revent.pollout = true then (cleanup_send_response c).2 else c).state = c.state := by
    split
    · exact ⟨cleanup_recv_side c, cleanup_state c⟩
    · exact ⟨rfl, rfl⟩
  generalize (if revent.pollout = true then (cleanup_send_response c).2 else c) = c0 at hc0
  obtain ⟨hrs, hst⟩ := hc0
  have e_start : c0.inb_start = c.inb_start := congrArg (fun p => p.2.2.2.1) hrs
  have e_inb : c0.inb = c.inb := congrArg (fun p => p.2.2.1) hrs
  have hsz : to_size_t ((env.SIZEINB : Int) - c0.inb_start) = (env.SIZEINB : Int) - c.inb_start := by
    unfold to_size_t
    rw [e_start]
    omega
  have hk : (((env.SIZEINB : Int) - c.inb_start).toNat : Int) = (env.SIZEINB : Int) - c.inb_start := by
    omega
  refine ⟨{ c0 with inb := write_at c0.inb c0.inb_start.toNat (bytes.take ((env.SIZEINB : Int) - c.inb_start).toNat) },
    ((env.SIZEINB : Int) - c.inb_start).toNat, ?_, ?_, hk, ?_⟩
  · have := hrs
    simp only [recv_side, Prod.mk.injEq] at this ⊢
    obtain ⟨a1, a2, a3, a4, a5, a6⟩ := this
    exact ⟨a1, a2, by rw [a3, a4], a4, a5, a6⟩
  · exact hst.trans hs
  · have e_auth : c0.authenticated = c.authenticated := congrArg (fun p => p.1) hrs
    rw [← e_auth]
    rw [if_neg (by simp [hin])]
    rw [if_neg (by rw [hst, hs]; simp)]
    rw [if_neg (by rw [e_start, e_inb]; omega)]
    rw [hsz]
    rw [if_neg (by omega)]
    simp only [recvmsg]
    have hne : (bytes.take ((env.SIZEINB : Int) - c.inb_start).toNat).length ≠ 0 := by
      cases bytes with
      | nil => exact absurd rfl hb
      | cons x xs =>
        simp only [List.length_take, List.length_cons]
        omega
    rw [if_neg hne]


theorem unauth_unbound_of_recv_side {c d : conn_info} (h : recv_side d = recv_side c)
    (hc : unauth_unbound c) : unauth_unbound d := by
  have h1 : d.authenticated = c.authenticated := congrArg (fun p => p.1) h
  have h2 : d.service = c.service := congrArg (fun p => p.2.1) h
  intro hd
  rw [h2]
  exact hc (h1 ▸ hd)

theorem libais_disconnect_unbound (env : exec_env) (hk : services_respect_auth env)
    (c : conn_info) (hc : unauth_unbound c) : unauth_unbound (libais_disconnect env c).conn := by
  unfold libais_disconnect
  split
  · exact hc
  · rename_i sh hsh
    have hmem := lookup_mem _ _ _ hsh
    have hx := (hk sh hmem).2.2
    cases he : sh.libais_exit_fn with
    | none =>
      dsimp only
      split <;> split <;> exact hc
    | some g =>
      have := hx g he c hc
      dsimp only
      split <;> split <;> exact this

theorem dispatch_frame_unbound (env : exec_env) (hk : services_respect_auth env) (res : Int)
    (c : conn_info) (hdr : req_header) (frame : List Byte) (hc : unauth_unbound c) :
    unauth_unbound (dispatch_frame env res c hdr frame).conn ∧
    ∀ s i f a, event.handler_fn s i f a ∈ (dispatch_frame env res c hdr frame).trace →
      a = true := by
  unfold dispatch_frame
  split
  · split
    · exact ⟨hc, by simp⟩
    · rename_i sh hsh
      exact ⟨(hk sh (List.getElem?_mem hsh)).1 c hdr frame hc, by simp⟩
  · rename_i hsvc
    have hauth : c.authenticated = true := by
      cases ha : c.authenticated
      · exact absurd (hc ha) hsvc
      · rfl
    split
    · exact ⟨hc, by simp⟩
    · rename_i sh hsh
      have hmem := lookup_mem _ _ _ hsh
      split
      · exact ⟨hc, by simp⟩
      · split
        · exact ⟨hc, by simp⟩
        · rename_i h hh
          split
          · refine ⟨(hk sh hmem).2.1 h (List.getElem?_mem hh) c hdr frame hc, ?_⟩
            intro s i f a hm
            simp only [List.mem_singleton] at hm
            injection hm with _ _ _ h4
            rw [h4, hauth]
          · exact ⟨unauth_unbound_of_recv_side (send_recv_side _ _ _) hc, by simp⟩

theorem deliver_loop_unbound (env : exec_env) (hk : services_respect_auth env) (fuel : Nat) :
    ∀ (res : Int) (c : conn_info), unauth_unbound c →
      unauth_unbound (deliver_loop env fuel res c).conn ∧
      ∀ s i f a, event.handler_fn s i f a ∈ (deliver_loop env fuel res c).trace → a = true := by
  induction fuel with
  | zero =>
    intro res c hc
    unfold deliver_loop
    split
    · dsimp only
      split
      · exact ⟨hc, by simp⟩
      · split <;> exact ⟨hc, by simp⟩
    · exact ⟨hc, by simp⟩
  | succ k ih =>
    intro res c hc
    unfold deliver_loop
    split
    · dsimp only
      split
      · exact ⟨hc, by simp⟩
      · split
        · exact ⟨hc, by simp⟩
        · have hd := dispatch_frame_unbound env hk res c
            (req_header_at c.inb (c.inb_start - c.inb_inuse).toNat)
            ((c.inb.drop (c.inb_start - c.inb_inuse).toNat).take
              (req_header_at c.inb (c.inb_start - c.inb_inuse).toNat).size) hc
          split
          · exact hd
          · exact hd
          · dsimp only
            rename_i res1 _
            constructor
            · refine (ih res1 _ ?_).1
              exact hd.1
            · intro s i f a hm
              rw [List.mem_append] at hm
              rcases hm with hm | hm
              · exact hd.2 s i f a hm
              · refine (ih res1 _ ?_).2 s i f a hm
                exact hd.1
    · exact ⟨hc, by simp⟩


theorem poll_handler_unbound (env : exec_env) (hk : services_respect_auth env) (fuel : Nat)
    (revent : poll_mask) (rx : recv_result) (c : conn_info) (hc : unauth_unbound c) :
    unauth_unbound (poll_handler_libais_deliver env fuel revent rx c).conn ∧
    ∀ s i f a, event.handler_fn s i f a ∈ (poll_handler_libais_deliver env fuel revent rx c).trace →
      a = true := by
  have hdis : ∀ (d : conn_info) (tr : List event), unauth_unbound d →
      (∀ s i f a, event.handler_fn s i f a ∈ tr → a = true) →
      unauth_unbound (error_disconnect env d tr).conn ∧
      ∀ s i f a, event.handler_fn s i f a ∈ (error_disconnect env d tr).trace → a = true := by
    intro d tr hd htr
    refine ⟨libais_disconnect_unbound env hk d hd, ?_⟩
    intro s i f a hm
    rcases error_disconnect_trace env _ _ _ hm with h1 | h1 | h1
    · exact htr s i f a h1
    · cases h1
    · cases h1
  have hrecv : ∀ (d : conn_info) (res : Int) (cred : Option ucred) (tr : List event),
      unauth_unbound d → (∀ s i f a, event.handler_fn s i f a ∈ tr → a = true) →
      unauth_unbound (deliver_received env fuel d res cred tr).conn ∧
      ∀ s i f a, event.handler_fn s i f a ∈ (deliver_received env fuel d res cred tr).trace →
        a = true := by
    intro d res cred tr hd htr
    cases hA : authenticate env d cred with
    | none =>
      rw [deliver_received_none env fuel d res cred tr hA]
      exact ⟨hd, htr⟩
    | some A =>
    have ha : unauth_unbound A.1 := by
      rcases (authenticate_cases env d cred A hA).1 with h | h
      · rw [h]; exact hd
      · rw [h]; intro hf; simp at hf
    have hl := deliver_loop_unbound env hk fuel res
      { A.1 with inb_inuse := A.1.inb_inuse + res, inb_start := A.1.inb_start + res } ha
    have htr2 : ∀ s i f a, event.handler_fn s i f a ∈ tr ++ A.2 ++
        (deliver_loop env fuel res
          { A.1 with inb_inuse := A.1.inb_inuse + res, inb_start := A.1.inb_start + res }).trace →
        a = true := by
      intro s i f a hm
      simp only [List.mem_append] at hm
      rcases hm with (hm | hm) | hm
      · exact htr s i f a hm
      · cases authenticate_trace env d cred A hA _ hm
      · exact hl.2 s i f a hm
    unfold deliver_received
    rw [hA]
    dsimp only
    split
    · exact ⟨hl.1, htr2⟩
    · exact ⟨hl.1, htr2⟩
    · exact hdis _ _ hl.1 htr2
    · refine ⟨?_, htr2⟩
      unfold compact
      split
      · exact hl.1
      · split <;> exact hl.1
  unfold poll_handler_libais_deliver
  dsimp only
  have hc0 : unauth_unbound (if revent.pollout = true then (cleanup_send_response c).2 else c) := by
    split
    · exact unauth_unbound_of_recv_side (cleanup_recv_side c) hc
    · exact hc
  generalize (if revent.pollout = true then (cleanup_send_response c).2 else c) = c0 at hc0
  split
  · exact ⟨hc0, by simp⟩
  · split
    · exact hdis c0 [] hc0 (by simp)
    · split
      · exact ⟨hc0, by simp⟩
      · split
        · exact ⟨hc0, by simp⟩
        · split
          · exact hdis c0 _ hc0 (by simp)
          · exact hrecv c0 _ _ _ hc0 (by simp)
          · split
            · exact hdis c0 _ hc0 (by simp)
            · exact hrecv _ _ _ _ hc0 (by simp)

/-- C2 (as amended): `poll_handler_libais_deliver` does not test `authenticated` before it
dispatches; it calls a `libais_handler_fn` whenever `service != INIT`.  Provided no function
of the service table leaves a connection both unauthenticated and bound to a service, then
for every connection that starts unbound or authenticated, every sequence of ready events
and whatever the frames contain, every `libais_handler_fn` call is made with
`authenticated` true: no request handler is invoked while the flag is false. -/
theorem no_handler_before_authentication (env : exec_env) (fuel : Nat)
    (hk : services_respect_auth env) (evs : List (poll_mask × recv_result)) :
    ∀ c : conn_info, unauth_unbound c →
      unauth_unbound (run_poll env fuel c evs).conn ∧
      ∀ s i f a, event.handler_fn s i f a ∈ (run_poll env fuel c evs).trace → a = true := by
  induction evs with
  | nil => intro c hc; exact ⟨hc, by simp [run_poll]⟩
  | cons ev rest ih =>
    intro c hc
    have hp := poll_handler_unbound env hk fuel ev.1 ev.2 c hc
    unfold run_poll
    dsimp only
    split
    · split
      · exact hp
      · have hi := ih _ hp.1
        refine ⟨hi.1, ?_⟩
        intro s i f a hm
        rw [List.mem_append] at hm
        rcases hm with hm | hm
        · exact hp.2 s i f a hm
        · exact hi.2 s i f a hm
    · exact hp

theorem ex_env_respects_auth (sync : Bool) :
    services_respect_auth (ex_env ex_service_checked sync) := by
  intro sh hmem
  simp only [ex_env, List.mem_singleton] at hmem
  subst hmem
  refine ⟨?_, ?_, ?_⟩
  · intro c h f hc
    simp only [ex_service_checked, ex_init_checked]
    split
    · rename_i ha
      intro hf
      simp [ha] at hf
    · exact hc
  · intro hd hmem
    simp only [ex_service_checked, ex_handlers, List.mem_cons, List.mem_singleton,
      List.not_mem_nil, or_false] at hmem
    rcases hmem with rfl | rfl | rfl | rfl <;> intro c h f hc <;> exact hc
  · intro g hg
    simp [ex_service_checked] at hg

/-- C2 (as amended) at a concrete input: a service whose init function refuses an
unauthenticated peer. -/
theorem no_handler_before_authentication_witness :
    services_respect_auth (ex_env ex_service_checked false) ∧
    unauth_unbound (ex_conn [] []) ∧
    ∀ s i f a, event.handler_fn s i f a ∈ (run_poll (ex_env ex_service_checked false) 8
        (ex_conn [] [])
        [(ex_pollin, recv_result.data (ex_frame 8 0) (some ⟨1, 1000, 500⟩)),
         (ex_pollin, recv_result.data (ex_frame 8 3 ++ ex_frame 8 0) none)]).trace → a = true :=
  ⟨ex_env_respects_auth false, fun _ => rfl,
   (no_handler_before_authentication (ex_env ex_service_checked false) 8
      (ex_env_respects_auth false)
      [(ex_pollin, recv_result.data (ex_frame 8 0) (some ⟨1, 1000, 500⟩)),
       (ex_pollin, recv_result.data (ex_frame 8 3 ++ ex_frame 8 0) none)]
      (ex_conn [] []) (fun _ => rfl)).2⟩

/-- C2 (counterexample): with a service whose init function binds the connection without
looking at the flag, a peer with uid 1000 and gid 1000 (expected gid 500) that sends an init
frame followed by a request for opcode 0 is not authenticated, and
`poll_handler_libais_deliver` calls the handler of opcode 0 for its second frame. -/
theorem unauthenticated_handler_call :
    (poll_handler_libais_deliver (ex_env ex_service_any false) 8 ex_pollin
        (recv_result.data (ex_frame 8 0 ++ ex_frame 8 0) (some ⟨1, 1000, 1000⟩))
        (ex_conn [] [])).conn.authenticated = false ∧
    (poll_handler_libais_deliver (ex_env ex_service_any false) 8 ex_pollin
        (recv_result.data (ex_frame 8 0 ++ ex_frame 8 0) (some ⟨1, 1000, 1000⟩))
        (ex_conn [] [])).trace
      = [event.recvmsg 32 true, event.security_log, event.init_fn 0 (ex_frame 8 0),
         event.handler_fn 1 0 (ex_frame 8 0) false] := by
  decide


/-! ## The deliver loop: framing -/

theorem le32_congr (a b : List Byte) (h : a.take 4 = b.take 4) : le32 a = le32 b := by
  have h0 : a.getD 0 0 = b.getD 0 0 := by
    have := congrArg (fun l => l.getD 0 0) h
    simpa [List.getD_eq_getElem?_getD, List.getElem?_take] using this
  have h1 : a.getD 1 0 = b.getD 1 0 := by
    have := congrArg (fun l => l.getD 1 0) h
    simpa [List.getD_eq_getElem?_getD, List.getElem?_take] using this
  have h2 : a.getD 2 0 = b.getD 2 0 := by
    have := congrArg (fun l => l.getD 2 0) h
    simpa [List.getD_eq_getElem?_getD, List.getElem?_take] using this
  have h3 : a.getD 3 0 = b.getD 3 0 := by
    have := congrArg (fun l => l.getD 3 0) h
    simpa [List.getD_eq_getElem?_getD, List.getElem?_take] using this
  unfold le32
  rw [h0, h1, h2, h3]

theorem take_congr_le {α : Type} (X Y : List α) (u n : Nat) (h : X.take u = Y.take u)
    (hn : n ≤ u) : X.take n = Y.take n := by
  have := congrArg (List.take n) h
  simpa [List.take_take, Nat.min_eq_left hn] using this

theorem le32_region (X Y : List Byte) (u m : Nat) (h : X.take u = Y.take u)
    (hm : m + 4 ≤ u) : le32 (X.drop m) = le32 (Y.drop m) := by
  apply le32_congr
  rw [List.take_drop, List.take_drop, take_congr_le X Y u (m + 4) h hm]

/-- The header found at the start of a region that holds the first `u >= 8` bytes of a
stream beginning with the frame `f`. -/
theorem header_of_region (inb : List Byte) (off u : Nat) (f : List Byte) (rest : List Byte)
    (hreg : (inb.drop off).take u = (f ++ rest).take u) (hu : 8 ≤ u) (hf : 8 ≤ f.length) :
    req_header_at inb off = ⟨le32 f, frame_id f⟩ := by
  unfold req_header_at frame_id
  have h1 : le32 (inb.drop off) = le32 f := by
    have := le32_region (inb.drop off) (f ++ rest) u 0 hreg (by omega)
    simp only [List.drop_zero] at this
    rw [this]
    apply le32_congr
    rw [List.take_append_of_le_length (by omega)]
  have h2 : le32 (inb.drop (off + 4)) = le32 (f.drop 4) := by
    have := le32_region (inb.drop off) (f ++ rest) u 4 hreg (by omega)
    rw [List.drop_drop] at this
    rw [this]
    apply le32_congr
    rw [List.drop_append_of_le_length (by omega), List.take_append_of_le_length (by simp; omega)]
  rw [h1, h2]

theorem frame_of_region (inb : List Byte) (off u : Nat) (f : List Byte) (rest : List Byte)
    (hreg : (inb.drop off).take u = (f ++ rest).take u) (hf : f.length ≤ u) :
    (inb.drop off).take f.length = f := by
  rw [take_congr_le _ _ u f.length hreg hf]
  exact List.take_left _ _

theorem region_after_frame (inb : List Byte) (off u : Nat) (f : List Byte) (rest : List Byte)
    (hreg : (inb.drop off).take u = (f ++ rest).take u) :
    (inb.drop (off + f.length)).take (u - f.length) = rest.take (u - f.length) := by
  have := congrArg (List.drop f.length) hreg
  rw [List.drop_take, List.drop_take, List.drop_drop, List.drop_left] at this
  exact this

theorem dispatch_event_is_dispatch (env : exec_env) (sh : service_handler) (svc : Nat)
    (a : Bool) (f : List Byte) :
    is_dispatch (dispatch_event env sh svc a f) = true ∧
    erase_auth (dispatch_event env sh svc a f) = dispatch_event env sh svc false f ∧
    dispatch_event env sh svc a f ≠ event.disconnect := by
  unfold dispatch_event
  split
  · split
    · exact ⟨rfl, rfl, by simp⟩
    · exact ⟨rfl, rfl, by simp⟩
  · exact ⟨rfl, rfl, by simp⟩

theorem dispatch_frame_well_formed (env : exec_env) (res : Int) (c : conn_info)
    (sh : service_handler) (f : List Byte) (hsvc : c.service ≠ 0)
    (hsh : lookup env.ais_service_handlers ((c.service : Int) - 1) = some sh)
    (hf : well_formed_frame env sh f) (hres : res ≠ -1) :
    (∃ r, (dispatch_frame env res c ⟨le32 f, frame_id f⟩ f).exit = step_exit.next r ∧
      r ≠ -1) ∧
    (dispatch_frame env res c ⟨le32 f, frame_id f⟩ f).trace
      = [dispatch_event env sh c.service c.authenticated f] ∧
    recv_side (dispatch_frame env res c ⟨le32 f, frame_id f⟩ f).conn = recv_side c ∧
    (stays_active env sh f →
      (dispatch_frame env res c ⟨le32 f, frame_id f⟩ f).conn.state = c.state) := by
  obtain ⟨hsize, _, _, hid, h, hh, hfn⟩ := hf
  have hnid : ¬ frame_id f > sh.libais_handlers_count := by omega
  cases hok : send_ok env h f.length with
  | true =>
    obtain ⟨r1, r2⟩ := hfn hok c ⟨le32 f, frame_id f⟩ f
    have hok2 : send_ok env h (le32 f) = true := by rw [hsize]; exact hok
    simp only [dispatch_frame, dispatch_event, hsvc, if_false, hsh, hnid, hh, hok2, hok,
      if_true]
    exact ⟨⟨_, rfl, by rw [r1]; decide⟩, trivial, r2, fun hst => (hst h hh).2 _ _ _⟩
  | false =>
    have hok2 : send_ok env h (le32 f) = false := by rw [hsize]; exact hok
    simp only [dispatch_frame, dispatch_event, hsvc, if_false, hsh, hnid, hh, hok2, hok,
      Bool.false_eq_true]
    refine ⟨⟨_, rfl, hres⟩, trivial, send_recv_side c _ _, fun hst => ?_⟩
    have := (hst h hh).1
    rw [hok] at this
    cases this


theorem deliver_loop_frames (env : exec_env) (sh : service_handler) (svc : Nat)
    (hsvc : svc ≠ 0) (hsh : lookup env.ais_service_handlers ((svc : Int) - 1) = some sh)
    (hmax : env.SIZEINB < 2147483648) :
    ∀ (fs : List (List Byte)) (fuel : Nat) (res : Int) (c : conn_info) (u st : Nat),
      (∀ f ∈ fs, well_formed_frame env sh f) → c.service = svc →
      c.inb_inuse = (u : Int) → c.inb_start = (st : Int) → u ≤ st → st ≤ c.inb.length →
      st ≤ env.SIZEINB → (c.inb.drop (st - u)).take u = fs.flatten.take u →
      u ≤ fs.flatten.length → res ≠ -1 → complete_count fs u ≤ fuel →
      (∃ r, (deliver_loop env fuel res c).exit = loop_exit.done r ∧ r ≠ -1) ∧
      (deliver_loop env fuel res c).trace
        = (fs.take (complete_count fs u)).map (dispatch_event env sh svc c.authenticated) ∧
      recv_side (deliver_loop env fuel res c).conn
        = (c.authenticated, svc, c.inb, (st : Int),
            (u : Int) - ((fs.take (complete_count fs u)).flatten.length : Int), c.passcred) ∧
      ((∀ f ∈ fs, stays_active env sh f) →
        (deliver_loop env fuel res c).conn.state = c.state) := by
  intro fs
  induction fs with
  | nil =>
    intro fuel res c u st _ hs hu hst _ _ _ _ hlen hres _
    have hu0 : u = 0 := by simpa using hlen
    subst hu0
    have hcond : ¬ (to_size_t c.inb_inuse ≥ (sizeof_req_header : Int) ∧ res ≠ -1) := by
      rw [hu]; simp [to_size_t, sizeof_req_header]
    unfold deliver_loop
    rw [if_neg hcond]
    exact ⟨⟨res, rfl, hres⟩, by simp [complete_count],
      by simp [complete_count, recv_side, hs, hu, hst], fun _ => rfl⟩
  | cons f rest ih =>
    intro fuel res c u st hwf hs hu hst hle hlen hsz hreg hulen hres hfuel
    have hf := hwf f (List.mem_cons_self _ _)
    have hrest : ∀ g ∈ rest, well_formed_frame env sh g :=
      fun g hg => hwf g (List.mem_cons_of_mem _ hg)
    obtain ⟨hsize, h8, hfmax, _⟩ := hf
    unfold sizeof_req_header at h8
    rw [List.flatten_cons] at hreg hulen
    by_cases hu8 : u < 8
    · have hcond : ¬ (to_size_t c.inb_inuse ≥ (sizeof_req_header : Int) ∧ res ≠ -1) := by
        rw [hu]; simp only [to_size_t, sizeof_req_header]; omega
      have hm : complete_count (f :: rest) u = 0 := by
        simp only [complete_count]; rw [if_neg (by omega)]
      unfold deliver_loop
      rw [if_neg hcond, hm]
      exact ⟨⟨res, rfl, hres⟩, by simp, by simp [recv_side, hs, hu, hst], fun _ => rfl⟩
    · have hcond : to_size_t c.inb_inuse ≥ (sizeof_req_header : Int) ∧ res ≠ -1 := by
        refine ⟨?_, hres⟩
        rw [hu]; simp only [to_size_t, sizeof_req_header]; omega
      have hoff : (c.inb_start - c.inb_inuse).toNat = st - u := by rw [hu, hst]; omega
      have hnofault : ¬ (c.inb_start - c.inb_inuse < 0 ∨
          (c.inb.length : Int) < c.inb_start - c.inb_inuse + (sizeof_req_header : Int)) := by
        rw [hu, hst]; simp only [sizeof_req_header]; omega
      have hhdr : req_header_at c.inb (st - u) = ⟨le32 f, frame_id f⟩ :=
        header_of_region c.inb (st - u) u f rest.flatten hreg (by omega) h8
      by_cases hfu : f.length ≤ u
      · -- the head frame is complete
        have hm : complete_count (f :: rest) u = 1 + complete_count rest (u - f.length) := by
          simp only [complete_count]; rw [if_pos hfu]
        have hframe := frame_of_region c.inb (st - u) u f rest.flatten hreg hfu
        have hd := dispatch_frame_well_formed env res c sh f (by rw [hs]; exact hsvc)
          (by rw [hs]; exact hsh) (hwf f (List.mem_cons_self _ _)) hres
        obtain ⟨⟨r, d1, hr⟩, d2, d3, d4⟩ := hd
        have hnb : ¬ ((le32 f : Int) > to_u32 c.inb_inuse) := by
          rw [hu, hsize]; simp only [to_u32]; omega
        cases fuel with
        | zero => rw [hm] at hfuel; omega
        | succ k =>
          unfold deliver_loop
          rw [if_pos hcond]
          dsimp only
          rw [if_neg hnofault, hoff, hhdr]
          dsimp only
          rw [if_neg hnb, hsize, hframe, ← hsize]
          generalize dispatch_frame env res c ⟨le32 f, frame_id f⟩ f = D at d1 d2 d3 d4 ⊢
          have e_inb : D.conn.inb = c.inb := congrArg (fun p => p.2.2.1) d3
          have e_auth : D.conn.authenticated = c.authenticated := congrArg (fun p => p.1) d3
          have e_svc : D.conn.service = c.service := congrArg (fun p => p.2.1) d3
          have e_start : D.conn.inb_start = c.inb_start := congrArg (fun p => p.2.2.2.1) d3
          have e_inuse : D.conn.inb_inuse = c.inb_inuse := congrArg (fun p => p.2.2.2.2.1) d3
          have e_pc : D.conn.passcred = c.passcred := congrArg (fun p => p.2.2.2.2.2) d3
          have hh2 : req_header_at D.conn.inb (st - u) = ⟨le32 f, frame_id f⟩ := by
            rw [e_inb]; exact hhdr
          rw [d1]
          dsimp only
          rw [hh2]
          dsimp only
          have hnew : to_int32 (D.conn.inb_inuse - (le32 f : Int)) = ((u - f.length : Nat) : Int) := by
            rw [e_inuse, hu, hsize]; simp only [to_int32]; omega
          rw [hnew]
          have hih := ih k r { D.conn with inb_inuse := ((u - f.length : Nat) : Int) }
            (u - f.length) st hrest (e_svc.trans hs) rfl (e_start.trans hst) (by omega)
            (by rw [e_inb]; exact hlen) hsz
            (by
              rw [e_inb]
              have := region_after_frame c.inb (st - u) u f rest.flatten hreg
              have e : st - (u - f.length) = st - u + f.length := by omega
              rw [e]; exact this)
            (by simp only [List.length_append] at hulen; omega)
            hr (by rw [hm] at hfuel; omega)
          obtain ⟨i1, i2, i3, i4⟩ := hih
          dsimp only at i1 i2 i3 i4 ⊢
          refine ⟨i1, ?_, ?_, ?_⟩
          · rw [d2, i2, hm, hs, e_auth, Nat.add_comm 1, List.take_succ_cons]
            rfl
          · rw [i3, hm, e_auth, e_inb, e_pc]
            rw [Nat.add_comm 1, List.take_succ_cons, List.flatten_cons, List.length_append]
            simp only [Prod.mk.injEq, true_and, and_true]
            push_cast
            omega
          · intro hall
            rw [i4 (fun g hg => hall g (List.mem_cons_of_mem _ hg))]
            exact d4 (hall f (List.mem_cons_self _ _))
      · -- the head frame is incomplete
        have hm : complete_count (f :: rest) u = 0 := by
          simp only [complete_count]; rw [if_neg hfu]
        have hb : (le32 f : Int) > to_u32 c.inb_inuse := by
          rw [hu, hsize]; simp only [to_u32]; omega
        unfold deliver_loop
        rw [if_pos hcond]
        dsimp only
        rw [if_neg hnofault, hoff, hhdr]
        dsimp only
        rw [if_pos hb, hm]
        exact ⟨⟨res, rfl, hres⟩, by simp, by simp [recv_side, hs, hu, hst], fun _ => rfl⟩

theorem write_at_length (inb : List Byte) (st : Nat) (bytes : List Byte)
    (h : st + bytes.length ≤ inb.length) : (write_at inb st bytes).length = inb.length := by
  unfold write_at
  simp only [List.length_append, List.length_take, List.length_drop]
  omega

theorem write_region (inb : List Byte) (st u : Nat) (bytes S : List Byte) (hu : u ≤ st)
    (hst : st + bytes.length ≤ inb.length)
    (hreg : (inb.drop (st - u)).take u = S.take u)
    (hb : bytes = (S.drop u).take bytes.length) (hlen : u ≤ S.length) :
    ((write_at inb st bytes).drop (st - u)).take (u + bytes.length)
      = S.take (u + bytes.length) := by
  unfold write_at
  have h1 : (inb.take st).length = st := by simp only [List.length_take]; omega
  have h2 : (inb.take st).drop (st - u) = S.take u := by
    rw [List.drop_take]
    have e : st - (st - u) = u := by omega
    rw [e]; exact hreg
  rw [List.append_assoc, List.drop_append_of_le_length (by omega), h2]
  have h3 : (S.take u).length = u := by simp only [List.length_take]; omega
  rw [← List.append_assoc, List.take_append_of_le_length (by simp only [List.length_append, h3]; omega)]
  rw [List.take_of_length_le (by simp only [List.length_append, h3]; omega)]
  rw [List.take_add, ← hb]

theorem complete_count_le (fs : List (List Byte)) :
    ∀ r : Nat, (∀ f ∈ fs, 1 ≤ f.length) → complete_count fs r ≤ r := by
  induction fs with
  | nil => intro r _; simp [complete_count]
  | cons f fs ih =>
    intro r h
    simp only [complete_count]
    split
    · have := ih (r - f.length) (fun g hg => h g (List.mem_cons_of_mem _ hg))
      have := h f (List.mem_cons_self _ _)
      omega
    · omega

theorem complete_count_le_length (fs : List (List Byte)) :
    ∀ r : Nat, complete_count fs r ≤ fs.length := by
  induction fs with
  | nil => intro r; simp [complete_count]
  | cons f fs ih =>
    intro r
    simp only [complete_count, List.length_cons]
    split
    · have := ih (r - f.length); omega
    · omega

theorem complete_count_bytes (fs : List (List Byte)) :
    ∀ r : Nat, (fs.take (complete_count fs r)).flatten.length ≤ r := by
  induction fs with
  | nil => intro r; simp [complete_count]
  | cons f fs ih =>
    intro r
    simp only [complete_count]
    split
    · rw [Nat.add_comm 1, List.take_succ_cons, List.flatten_cons, List.length_append]
      have := ih (r - f.length); omega
    · simp

theorem complete_count_rest (fs : List (List Byte)) :
    ∀ r : Nat, complete_count (fs.drop (complete_count fs r))
      (r - (fs.take (complete_count fs r)).flatten.length) = 0 := by
  induction fs with
  | nil => intro r; simp [complete_count]
  | cons f fs ih =>
    intro r
    by_cases h : f.length ≤ r
    · have e : complete_count (f :: fs) r = complete_count fs (r - f.length) + 1 := by
        simp only [complete_count]; rw [if_pos h]; omega
      rw [e, List.drop_succ_cons, List.take_succ_cons, List.flatten_cons, List.length_append]
      have := ih (r - f.length)
      rw [← Nat.sub_sub]
      exact this
    · have e : complete_count (f :: fs) r = 0 := by
        simp only [complete_count]; rw [if_neg h]
      rw [e]
      simp only [List.drop_zero, List.take_zero, List.flatten_nil, List.length_nil, Nat.sub_zero]
      exact e

theorem complete_count_add (fs : List (List Byte)) :
    ∀ (m x : Nat), m ≤ fs.length →
      complete_count fs ((fs.take m).flatten.length + x) = m + complete_count (fs.drop m) x := by
  induction fs with
  | nil => intro m x h; simp at h; subst h; simp
  | cons f fs ih =>
    intro m x h
    cases m with
    | zero => simp
    | succ k =>
      rw [List.take_succ_cons, List.flatten_cons, List.length_append, List.drop_succ_cons]
      simp only [complete_count]
      rw [if_pos (by omega)]
      have e : f.length + (fs.take k).flatten.length + x - f.length
          = (fs.take k).flatten.length + x := by omega
      rw [e, ih k x (by simpa using h)]
      omega

theorem complete_count_all (fs : List (List Byte)) :
    ∀ r : Nat, fs.flatten.length ≤ r → complete_count fs r = fs.length := by
  induction fs with
  | nil => intro r _; simp [complete_count]
  | cons f fs ih =>
    intro r h
    rw [List.flatten_cons, List.length_append] at h
    simp only [complete_count, List.length_cons]
    rw [if_pos (by omega), ih (r - f.length) (by omega)]
    omega

theorem flatten_take_drop (fs : List (List Byte)) (m : Nat) :
    fs.flatten = (fs.take m).flatten ++ (fs.drop m).flatten := by
  rw [← List.flatten_append, List.take_append_drop]


theorem compact_region (env : exec_env) (c : conn_info) (u st : Nat) (S : List Byte)
    (hinuse : c.inb_inuse = (u : Int)) (hstart : c.inb_start = (st : Int)) (hu : u ≤ st)
    (hst : st ≤ env.SIZEINB) (hlen : c.inb.length = env.SIZEINB)
    (hreg : (c.inb.drop (st - u)).take u = S.take u) (hbound : u < env.SIZEINB) :
    ∃ st1 : Nat, (compact env c).inb_start = (st1 : Int) ∧ (compact env c).inb_inuse = (u : Int) ∧
      u ≤ st1 ∧ st1 < env.SIZEINB ∧ (compact env c).inb.length = env.SIZEINB ∧
      ((compact env c).inb.drop (st1 - u)).take u = S.take u ∧
      (compact env c).state = c.state ∧ (compact env c).service = c.service ∧
      (compact env c).authenticated = c.authenticated := by
  unfold compact
  by_cases h0 : c.inb_inuse = 0
  · rw [if_pos h0]
    have hu0 : u = 0 := by rw [hinuse] at h0; exact_mod_cast h0
    subst hu0
    exact ⟨0, rfl, hinuse, le_refl _, hbound, hlen, by simp, rfl, rfl, rfl⟩
  · rw [if_neg h0]
    by_cases h1 : c.inb_start ≥ (env.SIZEINB : Int)
    · rw [if_pos h1]
      have e1 : (c.inb_start - c.inb_inuse).toNat = st - u := by rw [hinuse, hstart]; omega
      have e2 : c.inb_inuse.toNat = u := by rw [hinuse]; omega
      refine ⟨u, ?_, hinuse, le_refl _, hbound, ?_, ?_, rfl, rfl, rfl⟩
      · exact hinuse
      · dsimp only
        rw [e1, e2]
        simp only [List.length_append, List.length_take, List.length_drop]
        rw [hstart] at h1
        omega
      · dsimp only
        rw [e1, e2, Nat.sub_self, List.drop_zero]
        have hl : ((c.inb.drop (st - u)).take u).length = u := by
          simp only [List.length_take, List.length_drop]
          rw [hstart] at h1
          omega
        rw [List.take_append_of_le_length (by omega), List.take_of_length_le (by omega)]
        exact hreg
    · rw [if_neg h1]
      rw [hstart] at h1
      exact ⟨st, hstart, hinuse, hu, by omega, hlen, hreg, rfl, rfl, rfl⟩

theorem dispatches_append (a b : List event) :
    dispatches (a ++ b) = dispatches a ++ dispatches b := by
  unfold dispatches
  exact List.filter_append _ _

theorem dispatches_map (env : exec_env) (sh : service_handler) (svc : Nat) (a : Bool)
    (fs : List (List Byte)) :
    (dispatches (fs.map (dispatch_event env sh svc a))).map erase_auth
      = fs.map (dispatch_event env sh svc false) := by
  have h1 : dispatches (fs.map (dispatch_event env sh svc a))
      = fs.map (dispatch_event env sh svc a) := by
    unfold dispatches
    rw [List.filter_eq_self]
    intro e he
    simp only [List.mem_map] at he
    obtain ⟨f, _, rfl⟩ := he
    exact (dispatch_event_is_dispatch env sh svc a f).1
  rw [h1, List.map_map]
  apply List.map_congr_left
  intro f _
  exact (dispatch_event_is_dispatch env sh svc a f).2.1

theorem dispatches_quiet (l : List event)
    (h : ∀ e ∈ l, is_dispatch e = false) : dispatches l = [] := by
  unfold dispatches
  rw [List.filter_eq_nil_iff]
  intro e he
  rw [h e he]
  simp

theorem incomplete_bound (env : exec_env) (sh : service_handler) (fs : List (List Byte))
    (u : Nat) (hwf : ∀ f ∈ fs, well_formed_frame env sh f) (hpos : 0 < env.SIZEINB)
    (hu : u ≤ fs.flatten.length) (hcp : complete_count fs u = 0) : u < env.SIZEINB := by
  cases fs with
  | nil => simp at hu; omega
  | cons g rest =>
    have hg := hwf g (List.mem_cons_self _ _)
    obtain ⟨_, _, hmax, _⟩ := hg
    simp only [complete_count] at hcp
    by_cases h : g.length ≤ u
    · rw [if_pos h] at hcp; omega
    · omega

theorem authenticate_some (env : exec_env) (c : conn_info) (cred : Option ucred)
    (h : c.authenticated = true ∨ cred ≠ none) :
    ∃ A, authenticate env c cred = some A ∧
      A.1.service = c.service ∧ A.1.inb = c.inb ∧ A.1.inb_start = c.inb_start ∧
      A.1.inb_inuse = c.inb_inuse ∧ A.1.state = c.state ∧
      (c.authenticated = true → A.1.authenticated = true) ∧
      (∀ e ∈ A.2, e = event.security_log) := by
  have hex : ∃ A, authenticate env c cred = some A := by
    cases hc : c.authenticated with
    | true => exact ⟨_, authenticate_of_auth env c cred hc⟩
    | false =>
      rcases h with h | h
      · rw [hc] at h; cases h
      · cases cred with
        | none => exact absurd rfl h
        | some cr =>
          obtain ⟨A, hA, _⟩ := authenticate_policy env c cr hc
          exact ⟨A, hA⟩
  obtain ⟨A, hA⟩ := hex
  obtain ⟨h1, h2⟩ := authenticate_cases env c cred A hA
  refine ⟨A, hA, ?_, ?_, ?_, ?_, ?_, ?_, h2⟩
  · rcases h1 with h1 | h1 <;> rw [h1]
  · rcases h1 with h1 | h1 <;> rw [h1]
  · rcases h1 with h1 | h1 <;> rw [h1]
  · rcases h1 with h1 | h1 <;> rw [h1]
  · rcases h1 with h1 | h1 <;> rw [h1]
  · intro hc
    rcases h1 with h1 | h1 <;> rw [h1]
    exact hc

/-- One read event on an ACTIVE connection in the middle of a stream of well-formed frames:
`recvmsg` takes `k >= 1` bytes, every frame completed by them is dispatched, in order, and
the receive side is again as `framing_inv` describes. -/
theorem poll_handler_frames (env : exec_env) (sh : service_handler) (svc : Nat) (fuel : Nat)
    (hsvc : svc ≠ 0)
    (hsh : lookup env.ais_service_handlers ((svc : Int) - 1) = some sh)
    (hmax : env.SIZEINB < 2147483648) (hfuel : env.SIZEINB ≤ fuel)
    (fs : List (List Byte)) (c : conn_info) (u st : Nat) (ev : read_event)
    (hwf : ∀ f ∈ fs, well_formed_frame env sh f)
    (hinv : framing_inv env svc c fs u st) (hstate : c.state = conn_state.CONN_STATE_ACTIVE)
    (hmore : u < fs.flatten.length) (hpin : ev.revent.pollin = true) (hn : 1 ≤ ev.avail)
    (hcred : c.authenticated = true ∨ ev.cred ≠ none) :
    ∃ (k st1 : Nat) (res : Int) (logs : List event) (a1 : Bool),
      k = min (min ev.avail (env.SIZEINB - st)) (fs.flatten.length - u) ∧ 1 ≤ k ∧
      (poll_handler_libais_deliver env fuel ev.revent
        (recv_result.data ((fs.flatten.drop u).take ev.avail) ev.cred) c).status
          = status.returned res ∧
      res ≠ -1 ∧ (∀ e ∈ logs, e = event.security_log) ∧
      (poll_handler_libais_deliver env fuel ev.revent
        (recv_result.data ((fs.flatten.drop u).take ev.avail) ev.cred) c).trace
        = event.recvmsg (env.SIZEINB - st) (!c.authenticated) ::
            (logs ++ (fs.take (complete_count fs (u + k))).map
              (dispatch_event env sh svc a1)) ∧
      framing_inv env svc
        (poll_handler_libais_deliver env fuel ev.revent
          (recv_result.data ((fs.flatten.drop u).take ev.avail) ev.cred) c).conn
        (fs.drop (complete_count fs (u + k)))
        (u + k - (fs.take (complete_count fs (u + k))).flatten.length) st1 ∧
      (c.authenticated = true →
        (poll_handler_libais_deliver env fuel ev.revent
          (recv_result.data ((fs.flatten.drop u).take ev.avail) ev.cred) c).conn.authenticated
          = true) ∧
      ((∀ f ∈ fs, stays_active env sh f) →
        (poll_handler_libais_deliver env fuel ev.revent
          (recv_result.data ((fs.flatten.drop u).take ev.avail) ev.cred) c).conn.state
          = conn_state.CONN_STATE_ACTIVE) := by
  obtain ⟨hservice, hlen, hinuse, hstart, hust, hstlt, hreg, hule, hcp⟩ := hinv
  have hbytes_ne : (fs.flatten.drop u).take ev.avail ≠ [] := by
    intro h
    have := congrArg List.length h
    simp only [List.length_take, List.length_drop, List.length_nil] at this
    omega
  obtain ⟨c1, K, hrs, hst1, hK, heq⟩ := poll_handler_data env fuel ev.revent
    ((fs.flatten.drop u).take ev.avail) ev.cred c hpin hstate (by rw [hstart]; omega)
    (by rw [hstart]; omega) (by rw [hstart, hlen]; omega) hmax hbytes_ne
  have hKn : K = env.SIZEINB - st := by rw [hstart] at hK; omega
  have hstn : c.inb_start.toNat = st := by rw [hstart]; omega
  rw [hstn] at hrs
  -- the bytes received
  generalize hB : ((fs.flatten.drop u).take ev.avail).take K = B at hrs heq
  have hBlen : B.length = min (min ev.avail (env.SIZEINB - st)) (fs.flatten.length - u) := by
    rw [← hB]
    simp only [List.length_take, List.length_drop]
    omega
  have hBS : B = (fs.flatten.drop u).take B.length := by
    rw [hBlen, ← hB, List.take_take, List.take_eq_take]
    simp only [List.length_drop]
    omega
  have hk1 : 1 ≤ B.length := by rw [hBlen]; omega
  have hkK : st + B.length ≤ env.SIZEINB := by rw [hBlen]; omega
  have hkS : u + B.length ≤ fs.flatten.length := by rw [hBlen]; omega
  -- fields of the connection after the receive
  have f_auth : c1.authenticated = c.authenticated := congrArg (fun p => p.1) hrs
  have f_svc : c1.service = svc := (congrArg (fun p => p.2.1) hrs).trans hservice
  have f_inb : c1.inb = write_at c.inb st B := congrArg (fun p => p.2.2.1) hrs
  have f_start : c1.inb_start = (st : Int) := (congrArg (fun p => p.2.2.2.1) hrs).trans hstart
  have f_inuse : c1.inb_inuse = (u : Int) := (congrArg (fun p => p.2.2.2.2.1) hrs).trans hinuse
  have hwl : (write_at c.inb st B).length = env.SIZEINB := by
    rw [write_at_length _ _ _ (by rw [hlen]; exact hkK)]; exact hlen
  obtain ⟨A, hA, a_svc, a_inb, a_start, a_inuse, a_state, a_auth, a_logs⟩ :=
    authenticate_some env c1 ev.cred (by rw [f_auth]; exact hcred)
  have hone : ∀ f ∈ fs, 1 ≤ f.length := by
    intro f hf
    have := (hwf f hf).2.1
    unfold sizeof_req_header at this
    omega
  have hloop := deliver_loop_frames env sh svc hsvc hsh hmax fs fuel (B.length : Int)
    { A.1 with inb_inuse := A.1.inb_inuse + (B.length : Int), inb_start := A.1.inb_start + (B.length : Int) }
    (u + B.length) (st + B.length) hwf (a_svc.trans f_svc)
    (by show A.1.inb_inuse + (B.length : Int) = _; rw [a_inuse, f_inuse]; push_cast; rfl)
    (by show A.1.inb_start + (B.length : Int) = _; rw [a_start, f_start]; push_cast; rfl)
    (by omega)
    (by show st + B.length ≤ A.1.inb.length; rw [a_inb, f_inb, hwl]; exact hkK)
    hkK
    (by
      show (A.1.inb.drop (st + B.length - (u + B.length))).take (u + B.length) = _
      have e : st + B.length - (u + B.length) = st - u := by omega
      rw [e, a_inb, f_inb]
      exact write_region c.inb st u B fs.flatten hust (by rw [hlen]; exact hkK) hreg hBS hule)
    hkS (by omega)
    (by
      have := complete_count_le fs (u + B.length) hone
      omega)
  obtain ⟨⟨r, l1, hr⟩, l2, l3, l4⟩ := hloop
  refine ⟨B.length, ?_⟩
  rw [heq]
  unfold deliver_received
  rw [hA]
  dsimp only
  generalize hL : deliver_loop env fuel (B.length : Int)
    { A.1 with inb_inuse := A.1.inb_inuse + (B.length : Int), inb_start := A.1.inb_start + (B.length : Int) } = L
    at l1 l2 l3 l4
  rw [l1]
  dsimp only
  -- fields after the loop
  have g_auth : L.conn.authenticated = A.1.authenticated := congrArg (fun p => p.1) l3
  have g_svc : L.conn.service = svc := congrArg (fun p => p.2.1) l3
  have g_inb : L.conn.inb = write_at c.inb st B :=
    (congrArg (fun p => p.2.2.1) l3).trans (a_inb.trans f_inb)
  have g_start : L.conn.inb_start = ((st + B.length : Nat) : Int) :=
    congrArg (fun p => p.2.2.2.1) l3
  have hbytes := complete_count_bytes fs (u + B.length)
  have g_inuse : L.conn.inb_inuse
      = ((u + B.length - (fs.take (complete_count fs (u + B.length))).flatten.length : Nat) : Int) := by
    have h5 : L.conn.inb_inuse = ((u + B.length : Nat) : Int)
        - ((fs.take (complete_count fs (u + B.length))).flatten.length : Int) :=
      congrArg (fun p => p.2.2.2.2.1) l3
    rw [h5]
    omega
  have hsplit := flatten_take_drop fs (complete_count fs (u + B.length))
  have hreg2 : (L.conn.inb.drop (st + B.length -
        (u + B.length - (fs.take (complete_count fs (u + B.length))).flatten.length))).take
        (u + B.length - (fs.take (complete_count fs (u + B.length))).flatten.length)
      = (fs.drop (complete_count fs (u + B.length))).flatten.take
        (u + B.length - (fs.take (complete_count fs (u + B.length))).flatten.length) := by
    have hw := write_region c.inb st u B fs.flatten hust (by rw [hlen]; exact hkK) hreg hBS hule
    rw [hsplit] at hw
    have := region_after_frame (write_at c.inb st B) (st - u) (u + B.length) _ _ hw
    have e : st + B.length - (u + B.length - (fs.take (complete_count fs (u + B.length))).flatten.length)
        = st - u + (fs.take (complete_count fs (u + B.length))).flatten.length := by omega
    rw [e, g_inb]
    exact this
  have hu3 : u + B.length - (fs.take (complete_count fs (u + B.length))).flatten.length
      ≤ (fs.drop (complete_count fs (u + B.length))).flatten.length := by
    have := congrArg List.length hsplit
    rw [List.length_append] at this
    omega
  have hcp3 := complete_count_rest fs (u + B.length)
  have hwf3 : ∀ f ∈ fs.drop (complete_count fs (u + B.length)), well_formed_frame env sh f :=
    fun f hf => hwf f (List.mem_of_mem_drop hf)
  have hb3 := incomplete_bound env sh _ _ hwf3 (by omega) hu3 hcp3
  obtain ⟨st1, q1, q2, q3, q4, q5, q6, q7, q8, q9⟩ := compact_region env L.conn _ (st + B.length)
    (fs.drop (complete_count fs (u + B.length))).flatten g_inuse g_start (by omega) hkK
    (by rw [g_inb]; exact hwl) hreg2 hb3
  refine ⟨st1, r, A.2, A.1.authenticated, hBlen, hk1, rfl, hr, a_logs, ?_, ?_, ?_, ?_⟩
  · rw [l2, hKn]
    rfl
  · exact ⟨q8.trans g_svc, q5, q2, q1, q3, q4, q6, hu3, hcp3⟩
  · intro hc
    rw [q9, g_auth]
    exact a_auth (f_auth.trans hc)
  · intro hall
    rw [q7, l4 hall]
    exact a_state.trans hst1

theorem libais_disconnect_dead (env : exec_env) (c : conn_info)
    (hs : c.state ≠ conn_state.CONN_STATE_ACTIVE) :
    (libais_disconnect env c).conn.state ≠ conn_state.CONN_STATE_ACTIVE := by
  unfold libais_disconnect
  split
  · exact hs
  · dsimp only
    split <;> split <;> simp_all

/-- Once a connection has left ACTIVE, read events receive nothing and dispatch nothing: each
of them goes to `libais_disconnect`. -/
theorem feed_dead (env : exec_env) (fuel : Nat) (evs : List read_event) :
    ∀ (c : conn_info) (s : List Byte), c.state ≠ conn_state.CONN_STATE_ACTIVE →
      (∀ ev ∈ evs, ev.revent.pollin = true) →
      (feed env fuel c s evs).2.1 = s ∧ dispatches (feed env fuel c s evs).2.2 = [] ∧
      (evs ≠ [] → s ≠ [] → event.disconnect ∈ (feed env fuel c s evs).2.2) := by
  induction evs with
  | nil =>
    intro c s _ _
    exact ⟨by simp [feed], by simp [feed, dispatches], fun h => absurd rfl h⟩
  | cons ev evs ih =>
    intro c s hs hev
    cases s with
    | nil => exact ⟨by simp [feed], by simp [feed, dispatches], fun _ h => absurd rfl h⟩
    | cons b s1 =>
      have hpin := hev ev (List.mem_cons_self _ _)
      have hev1 : ∀ e ∈ evs, e.revent.pollin = true :=
        fun e he => hev e (List.mem_cons_of_mem _ he)
      have hR := poll_handler_not_active env fuel ev.revent
        (recv_result.data ((b :: s1).take ev.avail) ev.cred) c hpin hs
      have hdead := libais_disconnect_dead env c hs
      have hq : ∀ e ∈ (libais_disconnect env c).trace, is_dispatch e = false := by
        intro e he
        rw [libais_disconnect_trace env c e he]
        rfl
      have hd0 : dispatches (event.disconnect :: (libais_disconnect env c).trace) = [] := by
        apply dispatches_quiet
        intro e he
        rcases List.mem_cons.1 he with rfl | he
        · rfl
        · exact hq e he
      simp only [feed]
      rw [hR]
      simp only [error_disconnect, List.nil_append, bytes_taken, List.drop_zero]
      cases hst : (libais_disconnect env c).status with
      | returned res =>
        dsimp only
        by_cases hres : res = -1
        · rw [if_pos hres]
          exact ⟨rfl, hd0, fun _ _ => List.mem_cons_self _ _⟩
        · rw [if_neg hres]
          obtain ⟨i1, i2, _⟩ := ih (libais_disconnect env c).conn (b :: s1) hdead hev1
          refine ⟨i1, ?_, fun _ _ => ?_⟩
          · rw [dispatches_append, hd0, i2]
            rfl
          · exact List.mem_append_left _ (List.mem_cons_self _ _)
      | fault f => exact ⟨rfl, hd0, fun _ _ => List.mem_cons_self _ _⟩
      | out_of_fuel => exact ⟨rfl, hd0, fun _ _ => List.mem_cons_self _ _⟩

theorem feed_length_le (env : exec_env) (fuel : Nat) (evs : List read_event) :
    ∀ (c : conn_info) (s : List Byte), (feed env fuel c s evs).2.1.length ≤ s.length := by
  induction evs with
  | nil => intro c s; simp [feed]
  | cons ev evs ih =>
    intro c s
    cases s with
    | nil => simp [feed]
    | cons b s1 =>
      simp only [feed]
      generalize poll_handler_libais_deliver env fuel ev.revent
        (recv_result.data ((b :: s1).take ev.avail) ev.cred) c = R
      have hd : ((b :: s1).drop (bytes_taken ev.avail R.trace)).length ≤ (b :: s1).length := by
        simp only [List.length_drop]
        omega
      cases R.status with
      | returned res =>
        dsimp only
        split
        · exact hd
        · exact le_trans (ih _ _) hd
      | fault f => exact hd
      | out_of_fuel => exact hd

theorem feed_frames (env : exec_env) (sh : service_handler) (svc : Nat) (fuel : Nat)
    (hsvc : svc ≠ 0)
    (hsh : lookup env.ais_service_handlers ((svc : Int) - 1) = some sh)
    (hmax : env.SIZEINB < 2147483648) (hfuel : env.SIZEINB ≤ fuel) :
    ∀ (evs : List read_event) (fs : List (List Byte)) (c : conn_info) (u st : Nat),
      (∀ f ∈ fs, well_formed_frame env sh f) → framing_inv env svc c fs u st →
      (∀ ev ∈ evs, ev.revent.pollin = true ∧ 1 ≤ ev.avail) →
      (c.authenticated = true ∨ ∀ ev ∈ evs, ev.cred ≠ none) →
      (dispatches (feed env fuel c (fs.flatten.drop u) evs).2.2).map erase_auth
        = (fs.take (complete_count fs
              (fs.flatten.length - (feed env fuel c (fs.flatten.drop u) evs).2.1.length))).map
            (dispatch_event env sh svc false) ∧
      (event.disconnect ∉ (feed env fuel c (fs.flatten.drop u) evs).2.2 →
        (feed env fuel c (fs.flatten.drop u) evs).2.1.length
          ≤ (fs.flatten.length - u) - evs.length) ∧
      ((∀ f ∈ fs, stays_active env sh f) → c.state = conn_state.CONN_STATE_ACTIVE →
        event.disconnect ∉ (feed env fuel c (fs.flatten.drop u) evs).2.2) := by
  intro evs
  induction evs with
  | nil =>
    intro fs c u st hwf hinv _ _
    obtain ⟨_, _, _, _, _, _, _, hule, hcp⟩ := hinv
    simp only [feed, List.length_drop, List.length_nil, Nat.sub_zero, le_refl, and_true,
      implies_true, List.not_mem_nil, not_false_eq_true]
    have e : fs.flatten.length - (fs.flatten.length - u) = u := by omega
    rw [e, hcp]
    rfl
  | cons ev evs ih =>
    intro fs c u st hwf hinv hav hcred
    have hn := hav ev (List.mem_cons_self _ _)
    have hav1 : ∀ m ∈ evs, m.revent.pollin = true ∧ 1 ≤ m.avail :=
      fun m hm => hav m (List.mem_cons_of_mem _ hm)
    cases hS : fs.flatten.drop u with
    | nil =>
      obtain ⟨_, _, _, _, _, _, _, hule, hcp⟩ := hinv
      have hlen := congrArg List.length hS
      simp only [List.length_drop, List.length_nil] at hlen
      simp only [feed, List.length_nil, Nat.sub_zero, Nat.zero_le, and_true, implies_true,
        List.not_mem_nil, not_false_eq_true]
      have e : fs.flatten.length = u := by omega
      rw [e, hcp]
      rfl
    | cons b s1 =>
      have hmore : u < fs.flatten.length := by
        have hlen := congrArg List.length hS
        simp only [List.length_drop, List.length_cons] at hlen
        omega
      by_cases hstate : c.state = conn_state.CONN_STATE_ACTIVE
      · obtain ⟨k, st1, res, logs, a1, hk, hk1, hstat, hres, hlogs, htrace, hinv1, hauth1,
            hact1⟩ :=
          poll_handler_frames env sh svc fuel hsvc hsh hmax hfuel fs c u st ev hwf hinv hstate
            hmore hn.1 hn.2
            (by
              rcases hcred with h | h
              · exact Or.inl h
              · exact Or.inr (h ev (List.mem_cons_self _ _)))
        obtain ⟨_, _, _, hstart, _, hstlt, _, hule, _⟩ := hinv
        rw [hS] at hstat htrace hinv1 hauth1 hact1
        have hcred1 : (poll_handler_libais_deliver env fuel ev.revent
            (recv_result.data ((b :: s1).take ev.avail) ev.cred) c).conn.authenticated = true ∨
            ∀ e ∈ evs, e.cred ≠ none := by
          rcases hcred with h | h
          · exact Or.inl (hauth1 h)
          · exact Or.inr (fun e he => h e (List.mem_cons_of_mem _ he))
        have hwf1 : ∀ f ∈ fs.drop (complete_count fs (u + k)), well_formed_frame env sh f :=
          fun f hf => hwf f (List.mem_of_mem_drop hf)
        have hsplit := flatten_take_drop fs (complete_count fs (u + k))
        have hsl := congrArg List.length hsplit
        rw [List.length_append] at hsl
        have hbytes := complete_count_bytes fs (u + k)
        have hstream : (b :: s1).drop (min ev.avail (env.SIZEINB - st))
            = (fs.drop (complete_count fs (u + k))).flatten.drop
                (u + k - (fs.take (complete_count fs (u + k))).flatten.length) := by
          have e1 : (fs.drop (complete_count fs (u + k))).flatten
              = fs.flatten.drop (fs.take (complete_count fs (u + k))).flatten.length := by
            rw [hsplit, List.drop_left]
          rw [← hS, e1, List.drop_drop, List.drop_drop]
          have e2 : (fs.take (complete_count fs (u + k))).flatten.length
              + (u + k - (fs.take (complete_count fs (u + k))).flatten.length) = u + k := by
            omega
          rw [e2]
          by_cases hc : min ev.avail (env.SIZEINB - st) ≤ fs.flatten.length - u
          · have : k = min ev.avail (env.SIZEINB - st) := by omega
            rw [this]
          · rw [List.drop_eq_nil_of_le (by omega), List.drop_eq_nil_of_le (by omega)]
        have hih := ih (fs.drop (complete_count fs (u + k)))
          (poll_handler_libais_deliver env fuel ev.revent
            (recv_result.data ((b :: s1).take ev.avail) ev.cred) c).conn
          (u + k - (fs.take (complete_count fs (u + k))).flatten.length) st1 hwf1 hinv1 hav1
          hcred1
        rw [← hstream] at hih
        obtain ⟨i1, i2, i3⟩ := hih
        have htaken : bytes_taken ev.avail (poll_handler_libais_deliver env fuel ev.revent
            (recv_result.data ((b :: s1).take ev.avail) ev.cred) c).trace
            = min ev.avail (env.SIZEINB - st) := by
          rw [htrace]
          rfl
        have hdR : (dispatches (poll_handler_libais_deliver env fuel ev.revent
            (recv_result.data ((b :: s1).take ev.avail) ev.cred) c).trace).map erase_auth
            = (fs.take (complete_count fs (u + k))).map (dispatch_event env sh svc false) := by
          rw [htrace]
          have e0 : dispatches (event.recvmsg (env.SIZEINB - st) (!c.authenticated) ::
              (logs ++ (fs.take (complete_count fs (u + k))).map
                (dispatch_event env sh svc a1)))
              = dispatches ([event.recvmsg (env.SIZEINB - st) (!c.authenticated)] ++ logs)
                ++ dispatches ((fs.take (complete_count fs (u + k))).map
                  (dispatch_event env sh svc a1)) := by
            rw [← dispatches_append]
            simp
          have e1 : dispatches ([event.recvmsg (env.SIZEINB - st) (!c.authenticated)] ++ logs)
              = [] := by
            apply dispatches_quiet
            intro e he
            rcases List.mem_append.1 he with he | he
            · rw [List.mem_singleton.1 he]; rfl
            · rw [hlogs e he]; rfl
          rw [e0, e1, List.nil_append, dispatches_map]
        have hndR : event.disconnect ∉ (poll_handler_libais_deliver env fuel ev.revent
            (recv_result.data ((b :: s1).take ev.avail) ev.cred) c).trace := by
          rw [htrace]
          intro hm
          rcases List.mem_cons.1 hm with h | h
          · cases h
          · rcases List.mem_append.1 h with h | h
            · cases hlogs _ h
            · simp only [List.mem_map] at h
              obtain ⟨f, _, hf⟩ := h
              exact (dispatch_event_is_dispatch env sh svc a1 f).2.2 hf
        simp only [feed]
        rw [hstat, htaken]
        dsimp only
        rw [if_neg hres]
        dsimp only
        generalize hTdef : feed env fuel
          (poll_handler_libais_deliver env fuel ev.revent
            (recv_result.data ((b :: s1).take ev.avail) ev.cred) c).conn
          ((b :: s1).drop (min ev.avail (env.SIZEINB - st))) evs = T at i1 i2 i3 ⊢
        refine ⟨?_, ?_, ?_⟩
        · rw [dispatches_append, List.map_append, hdR, i1, ← List.map_append]
          congr 1
          have hx : fs.flatten.length - T.2.1.length
              = (fs.take (complete_count fs (u + k))).flatten.length
                + ((fs.drop (complete_count fs (u + k))).flatten.length - T.2.1.length) := by
            have hT := feed_length_le env fuel evs
              (poll_handler_libais_deliver env fuel ev.revent
                (recv_result.data ((b :: s1).take ev.avail) ev.cred) c).conn
              ((b :: s1).drop (min ev.avail (env.SIZEINB - st)))
            rw [hTdef, hstream, List.length_drop] at hT
            omega
          rw [hx, complete_count_add fs _ _ (complete_count_le_length fs _), List.take_add]
        · intro hnd
          have hnd2 : event.disconnect ∉ T.2.2 :=
            fun h => hnd (List.mem_append_right _ h)
          have := i2 hnd2
          simp only [List.length_cons]
          omega
        · intro hall _ hm
          rcases List.mem_append.1 hm with h | h
          · exact hndR h
          · exact i3 (fun f hf => hall f (List.mem_of_mem_drop hf)) (hact1 hall) h
      · obtain ⟨_, _, _, _, _, _, _, hule, hcp⟩ := hinv
        obtain ⟨d1, d2, d3⟩ := feed_dead env fuel (ev :: evs) c (b :: s1) hstate
          (fun e he => (hav e he).1)
        have hlen := congrArg List.length hS
        simp only [List.length_drop, List.length_cons] at hlen
        refine ⟨?_, fun hnd => absurd (d3 (by simp) (by simp)) hnd,
          fun _ ha => absurd ha hstate⟩
        rw [d1, d2]
        have e : fs.flatten.length - (b :: s1).length = u := by
          simp only [List.length_cons]
          omega
        rw [e, hcp]
        rfl

/-- A single read event that takes a whole stream of well-formed frames on an ACTIVE
connection with an empty receive buffer dispatches every frame. -/
theorem feed_one_event (env : exec_env) (sh : service_handler) (svc : Nat) (fuel : Nat)
    (hsvc : svc ≠ 0)
    (hsh : lookup env.ais_service_handlers ((svc : Int) - 1) = some sh)
    (hmax : env.SIZEINB < 2147483648) (hfuel : env.SIZEINB ≤ fuel)
    (fs : List (List Byte)) (c : conn_info) (ev : read_event)
    (hwf : ∀ f ∈ fs, well_formed_frame env sh f) (hinv : framing_inv env svc c fs 0 0)
    (hstate : c.state = conn_state.CONN_STATE_ACTIVE) (hne : 0 < fs.flatten.length)
    (hpin : ev.revent.pollin = true)
    (hcred : c.authenticated = true ∨ ev.cred ≠ none)
    (hall : fs.flatten.length ≤ min ev.avail env.SIZEINB) :
    (feed env fuel c fs.flatten [ev]).2.1 = [] ∧
    ∃ a1, dispatches (feed env fuel c fs.flatten [ev]).2.2
      = fs.map (dispatch_event env sh svc a1) := by
  obtain ⟨k, st1, res, logs, a1, hk, hk1, hstat, hres, hlogs, htrace, _, _, _⟩ :=
    poll_handler_frames env sh svc fuel hsvc hsh hmax hfuel fs c 0 0 ev hwf hinv hstate
      hne hpin (by omega) hcred
  rw [List.drop_zero] at hstat htrace
  have hkt : k = fs.flatten.length := by omega
  have hcc : complete_count fs (0 + k) = fs.length :=
    complete_count_all fs _ (by omega)
  rw [hcc, List.take_length] at htrace
  cases hS : fs.flatten with
  | nil => rw [hS] at hne; simp at hne
  | cons b s1 =>
    rw [hS] at hstat htrace
    have hlen : (b :: s1).length = fs.flatten.length := by rw [hS]
    have htaken : bytes_taken ev.avail (poll_handler_libais_deliver env fuel ev.revent
        (recv_result.data ((b :: s1).take ev.avail) ev.cred) c).trace
        = min ev.avail (env.SIZEINB - 0) := by
      rw [htrace]
      rfl
    simp only [feed]
    rw [hstat, htaken]
    dsimp only
    rw [if_neg hres]
    dsimp only
    refine ⟨List.drop_eq_nil_of_le (by rw [hlen]; omega), a1, ?_⟩
    rw [List.append_nil, htrace]
    have e0 : dispatches (event.recvmsg (env.SIZEINB - 0) (!c.authenticated) ::
        (logs ++ fs.map (dispatch_event env sh svc a1)))
        = dispatches ([event.recvmsg (env.SIZEINB - 0) (!c.authenticated)] ++ logs)
          ++ dispatches (fs.map (dispatch_event env sh svc a1)) := by
      rw [← dispatches_append]
      simp
    have e1 : dispatches ([event.recvmsg (env.SIZEINB - 0) (!c.authenticated)] ++ logs)
        = [] := by
      apply dispatches_quiet
      intro e he
      rcases List.mem_append.1 he with he | he
      · rw [List.mem_singleton.1 he]; rfl
      · rw [hlogs e he]; rfl
    rw [e0, e1, List.nil_append]
    unfold dispatches
    rw [List.filter_eq_self]
    intro e he
    simp only [List.mem_map] at he
    obtain ⟨f, _, rfl⟩ := he
    exact (dispatch_event_is_dispatch env sh svc a1 f).1

/-- C7 (as amended): what is dispatched depends on the bytes `recvmsg` has taken, not on how
they were cut into receives.  On a connection bound to a service, with an empty receive
buffer of `SIZEINB` bytes, let a stream of well-formed frames (each
`sizeof (header) <= size <= SIZEINB`, opcode in the table, handler returning 0 and leaving
the receive side alone) arrive over any sequence of read events that each find at least one
byte waiting (with credentials attached as long as the connection is not authenticated).
Then the dispatches made (the handler call, or the overload reply for a request held back by
flow control) are, in stream order and once each, those of exactly the frames that lie
completely within the bytes received so far, each with its complete `size` bytes.  A read
event that finds the connection no longer ACTIVE receives nothing and calls
`libais_disconnect`; as long as that has not happened, as many events as the stream has
bytes dispatch every frame; and it does not happen when the connection is ACTIVE at first, no
request is held back by flow control and no handler writes `state`. -/
theorem framing_independent_of_chunking (env : exec_env) (sh : service_handler) (svc : Nat)
    (fuel : Nat) (frames : List (List Byte)) (evs : List read_event) (c : conn_info)
    (hsvc : svc ≠ 0) (hsh : lookup env.ais_service_handlers ((svc : Int) - 1) = some sh)
    (hpos : 0 < env.SIZEINB) (hmax : env.SIZEINB < 2147483648) (hfuel : env.SIZEINB ≤ fuel)
    (hwf : ∀ f ∈ frames, well_formed_frame env sh f)
    (hev : ∀ ev ∈ evs, ev.revent.pollin = true ∧ 1 ≤ ev.avail)
    (hcred : c.authenticated = true ∨ ∀ ev ∈ evs, ev.cred ≠ none)
    (hservice : c.service = svc)
    (hlen : c.inb.length = env.SIZEINB) (hinuse : c.inb_inuse = 0) (hstart : c.inb_start = 0) :
    (dispatches (feed env fuel c frames.flatten evs).2.2).map erase_auth
      = (frames.take (complete_count frames
            (frames.flatten.length - (feed env fuel c frames.flatten evs).2.1.length))).map
          (dispatch_event env sh svc false) ∧
    (event.disconnect ∉ (feed env fuel c frames.flatten evs).2.2 →
      frames.flatten.length ≤ evs.length →
      (feed env fuel c frames.flatten evs).2.1 = [] ∧
      (dispatches (feed env fuel c frames.flatten evs).2.2).map erase_auth
        = frames.map (dispatch_event env sh svc false)) ∧
    ((∀ f ∈ frames, stays_active env sh f) → c.state = conn_state.CONN_STATE_ACTIVE →
      event.disconnect ∉ (feed env fuel c frames.flatten evs).2.2) := by
  have hone : ∀ f ∈ frames, 1 ≤ f.length := by
    intro f hf
    have := (hwf f hf).2.1
    unfold sizeof_req_header at this
    omega
  have hcp0 : complete_count frames 0 = 0 := by
    have := complete_count_le frames 0 hone
    omega
  have hinv : framing_inv env svc c frames 0 0 :=
    ⟨hservice, hlen, by rw [hinuse]; rfl, by rw [hstart]; rfl, le_refl _, hpos,
      by simp, Nat.zero_le _, hcp0⟩
  have h := feed_frames env sh svc fuel hsvc hsh hmax hfuel evs frames c 0 0
    hwf hinv hev hcred
  rw [List.drop_zero] at h
  obtain ⟨h1, h2, h3⟩ := h
  refine ⟨h1, ?_, h3⟩
  intro hnd hlong
  have hnil : (feed env fuel c frames.flatten evs).2.1 = [] := by
    apply List.eq_nil_of_length_eq_zero
    have := h2 hnd
    omega
  refine ⟨hnil, ?_⟩
  rw [h1, hnil, List.length_nil, Nat.sub_zero, complete_count_all frames _ (le_refl _),
    List.take_length]

theorem ex_frame_well_formed :
    ∀ f ∈ [ex_frame 24 3], well_formed_frame (ex_env ex_service_any false) ex_service_any f := by
  intro f hf
  simp only [List.mem_singleton] at hf
  subst hf
  refine ⟨by decide, by decide, by decide, by decide, ⟨ex_handler_fn, 12, 79,
    flow_control.FLOW_CONTROL_NOT_REQUIRED⟩, rfl, fun _ => ?_⟩
  intro c hdr frame
  exact ⟨rfl, rfl⟩

theorem ex_gated_well_formed :
    ∀ f ∈ [ex_gated, ex_gated],
      well_formed_frame (ex_env ex_service_any true) ex_service_any f := by
  intro f hf
  have hf2 : f = ex_gated := by
    simp only [List.mem_cons, List.mem_singleton, List.not_mem_nil, or_false, or_self] at hf
    exact hf
  subst hf2
  refine ⟨by decide, by decide, by decide, by decide, ⟨ex_handler_fn, 12, 77,
    flow_control.FLOW_CONTROL_REQUIRED⟩, rfl, fun h => ?_⟩
  exact absurd h (by decide)

/-- C7 (as amended) at a concrete input: a 24-byte frame for opcode 3 received as 12 + 12
bytes triggers no dispatch after the first read and exactly one handler call, with the whole
frame, after the second. -/
theorem framing_independent_of_chunking_witness :
    (∀ f ∈ [ex_frame 24 3], well_formed_frame (ex_env ex_service_any false) ex_service_any f) ∧
    (dispatches (feed (ex_env ex_service_any false) 32
        { ex_conn [] [] with service := 1, authenticated := true }
        [ex_frame 24 3].flatten [⟨12, ex_pollin, none⟩]).2.2).map erase_auth = [] ∧
    (dispatches (feed (ex_env ex_service_any false) 32
        { ex_conn [] [] with service := 1, authenticated := true }
        [ex_frame 24 3].flatten [⟨12, ex_pollin, none⟩, ⟨12, ex_pollin, none⟩]).2.2).map
          erase_auth
      = [event.handler_fn 1 3 (ex_frame 24 3) false] :=
  ⟨ex_frame_well_formed,
   (framing_independent_of_chunking (ex_env ex_service_any false) ex_service_any 1 32
      [ex_frame 24 3] [⟨12, ex_pollin, none⟩]
      { ex_conn [] [] with service := 1, authenticated := true }
      (by decide) rfl (by decide) (by decide) (by decide) ex_frame_well_formed (by decide)
      (Or.inl rfl) rfl rfl rfl rfl).1.trans (by decide),
   (framing_independent_of_chunking (ex_env ex_service_any false) ex_service_any 1 32
      [ex_frame 24 3] [⟨12, ex_pollin, none⟩, ⟨12, ex_pollin, none⟩]
      { ex_conn [] [] with service := 1, authenticated := true }
      (by decide) rfl (by decide) (by decide) (by decide) ex_frame_well_formed (by decide)
      (Or.inl rfl) rfl rfl rfl rfl).1.trans (by decide)⟩

/-- C7 (counterexample): two well-formed 8-byte frames for a flow-controlled opcode during
synchronisation, on an ACTIVE bound connection whose `outq` of one slot is full.  Received in
one piece, both frames are dispatched (two overload replies, the first of which overflows
`outq` and marks the connection `DISCONNECTING_DELAYED`).  Received as 8 + 8 bytes, only the
first is: the second read event finds the connection no longer ACTIVE, receives nothing and
disconnects, and the second frame is never dispatched. -/
theorem chunking_changes_dispatch :
    (∀ f ∈ [ex_gated, ex_gated],
      well_formed_frame (ex_env ex_service_any true) ex_service_any f) ∧
    ex_one_slot_full.state = conn_state.CONN_STATE_ACTIVE ∧
    dispatches (feed (ex_env ex_service_any true) 32 ex_one_slot_full
        [ex_gated, ex_gated].flatten [⟨16, ex_pollin, none⟩]).2.2 = [ex_reply, ex_reply] ∧
    dispatches (feed (ex_env ex_service_any true) 32 ex_one_slot_full
        [ex_gated, ex_gated].flatten [⟨8, ex_pollin, none⟩, ⟨8, ex_pollin, none⟩]).2.2
      = [ex_reply] ∧
    (feed (ex_env ex_service_any true) 32 ex_one_slot_full
        [ex_gated, ex_gated].flatten [⟨8, ex_pollin, none⟩, ⟨8, ex_pollin, none⟩]).2.1
      = ex_gated ∧
    calls (feed (ex_env ex_service_any true) 32 ex_one_slot_full
        [ex_gated, ex_gated].flatten [⟨8, ex_pollin, none⟩, ⟨8, ex_pollin, none⟩]).2.2
      = [ex_reply, event.disconnect] := by
  refine ⟨ex_gated_well_formed, by decide, ?_, by decide, by decide, by decide⟩
  obtain ⟨_, a1, h⟩ := feed_one_event (ex_env ex_service_any true) ex_service_any 1 32
    (by decide) rfl (by decide) (by decide) [ex_gated, ex_gated] ex_one_slot_full
    ⟨16, ex_pollin, none⟩ ex_gated_well_formed
    ⟨rfl, by decide, rfl, rfl, le_refl _, by decide, by decide, by decide, by decide⟩
    (by decide) (by decide) rfl (Or.inl rfl) (by decide)
  rw [h]
  cases a1 <;> decide

/-! ## The wire dispatch path -/

theorem swab32_lt (n : Nat) : swab32 n < 4294967296 := le32_lt _

theorem swab32_bytes (b0 b1 b2 b3 : Nat) (h0 : b0 < 256) (h1 : b1 < 256) (h2 : b2 < 256)
    (h3 : b3 < 256) :
    swab32 (b0 + 256 * b1 + 65536 * b2 + 16777216 * b3)
      = b3 + 256 * b2 + 65536 * b1 + 16777216 * b0 := by
  have e0 : (b0 + 256 * b1 + 65536 * b2 + 16777216 * b3) % 256 = b0 := by omega
  have e1 : (b0 + 256 * b1 + 65536 * b2 + 16777216 * b3) / 256 % 256 = b1 := by omega
  have e2 : (b0 + 256 * b1 + 65536 * b2 + 16777216 * b3) / 65536 % 256 = b2 := by omega
  have e3 : (b0 + 256 * b1 + 65536 * b2 + 16777216 * b3) / 16777216 % 256 = b3 := by omega
  unfold swab32 le32 enc32
  simp only [List.reverse_cons, List.reverse_nil, List.nil_append, List.cons_append,
    List.getD_cons_zero, List.getD_cons_succ, Fin.ofNat, Fin.val_mk, Nat.reduceAdd,
    Nat.mod_mod, e0, e1, e2, e3]
  omega

theorem swab32_swab32 (n : Nat) (h : n < 4294967296) : swab32 (swab32 n) = n := by
  have hn : n = n % 256 + 256 * (n / 256 % 256) + 65536 * (n / 65536 % 256)
      + 16777216 * (n / 16777216 % 256) := by omega
  rw [hn, swab32_bytes _ _ _ _ (by omega) (by omega) (by omega) (by omega)]
  have := swab32_bytes (n / 16777216 % 256) (n / 65536 % 256) (n / 256 % 256) (n % 256)
    (by omega) (by omega) (by omega) (by omega)
  rw [this]

theorem swab_header_fields (w : List Byte) :
    le32 (swab_header w) = swab32 (le32 w) ∧
    le32 ((swab_header w).drop 4) = swab32 (le32 (w.drop 4)) ∧
    (swab_header w).drop 8 = w.drop 8 := by
  unfold swab_header
  refine ⟨?_, ?_, ?_⟩
  · rw [List.append_assoc, le32_enc32, Nat.mod_eq_of_lt (swab32_lt _)]
  · rw [List.append_assoc, List.drop_left' (enc32_length _), le32_enc32,
      Nat.mod_eq_of_lt (swab32_lt _)]
  · rw [List.drop_left' (by simp [enc32_length])]


theorem le32_append (w t : List Byte) (h : 4 ≤ w.length) : le32 (w ++ t) = le32 w := by
  apply le32_congr
  rw [List.take_append_of_le_length h]

theorem swab_header_append (w t : List Byte) (h : 8 ≤ w.length) :
    swab_header (w ++ t) = swab_header w ++ t := by
  unfold swab_header
  rw [le32_append w t (by omega), List.drop_append_of_le_length (by omega),
    le32_append (w.drop 4) t (by simp only [List.length_drop]; omega),
    List.drop_append_of_le_length h, List.append_assoc, List.append_assoc, List.append_assoc]

theorem swab_header_length (w : List Byte) (h : 8 ≤ w.length) :
    (swab_header w).length = w.length := by
  unfold swab_header
  simp only [List.length_append, enc32_length, List.length_drop]
  omega

theorem assemble_some (M : Nat) (segs : List (List Byte)) :
    ∀ p q : Nat, assemble M p segs = some q → q = p + segs.flatten.length := by
  induction segs with
  | nil => intro p q h; simp [assemble] at h; simp [h]
  | cons s rest ih =>
    intro p q h
    simp only [assemble] at h
    split at h
    · have := ih _ _ h
      rw [List.flatten_cons, List.length_append]
      omega
    · cases h

theorem deliver_header_ok (cnt src first_len : Nat) (w t : List Byte) (endian : Bool)
    (h8 : 8 ≤ w.length)
    (hsize : first_len = if endian then swab32 (le32 w) else le32 w)
    (hid : (if endian then swab32 (le32 (w.drop 4)) else le32 (w.drop 4)) < cnt) :
    deliver_header cnt src first_len (w ++ t) endian
      = deliver_outcome.invoked (if endian then swab32 (le32 (w.drop 4)) else le32 (w.drop 4))
          ((if endian then swab_header w else w) ++ t) src endian := by
  unfold deliver_header
  have hl : ¬ (w ++ t).length < sizeof_req_header := by
    simp only [List.length_append, sizeof_req_header]; omega
  rw [if_neg hl]
  cases endian with
  | false =>
    simp only [Bool.false_eq_true, if_false] at hsize hid ⊢
    rw [le32_append w t (by omega), List.drop_append_of_le_length (by omega),
      le32_append (w.drop 4) t (by simp only [List.length_drop]; omega)]
    rw [if_neg (by omega), if_pos hid]
  | true =>
    simp only [if_true] at hsize hid ⊢
    obtain ⟨f1, f2, _⟩ := swab_header_fields w
    have hsl := swab_header_length w h8
    rw [swab_header_append w t h8, le32_append _ t (by omega),
      List.drop_append_of_le_length (by omega),
      le32_append _ t (by simp only [List.length_drop]; omega), f1, f2]
    rw [if_neg (by omega), if_pos hid]

/-- C16: `deliver_fn` applies the endian flag exactly once to the header.  For a wire
message (the segments in order) of at least `sizeof (struct req_header)` bytes on which
neither assertion fails and whose opcode is in the handler table: with
`endian_conversion_required` set, the entry `swab32 (id)` of the table is called and the
message it is handed has `size = swab32 (wire size)`, `id = swab32 (wire id)` and the body
bytes of the wire message (so swapping its header fields once more gives the wire header
back); with the flag clear the entry `id` is called on the unchanged message.  The flag and
the source address are passed through. -/
theorem deliver_fn_endian_once (MESSAGE_SIZE_MAX cnt : Nat) (delivery_data : List Byte)
    (src : Nat) (seg : List Byte) (rest : List (List Byte)) (endian : Bool)
    (h8 : sizeof_req_header ≤ (seg :: rest).flatten.length)
    (hpos : rest ≠ [] → assemble MESSAGE_SIZE_MAX 0 (seg :: rest) ≠ none)
    (hsize : seg.length = if endian then swab32 (le32 (seg :: rest).flatten)
      else le32 (seg :: rest).flatten)
    (hid : (if endian then swab32 (le32 ((seg :: rest).flatten.drop 4))
      else le32 ((seg :: rest).flatten.drop 4)) < cnt) :
    ∃ seen : List Byte,
      deliver_fn MESSAGE_SIZE_MAX cnt delivery_data src (seg :: rest) endian
        = deliver_outcome.invoked
            (if endian then swab32 (le32 ((seg :: rest).flatten.drop 4))
              else le32 ((seg :: rest).flatten.drop 4)) seen src endian ∧
      seen.drop 8 = (seg :: rest).flatten.drop 8 ∧
      (endian = true →
        le32 seen = swab32 (le32 (seg :: rest).flatten) ∧
        le32 (seen.drop 4) = swab32 (le32 ((seg :: rest).flatten.drop 4)) ∧
        swab32 (le32 seen) = le32 (seg :: rest).flatten ∧
        swab32 (le32 (seen.drop 4)) = le32 ((seg :: rest).flatten.drop 4)) ∧
      (endian = false → seen = (seg :: rest).flatten) := by
  unfold sizeof_req_header at h8
  generalize hw : (seg :: rest).flatten = w at h8 hsize hid
  obtain ⟨f1, f2, f3⟩ := swab_header_fields w
  refine ⟨if endian then swab_header w else w, ?_, ?_, ?_, ?_⟩
  · cases rest with
    | nil =>
      have hseg : seg = w := by rw [← hw]; simp
      subst hseg
      have := deliver_header_ok cnt src seg.length seg [] endian h8 hsize hid
      simp only [List.append_nil] at this
      simp only [deliver_fn]
      exact this
    | cons r rs =>
      have hsome := hpos (by simp)
      cases ha : assemble MESSAGE_SIZE_MAX 0 (seg :: r :: rs) with
      | none => exact absurd ha hsome
      | some pos =>
        have hp := assemble_some _ _ _ _ ha
        rw [hw] at hp
        simp only [Nat.zero_add] at hp
        simp only [deliver_fn, ha]
        rw [hw, deliver_header_ok cnt src seg.length w _ endian h8 hsize hid]
        simp only []
        congr 1
        rw [List.take_append_of_le_length (by
          cases endian
          · simp only [Bool.false_eq_true, if_false]; omega
          · simp only [if_true]; rw [swab_header_length w h8]; omega)]
        apply List.take_of_length_le
        cases endian
        · simp only [Bool.false_eq_true, if_false]; omega
        · simp only [if_true]; rw [swab_header_length w h8]; omega
  · cases endian
    · rfl
    · simp only [if_true]; exact f3
  · intro he
    subst he
    simp only [if_true]
    refine ⟨f1, f2, ?_, ?_⟩
    · rw [f1, swab32_swab32 _ (le32_lt _)]
    · rw [f2, swab32_swab32 _ (le32_lt _)]
  · intro he
    subst he
    rfl

/-- C16 at the concrete input of the endian-flip scenario: the flipped wire bytes
`size = 00 00 00 20`, `id = 00 00 00 02` dispatch to index 2 with size 32 and the 24 body
bytes untouched. -/
theorem deliver_fn_endian_once_witness :
    sizeof_req_header ≤ [ex_wire].flatten.length ∧
    ex_wire.length = swab32 (le32 [ex_wire].flatten) ∧
    ∃ seen : List Byte,
      deliver_fn 1000000 6 [] 9 [ex_wire] true = deliver_outcome.invoked 2 seen 9 true ∧
      seen.drop 8 = ex_wire.drop 8 ∧ le32 seen = 32 ∧ le32 (seen.drop 4) = 2 := by
  obtain ⟨seen, h1, h2, h3, _⟩ := deliver_fn_endian_once 1000000 6 [] 9 ex_wire [] true
    (by decide) (fun h => absurd rfl h) (by decide) (by decide)
  obtain ⟨h4, h5, _, _⟩ := h3 rfl
  exact ⟨by decide, by decide, seen, h1, h2, h4, h5⟩

/-- C17 (evaluation at the failing input): a 12-byte message for opcode 1 handed over as two
segments, the 8-byte header and 4 body bytes (total length 12, equal to the header's size
field and far below `MESSAGE_SIZE_MAX`), passes `assert (pos < MESSAGE_SIZE_MAX)` and then
fails `assert(iovec->iov_len == header->size)`, which compares the length of the first
segment, 8, with 12: no handler is called.  The same message in one segment is dispatched. -/
theorem multi_segment_assert_fails :
    assemble 1000000 0 [(ex_frame 12 1).take 8, (ex_frame 12 1).drop 8] = some 12 ∧
    le32 ([(ex_frame 12 1).take 8, (ex_frame 12 1).drop 8].flatten) = 12 ∧
    deliver_fn 1000000 6 (List.replicate 64 0) 9
        [(ex_frame 12 1).take 8, (ex_frame 12 1).drop 8] false
      = deliver_outcome.fault wire_fault.assert_size ∧
    deliver_fn 1000000 6 (List.replicate 64 0) 9 [ex_frame 12 1] false
      = deliver_outcome.invoked 1 (ex_frame 12 1) 9 false := by
  decide


/-! ## The deliver loop: oversized frames, table indices, zero-size frames -/

/-- C11 (evaluation at the failing input): with `SIZEINB` 32, an unprivileged peer sends the
first 32 bytes of a frame whose header declares size 64.  The first read event stores them, finds
the frame incomplete, compacts and returns with the connection still ACTIVE and
`inb_start = inb_inuse = SIZEINB`; the next read event reaches the receive step with
`iov_len = 0`, where `assert (iov_recv.iov_len != 0)` fails. -/
theorem oversized_frame_fails_assert :
    (poll_handler_libais_deliver ex_env0 8 ex_pollin
        (recv_result.data (ex_frame 64 0) (some ex_cred)) (ex_conn [] [])).status
      = status.returned 32 ∧
    (poll_handler_libais_deliver ex_env0 8 ex_pollin
        (recv_result.data (ex_frame 64 0) (some ex_cred)) (ex_conn [] [])).conn.state
      = conn_state.CONN_STATE_ACTIVE ∧
    (poll_handler_libais_deliver ex_env0 8 ex_pollin
        (recv_result.data (ex_frame 64 0) (some ex_cred)) (ex_conn [] [])).conn.inb_start = 32 ∧
    (poll_handler_libais_deliver ex_env0 8 ex_pollin
        (recv_result.data (ex_frame 64 0) (some ex_cred)) (ex_conn [] [])).conn.inb_inuse = 32 ∧
    (poll_handler_libais_deliver ex_env0 8 ex_pollin
        (recv_result.data (ex_frame 64 0) (some ex_cred)) (ex_conn [] [])).trace
      = [event.recvmsg 32 true, event.security_log] ∧
    (poll_handler_libais_deliver ex_env0 8 ex_pollin
        (recv_result.data ((ex_frame 64 0).drop 32) (some ex_cred))
        (poll_handler_libais_deliver ex_env0 8 ex_pollin
          (recv_result.data (ex_frame 64 0) (some ex_cred)) (ex_conn [] [])).conn).status
      = status.fault fault.assert_iov_len := by
  decide

/-- C19 (evaluation at the failing inputs): (1) on a fresh connection a first frame with
`header.id = 7` (sent by an unprivileged peer) indexes `ais_service_handlers[7]`, with no bounds check before it; (2) on a
connection bound to a service with `libais_handlers_count = 4` a frame with `header.id = 4`
passes the test `header->id > libais_handlers_count` and indexes `libais_handlers[4]`;
(3) on a fresh connection whose peer closes before sending a frame (`recvmsg` returns 0),
`libais_disconnect` indexes `ais_service_handlers[service - 1]` with `service - 1 = -1`. -/
theorem table_index_out_of_bounds :
    (poll_handler_libais_deliver (ex_env ex_service_any false) 8 ex_pollin
        (recv_result.data (ex_frame 8 7) (some ex_cred)) (ex_conn [] [])).status
      = status.fault fault.table_index ∧
    ex_service_any.libais_handlers.length = 4 ∧ ex_service_any.libais_handlers_count = 4 ∧
    (poll_handler_libais_deliver (ex_env ex_service_any false) 8 ex_pollin
        (recv_result.data (ex_frame 8 4) none) ex_bound).status
      = status.fault fault.table_index ∧
    (poll_handler_libais_deliver (ex_env ex_service_any false) 8 ex_pollin
        (recv_result.data [] none) (ex_conn [] [])).status
      = status.fault fault.table_index ∧
    (poll_handler_libais_deliver (ex_env ex_service_any false) 8 ex_pollin
        (recv_result.data [] none) (ex_conn [] [])).trace
      = [event.recvmsg 32 true, event.disconnect] ∧
    lookup (ex_env ex_service_any false).ais_service_handlers
        (((ex_conn [] []).service : Int) - 1) = none := by
  refine ⟨by decide, by decide, by decide, by decide, by decide, by decide, rfl⟩

theorem zero_loop (fuel : Nat) :
    ∀ res : Int, res ≠ -1 →
      deliver_loop (ex_env ex_service_any false) fuel res ex_zero_conn
        = ⟨loop_exit.out_of_fuel, ex_zero_conn,
            List.replicate fuel (event.handler_fn 1 0 [] true)⟩ := by
  induction fuel with
  | zero =>
    intro res hres
    unfold deliver_loop
    rw [if_pos ⟨by decide, hres⟩]
    rfl
  | succ k ih =>
    intro res hres
    have hih := ih 0 (by decide)
    unfold deliver_loop
    rw [if_pos ⟨by decide, hres⟩]
    have hstep : ∀ x : loop_result,
        deliver_loop (ex_env ex_service_any false) k 0 ex_zero_conn = x →
        (let off := ex_zero_conn.inb_start - ex_zero_conn.inb_inuse;
          if off < 0 ∨ (ex_zero_conn.inb.length : Int) < off + (sizeof_req_header : Int) then
            (⟨loop_exit.fault fault.inb_index, ex_zero_conn, []⟩ : loop_result)
          else
            let hdr := req_header_at ex_zero_conn.inb off.toNat;
            if (hdr.size : Int) > to_u32 ex_zero_conn.inb_inuse then
              ⟨loop_exit.done res, ex_zero_conn, []⟩
            else
              let s := dispatch_frame (ex_env ex_service_any false) res ex_zero_conn hdr
                ((ex_zero_conn.inb.drop off.toNat).take hdr.size);
              match s.exit with
              | step_exit.fault f => ⟨loop_exit.fault f, s.conn, s.trace⟩
              | step_exit.error_disconnect => ⟨loop_exit.error_disconnect, s.conn, s.trace⟩
              | step_exit.next res1 =>
                let size1 := (req_header_at s.conn.inb off.toNat).size;
                let c1 := { s.conn with inb_inuse := to_int32 (s.conn.inb_inuse - size1) };
                let r := deliver_loop (ex_env ex_service_any false) k res1 c1;
                ⟨r.exit, r.conn, s.trace ++ r.trace⟩)
          = ⟨x.exit, x.conn, event.handler_fn 1 0 [] true :: x.trace⟩ := by
      intro x hx
      subst hx
      rfl
    exact (hstep _ hih).trans rfl

/-- C18 (evaluation at the failing input): a connection bound to service 1 receives the 8
bytes of a frame whose header declares size 0 and opcode 0 (a handler that returns 0).  The
frame loop dispatches that same frame again and again, `inb_inuse` staying at 8: however many
passes the loop is allowed, it has not ended after them and has called the handler in each
of them. -/
theorem zero_size_frame_loops (fuel : Nat) :
    (poll_handler_libais_deliver (ex_env ex_service_any false) fuel ex_pollin
        (recv_result.data (ex_frame 0 0) none) ex_bound).status = status.out_of_fuel ∧
    (poll_handler_libais_deliver (ex_env ex_service_any false) fuel ex_pollin
        (recv_result.data (ex_frame 0 0) none) ex_bound).trace
      = event.recvmsg 32 false :: List.replicate fuel (event.handler_fn 1 0 [] true) ∧
    (poll_handler_libais_deliver (ex_env ex_service_any false) fuel ex_pollin
        (recv_result.data (ex_frame 0 0) none) ex_bound).conn.inb_inuse = 8 := by
  have h : poll_handler_libais_deliver (ex_env ex_service_any false) fuel ex_pollin
      (recv_result.data (ex_frame 0 0) none) ex_bound
      = (match (deliver_loop (ex_env ex_service_any false) fuel 8 ex_zero_conn).exit with
        | loop_exit.fault f => ⟨status.fault f,
            (deliver_loop (ex_env ex_service_any false) fuel 8 ex_zero_conn).conn,
            [event.recvmsg 32 false] ++ [] ++
              (deliver_loop (ex_env ex_service_any false) fuel 8 ex_zero_conn).trace⟩
        | loop_exit.out_of_fuel => ⟨status.out_of_fuel,
            (deliver_loop (ex_env ex_service_any false) fuel 8 ex_zero_conn).conn,
            [event.recvmsg 32 false] ++ [] ++
              (deliver_loop (ex_env ex_service_any false) fuel 8 ex_zero_conn).trace⟩
        | loop_exit.error_disconnect => error_disconnect (ex_env ex_service_any false)
            (deliver_loop (ex_env ex_service_any false) fuel 8 ex_zero_conn).conn
            ([event.recvmsg 32 false] ++ [] ++
              (deliver_loop (ex_env ex_service_any false) fuel 8 ex_zero_conn).trace)
        | loop_exit.done res1 => ⟨status.returned res1,
            compact (ex_env ex_service_any false)
              (deliver_loop (ex_env ex_service_any false) fuel 8 ex_zero_conn).conn,
            [event.recvmsg 32 false] ++ [] ++
              (deliver_loop (ex_env ex_service_any false) fuel 8 ex_zero_conn).trace⟩) := rfl
  rw [h, zero_loop fuel 8 (by decide)]
  exact ⟨rfl, rfl, rfl⟩


/-! ## The outbound sender: the place of the overflow test -/

/-- The drain loop in front of a socket that accepts whatever it is offered: every record is
written out, one `sendmsg` each. -/
theorem outq_drain_accepting (N : Nat) (items : List outq_item) :
    ∀ (c : conn_info) (rest : List send_result),
      byte_start_rel items c.byte_start → (∀ it ∈ items, it.mlen ≤ N) →
      c.sock = List.replicate items.length (send_result.sent N) ++ rest →
      (outq_drain c items).2.outq.items = [] ∧ (outq_drain c items).2.byte_start = 0 ∧
      (outq_drain c items).2.sock = rest := by
  induction items with
  | nil =>
    intro c rest hrel _ hsock
    refine ⟨rfl, hrel, ?_⟩
    simpa using hsock
  | cons item r ih =>
    intro c rest hrel hN hsock
    have hitem : item.mlen ≤ N := hN item (List.mem_cons_self _ _)
    have hbs : c.byte_start ≤ item.mlen := by
      have : c.byte_start < item.mlen ∨ (item.mlen = 0 ∧ c.byte_start = 0) := hrel
      omega
    have hs : sendmsg c.sock (item.mlen - c.byte_start)
        = (send_outcome.sent (item.mlen - c.byte_start),
            List.replicate r.length (send_result.sent N) ++ rest) := by
      rw [hsock]
      simp only [List.length_cons, List.replicate_succ, List.cons_append, sendmsg]
      rw [Nat.min_eq_right (by omega)]
      rfl
    unfold outq_drain
    rw [hs]
    dsimp only
    rw [if_neg (by omega)]
    apply ih
    · show byte_start_rel r 0
      cases r with
      | nil => rfl
      | cons h t =>
        show 0 < h.mlen ∨ (h.mlen = 0 ∧ 0 = 0)
        omega
    · exact fun it hit => hN it (List.mem_cons_of_mem _ hit)
    · rfl

/-- The sender in front of a socket that accepts whatever it is offered. -/
theorem libais_send_response_accepting (N : Nat) (c : conn_info) (msg : List Byte)
    (mlen : Nat) (rest : List send_result)
    (ha : c.state = conn_state.CONN_STATE_ACTIVE) (hf : queue_is_full c.outq = false)
    (hrel : byte_start_rel c.outq.items c.byte_start)
    (hN : ∀ it ∈ c.outq.items, it.mlen ≤ N) (hm : mlen ≤ N)
    (hsock : c.sock = List.replicate (c.outq.items.length + 1) (send_result.sent N) ++ rest) :
    (libais_send_response c msg mlen).1 = 0 ∧
    (libais_send_response c msg mlen).2.outq.items = [] ∧
    (libais_send_response c msg mlen).2.byte_start = 0 ∧
    (libais_send_response c msg mlen).2.sock = rest := by
  have hna : ¬ (!libais_connection_active c) = true := by
    simp [libais_connection_active, ha]
  have hsock2 : c.sock = List.replicate c.outq.items.length (send_result.sent N)
      ++ (send_result.sent N :: rest) := by
    rw [hsock, List.replicate_succ', List.append_assoc]
    rfl
  obtain ⟨d1, d2, d3⟩ := outq_drain_accepting N c.outq.items c _ hrel hN hsock2
  have he : queue_is_empty (outq_drain c c.outq.items).2.outq = true := by
    simp [queue_is_empty, d1]
  have hs : send_requested (outq_drain c c.outq.items).2 msg mlen
      = ((mlen : Int), poll_dispatch_modify
          { (outq_drain c c.outq.items).2 with
              sock := rest
              wire := (outq_drain c c.outq.items).2.wire ++ (msg.take mlen).take mlen
              byte_start := 0 } POLLIN_POLLNVAL) := by
    unfold send_requested
    rw [if_pos he, d3]
    simp only [sendmsg]
    rw [Nat.min_eq_right hm, d2]
    simp
  unfold libais_send_response
  rw [if_neg hna, if_neg (by rw [hf]; simp)]
  dsimp only
  rw [hs]
  dsimp only
  rw [if_neg (by omega)]
  exact ⟨rfl, d1, rfl, rfl⟩

/-- The sender in front of a socket that accepts nothing. -/
theorem libais_send_response_blocked (c : conn_info) (msg : List Byte) (mlen : Nat)
    (ha : c.state = conn_state.CONN_STATE_ACTIVE) (hf : queue_is_full c.outq = false)
    (hsock : c.sock = [] ∨ c.sock.head? = some send_result.eagain)
    (hheap : c.heap.head? ≠ some false) :
    (libais_send_response c msg mlen).1 = 0 ∧
    (libais_send_response c msg mlen).2.outq.items
      = c.outq.items ++ [outq_item.mk (msg.take mlen) mlen] ∧
    (libais_send_response c msg mlen).2.wire = c.wire ∧
    (libais_send_response c msg mlen).2.poll = POLLOUT_POLLIN_POLLNVAL := by
  have hna : ¬ (!libais_connection_active c) = true := by
    simp [libais_connection_active, ha]
  have hs : ∀ n, ∃ s, sendmsg c.sock n = (send_outcome.eagain, s) := by
    intro n
    rcases hsock with h | h
    · rw [h]; exact ⟨[], rfl⟩
    · cases hc : c.sock with
      | nil => exact ⟨[], rfl⟩
      | cons r t =>
        rw [hc] at h
        simp only [List.head?_cons, Option.some.injEq] at h
        subst h
        exact ⟨t, rfl⟩
  have hd : ∃ s, outq_drain c c.outq.items
        = ((if c.outq.items = [] then drain_exit.emptied else drain_exit.would_block),
            { c with sock := s }) ∧ (c.outq.items = [] → s = c.sock) := by
    cases hi : c.outq.items with
    | nil =>
      refine ⟨c.sock, ?_, fun _ => rfl⟩
      unfold outq_drain
      simp only [if_true]
      cases c with
      | mk fd state inb inb_start inb_inuse outq =>
        cases outq
        simp only at hi
        subst hi
        rfl
    | cons item r =>
      obtain ⟨s, hs1⟩ := hs (item.mlen - c.byte_start)
      refine ⟨s, ?_, fun h => absurd h (List.cons_ne_nil _ _)⟩
      unfold outq_drain
      rw [hs1]
      simp only [if_neg (List.cons_ne_nil _ _)]
      cases c with
      | mk fd state inb inb_start inb_inuse outq =>
        cases outq
        simp only at hi
        subst hi
        rfl
  obtain ⟨s, hd1, hd0⟩ := hd
  have hr : ∃ d, send_requested (outq_drain c c.outq.items).2 msg mlen = (-1, d) ∧
      d.outq = c.outq ∧ d.wire = c.wire ∧ d.heap = c.heap := by
    rw [hd1]
    dsimp only
    unfold send_requested
    by_cases he : queue_is_empty c.outq = true
    · rw [if_pos he]
      obtain ⟨s2, hs2⟩ := hs mlen
      have hnil : c.outq.items = [] := by simpa [queue_is_empty] using he
      rw [hd0 hnil, hs2]
      exact ⟨_, rfl, rfl, rfl, rfl⟩
    · rw [if_neg he]
      exact ⟨_, rfl, rfl, rfl, rfl⟩
  obtain ⟨d, hd2, q1, q2, q3⟩ := hr
  have hmal : ∃ c3, malloc d = (true, c3) ∧ c3.outq = d.outq ∧ c3.wire = d.wire := by
    unfold malloc
    cases hh : d.heap with
    | nil => exact ⟨d, rfl, rfl, rfl⟩
    | cons b t =>
      rw [q3] at hh
      rw [hh] at hheap
      cases b with
      | false => exact absurd rfl hheap
      | true => exact ⟨_, rfl, rfl, rfl⟩
  obtain ⟨c3, hm1, hm2, hm3⟩ := hmal
  unfold libais_send_response
  rw [if_neg hna, if_neg (by rw [hf]; simp)]
  dsimp only
  rw [hd2]
  dsimp only
  rw [if_pos rfl, hm1]
  dsimp only
  refine ⟨rfl, ?_, ?_, rfl⟩
  · show (queue_item_add c3.outq ⟨msg.take mlen, mlen⟩).items = _
    unfold queue_item_add
    rw [hm2, q1]
  · show c3.wire = _
    rw [hm3, q2]

/-- C12 (as amended): `libais_send_response` tests whether `outq` is full before it drains.
(1) On an active connection whose `outq` holds `SIZEQUEUE` records it returns -1 and marks
the connection `DISCONNECTING_DELAYED` without calling `sendmsg`, whatever the socket would
accept.  (2) On an active connection whose `outq` is not full at entry it drains, then sends
or enqueues the new message: it returns 0 and leaves the connection ACTIVE, the queue
afterwards being what is left of the old queue followed by the new message, with some records
(oldest first) or all of it gone to the socket, and (on a well-formed queue) the bytes handed
to the socket followed by the bytes still queued being the old ones followed by the new
message.  The only other return is -1 with the connection `DISCONNECTING_DELAYED` and the new
message not queued, taken when the copy of the message cannot be allocated.  The socket is
only ever given more bytes.  (3) In front of a socket that accepts whatever it is offered the
call makes one `sendmsg` per queued record and one for the new message, returns 0 and leaves
the queue empty and the offset zero: all the old bytes, then the new message, have gone to
the socket.  (4) In front of a socket that accepts nothing (`EAGAIN`), and with the copy
allocated, it returns 0 with the new message appended to the unchanged queue, nothing written
and `POLLOUT` requested. -/
theorem full_test_precedes_drain :
    (∀ (c : conn_info) (msg : List Byte) (mlen : Nat),
      c.state = conn_state.CONN_STATE_ACTIVE → queue_is_full c.outq = true →
      libais_send_response c msg mlen
        = (-1, { c with state := conn_state.CONN_STATE_DISCONNECTING_DELAYED })) ∧
    (∀ (c : conn_info) (msg : List Byte) (mlen : Nat),
      c.state = conn_state.CONN_STATE_ACTIVE → queue_is_full c.outq = false →
      (((libais_send_response c msg mlen).1 = 0 ∧
          (libais_send_response c msg mlen).2.state = conn_state.CONN_STATE_ACTIVE ∧
          (∃ n, (libais_send_response c msg mlen).2.outq.items
            = (c.outq.items ++ [outq_item.mk (msg.take mlen) mlen]).drop n) ∧
          (outq_wf c →
            (libais_send_response c msg mlen).2.wire
                ++ pending (libais_send_response c msg mlen).2
              = c.wire ++ pending c ++ msg.take mlen)) ∨
        ((libais_send_response c msg mlen).1 = -1 ∧
          (libais_send_response c msg mlen).2.state
            = conn_state.CONN_STATE_DISCONNECTING_DELAYED ∧
          (∃ n, (libais_send_response c msg mlen).2.outq.items = c.outq.items.drop n) ∧
          c.heap.head? = some false)) ∧
      (c.heap.head? ≠ some false → (libais_send_response c msg mlen).1 = 0) ∧
      (∃ w, (libais_send_response c msg mlen).2.wire = c.wire ++ w)) ∧
    (∀ (c : conn_info) (msg : List Byte) (mlen N : Nat) (rest : List send_result),
      c.state = conn_state.CONN_STATE_ACTIVE → queue_is_full c.outq = false →
      byte_start_rel c.outq.items c.byte_start →
      (∀ it ∈ c.outq.items, it.mlen ≤ N) → mlen ≤ N →
      c.sock = List.replicate (c.outq.items.length + 1) (send_result.sent N) ++ rest →
      (libais_send_response c msg mlen).1 = 0 ∧
      (libais_send_response c msg mlen).2.outq.items = [] ∧
      (libais_send_response c msg mlen).2.byte_start = 0 ∧
      (libais_send_response c msg mlen).2.sock = rest ∧
      (outq_wf c →
        (libais_send_response c msg mlen).2.wire = c.wire ++ pending c ++ msg.take mlen)) ∧
    (∀ (c : conn_info) (msg : List Byte) (mlen : Nat),
      c.state = conn_state.CONN_STATE_ACTIVE → queue_is_full c.outq = false →
      (c.sock = [] ∨ c.sock.head? = some send_result.eagain) →
      c.heap.head? ≠ some false →
      (libais_send_response c msg mlen).1 = 0 ∧
      (libais_send_response c msg mlen).2.outq.items
        = c.outq.items ++ [outq_item.mk (msg.take mlen) mlen] ∧
      (libais_send_response c msg mlen).2.wire = c.wire ∧
      (libais_send_response c msg mlen).2.poll = POLLOUT_POLLIN_POLLNVAL) := by
  refine ⟨?_, ?_, ?_, ?_⟩
  · intro c msg mlen ha hf
    simp [libais_send_response, libais_connection_active, ha, hf, libais_disconnect_delayed]
  · intro c msg mlen ha hf
    have hna : ¬ (!libais_connection_active c) = true := by
      simp [libais_connection_active, ha]
    have k1 := (drain_keeps c.outq.items c).1
    have kh := outq_drain_heap c.outq.items c
    obtain ⟨⟨n, hn, dq⟩, ⟨w1, dw⟩⟩ := outq_drain_shape c.outq.items c
    obtain ⟨s1, s2⟩ := send_requested_keeps (outq_drain c c.outq.items).2 msg mlen
    obtain ⟨sq, ⟨w2, sw⟩, snil⟩ := send_requested_shape (outq_drain c c.outq.items).2 msg mlen
    obtain ⟨m1, _, m3, m4⟩ :=
      malloc_fields (send_requested (outq_drain c c.outq.items).2 msg mlen).2
    have mr := malloc_result (send_requested (outq_drain c c.outq.items).2 msg mlen).2
    rw [s1, kh] at mr
    have key : (((libais_send_response c msg mlen).1 = 0 ∧
          (libais_send_response c msg mlen).2.state = conn_state.CONN_STATE_ACTIVE ∧
          (∃ n, (libais_send_response c msg mlen).2.outq.items
            = (c.outq.items ++ [outq_item.mk (msg.take mlen) mlen]).drop n)) ∨
        ((libais_send_response c msg mlen).1 = -1 ∧
          (libais_send_response c msg mlen).2.state
            = conn_state.CONN_STATE_DISCONNECTING_DELAYED ∧
          (∃ n, (libais_send_response c msg mlen).2.outq.items = c.outq.items.drop n) ∧
          c.heap.head? = some false)) ∧
        (∃ w, (libais_send_response c msg mlen).2.wire = c.wire ++ w) := by
      unfold libais_send_response
      rw [if_neg hna, if_neg (by rw [hf]; simp)]
      dsimp only
      split
      · rcases hm : malloc (send_requested (outq_drain c c.outq.items).2 msg mlen).2
          with ⟨b, c3⟩
        rw [hm] at mr m1 m3 m4
        dsimp only at mr m1 m3 m4
        cases b with
        | true =>
          dsimp only
          refine ⟨Or.inl ⟨rfl, m4.trans (s2.trans (k1.trans ha)), ⟨n, ?_⟩⟩, ⟨w1 ++ w2, ?_⟩⟩
          · show (queue_item_add c3.outq ⟨msg.take mlen, mlen⟩).items = _
            unfold queue_item_add
            dsimp only
            rw [m1, sq, dq, List.drop_append_of_le_length hn]
          · show c3.wire = _
            rw [m3, sw, dw, List.append_assoc]
        | false =>
          dsimp only
          refine ⟨Or.inr ⟨rfl, rfl, ⟨n, ?_⟩, mr.mp rfl⟩, ⟨w1 ++ w2, ?_⟩⟩
          · show c3.outq.items = _
            rw [m1, sq, dq]
          · show c3.wire = _
            rw [m3, sw, dw, List.append_assoc]
      · rename_i hres
        refine ⟨Or.inl ⟨rfl, s2.trans (k1.trans ha), ⟨c.outq.items.length + 1, ?_⟩⟩,
          ⟨w1 ++ w2, ?_⟩⟩
        · rw [sq, snil hres, List.drop_eq_nil_of_le (by simp)]
        · rw [sw, dw, List.append_assoc]
    obtain ⟨h1, h4⟩ := key
    refine ⟨?_, ?_, h4⟩
    · rcases h1 with ⟨a1, a2, a3⟩ | hb
      · exact Or.inl ⟨a1, a2, a3,
          fun hwf => (libais_send_response_stream c msg mlen hwf a1).1⟩
      · exact Or.inr hb
    · intro hheap
      rcases h1 with ⟨a1, _, _⟩ | ⟨_, _, _, b4⟩
      · exact a1
      · exact absurd b4 hheap
  · intro c msg mlen N rest ha hf hrel hN hm hsock
    obtain ⟨r1, r2, r3, r4⟩ :=
      libais_send_response_accepting N c msg mlen rest ha hf hrel hN hm hsock
    refine ⟨r1, r2, r3, r4, fun hwf => ?_⟩
    have hst := (libais_send_response_stream c msg mlen hwf r1).1
    unfold pending at hst
    rw [r2] at hst
    simpa [pending_of, pending] using hst
  · intro c msg mlen ha hf hsock hheap
    exact libais_send_response_blocked c msg mlen ha hf hsock hheap

/-- C12 (as amended) at concrete inputs: a full queue in front of a socket that would take
everything; a queue holding one record in front of a socket that takes it and then the new
message; and the same queue in front of a socket that takes nothing. -/
theorem full_test_precedes_drain_witness :
    libais_send_response { ex_full with sock := [send_result.sent 100] } (ex_msg 3) 3
      = (-1, { { ex_full with sock := [send_result.sent 100] } with
                 state := conn_state.CONN_STATE_DISCONNECTING_DELAYED }) ∧
    ((libais_send_response (ex_queued [send_result.sent 100, send_result.sent 100])
        (ex_msg 3) 3).1 = 0 ∧
      (libais_send_response (ex_queued [send_result.sent 100, send_result.sent 100])
        (ex_msg 3) 3).2.outq.items = [] ∧
      (libais_send_response (ex_queued [send_result.sent 100, send_result.sent 100])
        (ex_msg 3) 3).2.byte_start = 0 ∧
      (libais_send_response (ex_queued [send_result.sent 100, send_result.sent 100])
        (ex_msg 3) 3).2.sock = [] ∧
      (libais_send_response (ex_queued [send_result.sent 100, send_result.sent 100])
        (ex_msg 3) 3).2.wire = ex_msg 4 ++ ex_msg 3) ∧
    ((libais_send_response (ex_queued []) (ex_msg 3) 3).1 = 0 ∧
      (libais_send_response (ex_queued []) (ex_msg 3) 3).2.outq.items
        = [⟨ex_msg 4, 4⟩, ⟨ex_msg 3, 3⟩] ∧
      (libais_send_response (ex_queued []) (ex_msg 3) 3).2.wire = [] ∧
      (libais_send_response (ex_queued []) (ex_msg 3) 3).2.poll = POLLOUT_POLLIN_POLLNVAL) ∧
    (libais_send_response (ex_queued [send_result.sent 2]) (ex_msg 3) 3).1 = 0 :=
  ⟨full_test_precedes_drain.1 { ex_full with sock := [send_result.sent 100] } (ex_msg 3) 3
      (by decide) (by decide),
   ⟨(full_test_precedes_drain.2.2.1 (ex_queued [send_result.sent 100, send_result.sent 100])
      (ex_msg 3) 3 100 [] (by decide) (by decide) (by decide) (by decide) (by decide)
      (by decide)).1,
    (full_test_precedes_drain.2.2.1 (ex_queued [send_result.sent 100, send_result.sent 100])
      (ex_msg 3) 3 100 [] (by decide) (by decide) (by decide) (by decide) (by decide)
      (by decide)).2.1,
    (full_test_precedes_drain.2.2.1 (ex_queued [send_result.sent 100, send_result.sent 100])
      (ex_msg 3) 3 100 [] (by decide) (by decide) (by decide) (by decide) (by decide)
      (by decide)).2.2.1,
    (full_test_precedes_drain.2.2.1 (ex_queued [send_result.sent 100, send_result.sent 100])
      (ex_msg 3) 3 100 [] (by decide) (by decide) (by decide) (by decide) (by decide)
      (by decide)).2.2.2.1,
    by decide⟩,
   full_test_precedes_drain.2.2.2 (ex_queued []) (ex_msg 3) 3 (by decide) (by decide)
      (by decide) (by decide),
   (full_test_precedes_drain.2.1 (ex_queued [send_result.sent 2]) (ex_msg 3) 3 (by decide)
      (by decide)).2.1 (by decide)⟩

/-- C12 (counterexample): an active connection whose `outq` of one slot holds one 4-byte
record, on a socket that would accept the whole head record.  `libais_send_response`
returns -1 and marks the connection `DISCONNECTING_DELAYED`; nothing has been written, the
record is still queued and the socket has not been asked. -/
theorem full_queue_rejected_without_drain :
    ex_full.state = conn_state.CONN_STATE_ACTIVE ∧
    ex_full.outq.items = [⟨ex_msg 4, 4⟩] ∧ ex_full.outq.size = 1 ∧
    (libais_send_response { ex_full with sock := [send_result.sent 100] } (ex_msg 3) 3).1
      = -1 ∧
    (libais_send_response { ex_full with sock := [send_result.sent 100] } (ex_msg 3) 3).2.state
      = conn_state.CONN_STATE_DISCONNECTING_DELAYED ∧
    (libais_send_response { ex_full with sock := [send_result.sent 100] } (ex_msg 3) 3).2.wire
      = [] ∧
    (libais_send_response { ex_full with sock := [send_result.sent 100] }
        (ex_msg 3) 3).2.outq.items = [⟨ex_msg 4, 4⟩] ∧
    (libais_send_response { ex_full with sock := [send_result.sent 100] } (ex_msg 3) 3).2.sock
      = [send_result.sent 100] := by
  decide


/-! ## The disconnect path -/

theorem libais_disconnect_eq (env : exec_env) (c : conn_info) (sh : service_handler)
    (hsh : lookup env.ais_service_handlers ((c.service : Int) - 1) = some sh) :
    (libais_disconnect env c).status
      = status.returned (if (exit_call sh c).1 ≠ -1 then -1 else 0) ∧
    (libais_disconnect env c).conn
      = (let c1 := (exit_call sh c).2
         let c2 := if c1.state ≠ conn_state.CONN_STATE_DISCONNECTING then
            { c1 with state := conn_state.CONN_STATE_DISCONNECTING, closes := c1.closes + 1, outq := { c1.outq with items := [] }, outq_frees := c1.outq_frees + 1, inb_frees := c1.inb_frees + 1 }
          else c1
         if (exit_call sh c).1 ≠ -1 then { c2 with conn_frees := c2.conn_frees + 1 } else c2) := by
  unfold libais_disconnect exit_call
  rw [hsh]
  dsimp only
  cases he : sh.libais_exit_fn <;> exact ⟨rfl, rfl⟩

/-- C13 (as amended): for every connection bound to a service of the table and every result
`res` of the service's `libais_exit_fn` (0 when the pointer is null), `libais_disconnect`
leaves the state DISCONNECTING; it closes the socket, empties and frees `outq` and frees the
receive buffer, once each, exactly when the state was not DISCONNECTING before (so a call on
a connection that is already DISCONNECTING releases none of them again); it frees the
connection object exactly when `res != -1`; and it returns -1 when `res != -1` and 0 when
the exit handler returned the retry sentinel -1. -/
theorem libais_disconnect_effect (env : exec_env) (c : conn_info) (sh : service_handler)
    (hsh : lookup env.ais_service_handlers ((c.service : Int) - 1) = some sh) :
    (libais_disconnect env c).conn.state = conn_state.CONN_STATE_DISCONNECTING ∧
    ((exit_call sh c).2.state ≠ conn_state.CONN_STATE_DISCONNECTING →
      (libais_disconnect env c).conn.closes = (exit_call sh c).2.closes + 1 ∧
      (libais_disconnect env c).conn.outq.items = [] ∧
      (libais_disconnect env c).conn.outq_frees = (exit_call sh c).2.outq_frees + 1 ∧
      (libais_disconnect env c).conn.inb_frees = (exit_call sh c).2.inb_frees + 1) ∧
    ((exit_call sh c).2.state = conn_state.CONN_STATE_DISCONNECTING →
      (libais_disconnect env c).conn.closes = (exit_call sh c).2.closes ∧
      (libais_disconnect env c).conn.outq = (exit_call sh c).2.outq ∧
      (libais_disconnect env c).conn.outq_frees = (exit_call sh c).2.outq_frees ∧
      (libais_disconnect env c).conn.inb_frees = (exit_call sh c).2.inb_frees) ∧
    ((exit_call sh c).1 ≠ -1 →
      (libais_disconnect env c).conn.conn_frees = (exit_call sh c).2.conn_frees + 1 ∧
      (libais_disconnect env c).status = status.returned (-1)) ∧
    ((exit_call sh c).1 = -1 →
      (libais_disconnect env c).conn.conn_frees = (exit_call sh c).2.conn_frees ∧
      (libais_disconnect env c).status = status.returned 0) := by
  obtain ⟨h1, h2⟩ := libais_disconnect_eq env c sh hsh
  rw [h1, h2]
  dsimp only
  by_cases hs : (exit_call sh c).2.state = conn_state.CONN_STATE_DISCONNECTING <;>
    by_cases hr : (exit_call sh c).1 = -1 <;>
    simp [hs, hr]

/-- C13 (as amended) at concrete inputs: a first call, with an exit handler that asks for a
retry, and a second call on the connection the first one left. -/
theorem libais_disconnect_effect_witness :
    (libais_disconnect (ex_env ex_service_retry false) ex_bound).conn.closes = 1 ∧
    (libais_disconnect (ex_env ex_service_retry false) ex_bound).status = status.returned 0 ∧
    (libais_disconnect (ex_env ex_service_retry false)
      (libais_disconnect (ex_env ex_service_retry false) ex_bound).conn).conn.closes = 1 ∧
    (libais_disconnect (ex_env ex_service_any false) ex_bound).status
      = status.returned (-1) :=
  ⟨((libais_disconnect_effect (ex_env ex_service_retry false) ex_bound ex_service_retry
      rfl).2.1 (by decide)).1,
   ((libais_disconnect_effect (ex_env ex_service_retry false) ex_bound ex_service_retry
      rfl).2.2.2.2 rfl).2,
   ((libais_disconnect_effect (ex_env ex_service_retry false)
      (libais_disconnect (ex_env ex_service_retry false) ex_bound).conn ex_service_retry
      rfl).2.2.1 (by decide)).1,
   ((libais_disconnect_effect (ex_env ex_service_any false) ex_bound ex_service_any
      rfl).2.2.2.1 (by decide)).2⟩

/-- C13 (counterexample): with an exit handler that returns the retry sentinel -1,
`libais_disconnect` closes the socket and leaves the state DISCONNECTING but returns 0, not
-1, so the reactor keeps the descriptor. -/
theorem disconnect_retry_returns_zero :
    (libais_disconnect (ex_env ex_service_retry false) ex_bound).status = status.returned 0 ∧
    (libais_disconnect (ex_env ex_service_retry false) ex_bound).status
      ≠ status.returned (-1) ∧
    (libais_disconnect (ex_env ex_service_retry false) ex_bound).conn.state
      = conn_state.CONN_STATE_DISCONNECTING ∧
    (libais_disconnect (ex_env ex_service_retry false) ex_bound).conn.closes = 1 ∧
    (libais_disconnect (ex_env ex_service_retry false) ex_bound).conn.conn_frees = 0 := by
  decide


/-! ## The connection state machine -/

theorem seen_after_nil (b : Bool) : seen_after b [] = b := by
  simp [seen_after]

theorem seen_after_append (b : Bool) (t1 t2 : List event) :
    seen_after b (t1 ++ t2) = seen_after (seen_after b t1) t2 := by
  simp [seen_after, Bool.or_assoc]

theorem init_first_append (t1 t2 : List event) :
    ∀ b, init_first b (t1 ++ t2) = (init_first b t1 && init_first (seen_after b t1) t2) := by
  induction t1 with
  | nil => intro b; simp [init_first, seen_after]
  | cons e t ih =>
    intro b
    have hs : seen_after b (e :: t) = seen_after (b || is_init e) t := by
      simp [seen_after, Bool.or_assoc]
    show init_first b (e :: (t ++ t2)) = _
    rw [hs]
    by_cases hi : is_init e = true
    · have e1 : ∀ l, init_first b (e :: l) = (!b && init_first true l) := fun l => by
        simp [init_first, hi]
      rw [e1, e1, ih, hi, Bool.or_true]
      simp only [Bool.and_assoc]
    · have hi2 : is_init e = false := by simpa using hi
      by_cases hd : is_dispatch e = true
      · have e2 : ∀ l, init_first b (e :: l)
            = (b && !unbound_handler e && init_first b l) := fun l => by
          simp [init_first, hi2, hd]
        rw [e2, e2, ih, hi2, Bool.or_false]
        simp only [Bool.and_assoc]
      · have hd2 : is_dispatch e = false := by simpa using hd
        have e3 : ∀ l, init_first b (e :: l) = init_first b l := fun l => by
          simp [init_first, hi2, hd2]
        rw [e3, e3, ih, hi2, Bool.or_false]

/-- A trace that holds neither a `libais_init_fn` call nor an opcode dispatch. -/
theorem init_first_quiet (b : Bool) (t : List event)
    (hq : ∀ e ∈ t, is_init e = false ∧ is_dispatch e = false) :
    init_first b t = true ∧ seen_after b t = b := by
  induction t with
  | nil => simp [init_first, seen_after]
  | cons e t ih =>
    have he := hq e (List.mem_cons_self _ _)
    have iht := ih (fun x hx => hq x (List.mem_cons_of_mem _ hx))
    constructor
    · simp only [init_first, he.1, he.2]
      simpa using iht.1
    · have h2 := iht.2
      simp only [seen_after, List.any_cons, he.1, Bool.false_or] at h2 ⊢
      exact h2

theorem deliver_loop_stop (env : exec_env) (fuel : Nat) (c : conn_info) :
    deliver_loop env fuel (-1) c = ⟨loop_exit.done (-1), c, []⟩ := by
  unfold deliver_loop
  rw [if_neg]
  intro h
  exact h.2 rfl

theorem lookup_bound (env : exec_env) (c : conn_info) (sh : service_handler)
    (hsh : lookup env.ais_service_handlers ((c.service : Int) - 1) = some sh) :
    c.service ≠ 0 := by
  intro h0
  unfold lookup at hsh
  rw [h0] at hsh
  simp at hsh

theorem is_bound_true {c : conn_info} (h : c.service ≠ 0) : is_bound c = true := by
  simp [is_bound, h]

theorem is_bound_false {c : conn_info} (h : c.service = 0) : is_bound c = false := by
  simp [is_bound, h]

theorem is_bound_congr {c d : conn_info} (h : d.service = c.service) :
    is_bound d = is_bound c := by
  simp [is_bound, h]

theorem recv_side_service {c d : conn_info} (h : recv_side d = recv_side c) :
    d.service = c.service := congrArg (fun p => p.2.1) h

theorem libais_disconnect_bound (env : exec_env) (hk : services_keep_binding env)
    (c : conn_info) (v : Int) (hv : (libais_disconnect env c).status = status.returned v) :
    is_bound (libais_disconnect env c).conn = true ∧ is_bound c = true := by
  cases hsh : lookup env.ais_service_handlers ((c.service : Int) - 1) with
  | none =>
    unfold libais_disconnect at hv
    rw [hsh] at hv
    cases hv
  | some sh =>
    have hb := lookup_bound env c sh hsh
    have hmem := lookup_mem _ _ _ hsh
    refine ⟨?_, is_bound_true hb⟩
    have he : (exit_call sh c).2.service ≠ 0 := by
      unfold exit_call
      cases hg : sh.libais_exit_fn with
      | none => exact hb
      | some g => exact (hk sh hmem).2 g hg c hb
    rw [(libais_disconnect_eq env c sh hsh).2]
    dsimp only
    apply is_bound_true
    by_cases hs : (exit_call sh c).2.state = conn_state.CONN_STATE_DISCONNECTING <;>
      by_cases hr : (exit_call sh c).1 = -1 <;>
      simp [hs, hr, he]

theorem libais_disconnect_quiet (env : exec_env) (c : conn_info) :
    ∀ e ∈ (libais_disconnect env c).trace, is_init e = false ∧ is_dispatch e = false := by
  intro e he
  rw [libais_disconnect_trace env c e he]
  exact ⟨rfl, rfl⟩

/-- The label `error_disconnect` reached with a trace that obeys the discipline. -/
theorem error_disconnect_init_first (env : exec_env) (hk : services_keep_binding env)
    (b : Bool) (c : conn_info) (tr : List event) (h1 : init_first b tr = true) :
    init_first b (error_disconnect env c tr).trace = true ∧
    (∀ v, (error_disconnect env c tr).status = status.returned v →
      is_bound c = true ∧ is_bound (error_disconnect env c tr).conn = true ∧
      seen_after b (error_disconnect env c tr).trace = seen_after b tr) := by
  have hq : ∀ e ∈ event.disconnect :: (libais_disconnect env c).trace,
      is_init e = false ∧ is_dispatch e = false := by
    intro e he
    rcases List.mem_cons.1 he with rfl | he
    · exact ⟨rfl, rfl⟩
    · exact libais_disconnect_quiet env c e he
  have hq2 := init_first_quiet (seen_after b tr) _ hq
  have htr : (error_disconnect env c tr).trace
      = tr ++ event.disconnect :: (libais_disconnect env c).trace := rfl
  refine ⟨?_, ?_⟩
  · rw [htr, init_first_append, h1, hq2.1]; rfl
  · intro v hv
    have hb := libais_disconnect_bound env hk c v hv
    refine ⟨hb.2, hb.1, ?_⟩
    rw [htr, seen_after_append, hq2.2]

theorem dispatch_frame_init_first (env : exec_env) (hb : init_binds env)
    (hk : services_keep_binding env) (res : Int) (c : conn_info) (hdr : req_header)
    (frame : List Byte) :
    init_first (is_bound c) (dispatch_frame env res c hdr frame).trace = true ∧
    (((dispatch_frame env res c hdr frame).exit = step_exit.error_disconnect ∨
      ∃ r, (dispatch_frame env res c hdr frame).exit = step_exit.next r ∧ r ≠ -1) →
      is_bound (dispatch_frame env res c hdr frame).conn
        = seen_after (is_bound c) (dispatch_frame env res c hdr frame).trace) := by
  unfold dispatch_frame
  split
  · rename_i h0
    rw [is_bound_false h0]
    split
    · refine ⟨rfl, ?_⟩
      rintro (h | ⟨r, h, _⟩) <;> cases h
    · rename_i sh hsh
      refine ⟨rfl, ?_⟩
      rintro (h | ⟨r, h, hr⟩)
      · cases h
      · dsimp only at h ⊢
        injection h with h
        rw [← h] at hr
        rw [is_bound_true (hb sh (List.getElem?_mem hsh) c hdr frame hr)]
        rfl
  · rename_i h0
    rw [is_bound_true h0]
    split
    · refine ⟨rfl, ?_⟩
      rintro (h | ⟨r, h, _⟩) <;> cases h
    · rename_i sh hsh
      have hmem := lookup_mem _ _ _ hsh
      split
      · refine ⟨rfl, fun _ => ?_⟩
        dsimp only
        rw [is_bound_true h0]
        rfl
      · split
        · refine ⟨rfl, ?_⟩
          rintro (h | ⟨r, h, _⟩) <;> cases h
        · rename_i h hh
          split
          · refine ⟨?_, fun _ => ?_⟩
            · simp [init_first, is_init, is_dispatch, unbound_handler, h0]
            · dsimp only
              rw [is_bound_true ((hk sh hmem).1 h (List.getElem?_mem hh) c hdr frame h0)]
              rfl
          · refine ⟨rfl, fun _ => ?_⟩
            dsimp only
            rw [is_bound_congr (recv_side_service (send_recv_side c _ _)), is_bound_true h0]
            rfl

theorem deliver_loop_init_first (env : exec_env) (hb : init_binds env)
    (hk : services_keep_binding env) (fuel : Nat) :
    ∀ (res : Int) (c : conn_info),
      init_first (is_bound c) (deliver_loop env fuel res c).trace = true ∧
      (((deliver_loop env fuel res c).exit = loop_exit.error_disconnect ∨
        ∃ r, (deliver_loop env fuel res c).exit = loop_exit.done r ∧ r ≠ -1) →
        is_bound (deliver_loop env fuel res c).conn
          = seen_after (is_bound c) (deliver_loop env fuel res c).trace) := by
  induction fuel with
  | zero =>
    intro res c
    unfold deliver_loop
    split
    · dsimp only
      split
      · exact ⟨rfl, fun _ => (seen_after_nil _).symm⟩
      · split
        · exact ⟨rfl, fun _ => (seen_after_nil _).symm⟩
        · exact ⟨rfl, fun _ => (seen_after_nil _).symm⟩
    · exact ⟨rfl, fun _ => (seen_after_nil _).symm⟩
  | succ k ih =>
    intro res c
    unfold deliver_loop
    split
    · dsimp only
      split
      · exact ⟨rfl, fun _ => (seen_after_nil _).symm⟩
      · split
        · exact ⟨rfl, fun _ => (seen_after_nil _).symm⟩
        · have hd := dispatch_frame_init_first env hb hk res c
            (req_header_at c.inb (c.inb_start - c.inb_inuse).toNat)
            ((c.inb.drop (c.inb_start - c.inb_inuse).toNat).take
              (req_header_at c.inb (c.inb_start - c.inb_inuse).toNat).size)
          generalize dispatch_frame env res c
            (req_header_at c.inb (c.inb_start - c.inb_inuse).toNat)
            ((c.inb.drop (c.inb_start - c.inb_inuse).toNat).take
              (req_header_at c.inb (c.inb_start - c.inb_inuse).toNat).size) = D at hd ⊢
          split
          · rename_i f hf
            refine ⟨hd.1, ?_⟩
            rintro (h | ⟨r, h, _⟩) <;> cases h
          · rename_i hf
            exact ⟨hd.1, fun _ => hd.2 (Or.inl hf)⟩
          · rename_i res1 hf
            dsimp only
            by_cases hr : res1 = -1
            · rw [hr, deliver_loop_stop]
              dsimp only
              rw [List.append_nil]
              refine ⟨hd.1, ?_⟩
              rintro (h | ⟨r, h, hne⟩)
              · cases h
              · injection h with h
                exact absurd h.symm hne
            · have hl := hd.2 (Or.inr ⟨res1, hf, hr⟩)
              have hi := ih res1 { D.conn with inb_inuse := to_int32 (D.conn.inb_inuse - (req_header_at D.conn.inb (c.inb_start - c.inb_inuse).toNat).size) }
              have hc1 : is_bound { D.conn with inb_inuse := to_int32 (D.conn.inb_inuse - (req_header_at D.conn.inb (c.inb_start - c.inb_inuse).toNat).size) } = is_bound D.conn := rfl
              rw [hc1, hl] at hi
              refine ⟨?_, fun h => ?_⟩
              · rw [init_first_append, hd.1, hi.1]; rfl
              · rw [seen_after_append]
                exact hi.2 h
    · exact ⟨rfl, fun _ => (seen_after_nil _).symm⟩

theorem deliver_received_init_first (env : exec_env) (hb : init_binds env)
    (hk : services_keep_binding env) (fuel : Nat) (d : conn_info) (res : Int)
    (cred : Option ucred) (tr : List event)
    (hq : ∀ e ∈ tr, is_init e = false ∧ is_dispatch e = false) :
    init_first (is_bound d) (deliver_received env fuel d res cred tr).trace = true ∧
    (∀ v, (deliver_received env fuel d res cred tr).status = status.returned v → v ≠ -1 →
      is_bound (deliver_received env fuel d res cred tr).conn
        = seen_after (is_bound d) (deliver_received env fuel d res cred tr).trace) := by
  cases hA : authenticate env d cred with
  | none =>
    rw [deliver_received_none env fuel d res cred tr hA]
    refine ⟨(init_first_quiet (is_bound d) tr hq).1, ?_⟩
    intro v hv
    cases hv
  | some A =>
  have ha : A.1.service = d.service := by
    rcases (authenticate_cases env d cred A hA).1 with h | h <;> rw [h]
  have hqa : ∀ e ∈ tr ++ A.2,
      is_init e = false ∧ is_dispatch e = false := by
    intro e he
    rcases List.mem_append.1 he with he | he
    · exact hq e he
    · rw [authenticate_trace env d cred A hA e he]
      exact ⟨rfl, rfl⟩
  have hq0 := init_first_quiet (is_bound d) _ hqa
  have hl := deliver_loop_init_first env hb hk fuel res { A.1 with inb_inuse := A.1.inb_inuse + res, inb_start := A.1.inb_start + res }
  have hc1 : is_bound { A.1 with inb_inuse := A.1.inb_inuse + res, inb_start := A.1.inb_start + res } = is_bound d := is_bound_congr ha
  rw [hc1] at hl
  unfold deliver_received
  rw [hA]
  dsimp only
  generalize deliver_loop env fuel res { A.1 with inb_inuse := A.1.inb_inuse + res, inb_start := A.1.inb_start + res } = L at hl ⊢
  generalize tr ++ A.2 = T at hq0 ⊢
  have hT : init_first (is_bound d) (T ++ L.trace) = true := by
    rw [init_first_append, hq0.1, hq0.2, hl.1]; rfl
  have hS : seen_after (is_bound d) (T ++ L.trace) = seen_after (is_bound d) L.trace := by
    rw [seen_after_append, hq0.2]
  split
  · refine ⟨hT, ?_⟩
    intro v hv
    cases hv
  · refine ⟨hT, ?_⟩
    intro v hv
    cases hv
  · rename_i hx
    have he := error_disconnect_init_first env hk (is_bound d) L.conn (T ++ L.trace) hT
    refine ⟨he.1, ?_⟩
    intro v hv _
    have h3 := he.2 v hv
    rw [h3.2.1, h3.2.2, hS, ← hl.2 (Or.inl hx), h3.1]
  · rename_i res1 hx
    refine ⟨hT, ?_⟩
    intro v hv hne
    dsimp only at hv ⊢
    injection hv with hv
    rw [hS, ← hl.2 (Or.inr ⟨res1, hx, by rw [hv]; exact hne⟩)]
    apply is_bound_congr
    unfold compact
    split
    · rfl
    · split <;> rfl

theorem poll_handler_init_first (env : exec_env) (hb : init_binds env)
    (hk : services_keep_binding env) (fuel : Nat) (revent : poll_mask) (rx : recv_result)
    (c : conn_info) :
    init_first (is_bound c) (poll_handler_libais_deliver env fuel revent rx c).trace = true ∧
    (∀ v, (poll_handler_libais_deliver env fuel revent rx c).status = status.returned v →
      v ≠ -1 →
      is_bound (poll_handler_libais_deliver env fuel revent rx c).conn
        = seen_after (is_bound c) (poll_handler_libais_deliver env fuel revent rx c).trace) := by
  have hdis : ∀ (d : conn_info) (tr : List event),
      (∀ e ∈ tr, is_init e = false ∧ is_dispatch e = false) →
      init_first (is_bound d) (error_disconnect env d tr).trace = true ∧
      (∀ v, (error_disconnect env d tr).status = status.returned v → v ≠ -1 →
        is_bound (error_disconnect env d tr).conn
          = seen_after (is_bound d) (error_disconnect env d tr).trace) := by
    intro d tr hq
    have hq0 := init_first_quiet (is_bound d) tr hq
    have he := error_disconnect_init_first env hk (is_bound d) d tr hq0.1
    refine ⟨he.1, ?_⟩
    intro v hv _
    have h3 := he.2 v hv
    rw [h3.2.1, h3.2.2, hq0.2, h3.1]
  have hnil : ∀ e ∈ ([] : List event), is_init e = false ∧ is_dispatch e = false := by
    intro e he
    cases he
  have hrecv : ∀ (n : Nat) (w : Bool), ∀ e ∈ [event.recvmsg n w],
      is_init e = false ∧ is_dispatch e = false := by
    intro n w e he
    rw [List.mem_singleton.1 he]
    exact ⟨rfl, rfl⟩
  unfold poll_handler_libais_deliver
  dsimp only
  have hc0 : is_bound (if revent.pollout = true then (cleanup_send_response c).2 else c)
      = is_bound c := by
    split
    · exact is_bound_congr (recv_side_service (cleanup_recv_side c))
    · rfl
  generalize (if revent.pollout = true then (cleanup_send_response c).2 else c) = c0 at hc0
  rw [← hc0]
  split
  · exact ⟨rfl, fun _ _ _ => (seen_after_nil _).symm⟩
  · split
    · exact hdis c0 [] hnil
    · split
      · exact ⟨rfl, fun _ _ _ => (seen_after_nil _).symm⟩
      · split
        · exact ⟨rfl, fun _ _ _ => (seen_after_nil _).symm⟩
        · split
          · exact hdis c0 _ (hrecv _ _)
          · exact deliver_received_init_first env hb hk fuel c0 _ _ _ (hrecv _ _)
          · split
            · exact hdis c0 _ (hrecv _ _)
            · rename_i bytes cred hx hne
              exact deliver_received_init_first env hb hk fuel { c0 with inb := write_at c0.inb c0.inb_start.toNat bytes } bytes.length cred _ (hrecv _ _)

theorem run_poll_init_first (env : exec_env) (hb : init_binds env)
    (hk : services_keep_binding env) (fuel : Nat) (evs : List (poll_mask × recv_result)) :
    ∀ c : conn_info, init_first (is_bound c) (run_poll env fuel c evs).trace = true := by
  induction evs with
  | nil => intro c; rfl
  | cons ev rest ih =>
    intro c
    have hp := poll_handler_init_first env hb hk fuel ev.1 ev.2 c
    unfold run_poll
    dsimp only
    generalize poll_handler_libais_deliver env fuel ev.1 ev.2 c = R at hp ⊢
    split
    · rename_i res hres
      split
      · exact hp.1
      · rename_i hne
        dsimp only
        rw [init_first_append, hp.1, ← hp.2 res hres hne, ih]
        rfl
    · exact hp.1

/-- What the discipline `init_first` says of a trace, event by event. -/
theorem init_first_spec (tr : List event) :
    ∀ b, init_first b tr = true →
      (tr.filter is_init).length ≤ (if b then 0 else 1) ∧
      (∀ pre e post, tr = pre ++ e :: post → is_dispatch e = true →
        (b = true ∨ ∃ x ∈ pre, is_init x = true) ∧ unbound_handler e = false) := by
  induction tr with
  | nil =>
    intro b _
    refine ⟨by simp, ?_⟩
    intro pre e post h
    cases pre <;> cases h
  | cons a t ih =>
    intro b h
    by_cases hi : is_init a = true
    · have h1 : (!b && init_first true t) = true := by
        simpa [init_first, hi] using h
      have hb0 : b = false := by
        cases b
        · rfl
        · simp at h1
      have ht : init_first true t = true := by
        rw [hb0] at h1
        simpa using h1
      have iht := ih true ht
      subst hb0
      refine ⟨?_, ?_⟩
      · have h5 : (t.filter is_init).length ≤ 0 := iht.1
        have h6 : (List.filter is_init (a :: t)).length = (t.filter is_init).length + 1 := by
          simp [List.filter_cons, hi]
        rw [h6]
        show (t.filter is_init).length + 1 ≤ 1
        omega
      · intro pre e post heq hd
        cases pre with
        | nil =>
          injection heq with h1 h2
          subst h1
          cases a <;> simp [is_init, is_dispatch] at hi hd
        | cons p pre2 =>
          injection heq with h1 h2
          subst h1
          have := iht.2 pre2 e post h2 hd
          exact ⟨Or.inr ⟨a, List.mem_cons_self _ _, hi⟩, this.2⟩
    · have hi2 : is_init a = false := by simpa using hi
      by_cases hd : is_dispatch a = true
      · have h1 : (b && !unbound_handler a && init_first b t) = true := by
          simpa [init_first, hi2, hd] using h
        simp only [Bool.and_eq_true, Bool.not_eq_true_eq_eq_false] at h1
        have iht := ih b h1.2
        refine ⟨?_, ?_⟩
        · have := iht.1
          simpa [List.filter_cons, hi2] using this
        · intro pre e post heq hde
          cases pre with
          | nil =>
            injection heq with h2 h3
            subst h2
            refine ⟨Or.inl h1.1.1, ?_⟩
            simpa using h1.1.2
          | cons p pre2 =>
            injection heq with h2 h3
            subst h2
            rcases iht.2 pre2 e post h3 hde with ⟨h4 | ⟨x, hx, hxi⟩, h5⟩
            · exact ⟨Or.inl h4, h5⟩
            · exact ⟨Or.inr ⟨x, List.mem_cons_of_mem _ hx, hxi⟩, h5⟩
      · have hd2 : is_dispatch a = false := by simpa using hd
        have h1 : init_first b t = true := by
          simpa [init_first, hi2, hd2] using h
        have iht := ih b h1
        refine ⟨?_, ?_⟩
        · have := iht.1
          simpa [List.filter_cons, hi2] using this
        · intro pre e post heq hde
          cases pre with
          | nil =>
            injection heq with h2 h3
            subst h2
            rw [hde] at hd2
            cases hd2
          | cons p pre2 =>
            injection heq with h2 h3
            subst h2
            rcases iht.2 pre2 e post h3 hde with ⟨h4 | ⟨x, hx, hxi⟩, h5⟩
            · exact ⟨Or.inl h4, h5⟩
            · exact ⟨Or.inr ⟨x, List.mem_cons_of_mem _ hx, hxi⟩, h5⟩

/-- C15 (as amended): provided every `libais_init_fn` that returns a value other than -1 has
bound the connection and no request or exit handler unbinds it, then on a connection made by
`conn_info_create`, for every sequence of ready events and whatever the frames contain:
`libais_init_fn` is called at most once; every opcode dispatch comes after a `libais_init_fn`
call and no `libais_handler_fn` is invoked while `service == INIT`; and a frame met while
`service == INIT` is passed to `ais_service_handlers[header.id].libais_init_fn`. -/
theorem init_fn_called_once (env : exec_env) (hb : init_binds env)
    (hk : services_keep_binding env) (SIZEQUEUE SIZEINB : Nat) (garbage : List Byte)
    (fd : Int) (fuel : Nat) (evs : List (poll_mask × recv_result)) :
    (((run_poll env fuel (conn_info_create SIZEQUEUE SIZEINB garbage fd) evs).trace.filter
      is_init).length ≤ 1) ∧
    (∀ pre e post,
      (run_poll env fuel (conn_info_create SIZEQUEUE SIZEINB garbage fd) evs).trace
        = pre ++ e :: post →
      is_dispatch e = true → (∃ x ∈ pre, is_init x = true) ∧ unbound_handler e = false) ∧
    (∀ (res : Int) (c : conn_info) (hdr : req_header) (frame : List Byte)
      (sh : service_handler), c.service = 0 → env.ais_service_handlers[hdr.id]? = some sh →
      (dispatch_frame env res c hdr frame).trace = [event.init_fn hdr.id frame] ∧
      (dispatch_frame env res c hdr frame).conn = (sh.libais_init_fn c hdr frame).2 ∧
      (dispatch_frame env res c hdr frame).exit
        = step_exit.next (sh.libais_init_fn c hdr frame).1) := by
  have h := init_first_spec _ false
    (run_poll_init_first env hb hk fuel evs (conn_info_create SIZEQUEUE SIZEINB garbage fd))
  refine ⟨h.1, ?_, ?_⟩
  · intro pre e post heq hd
    rcases h.2 pre e post heq hd with ⟨h1 | h1, h2⟩
    · cases h1
    · exact ⟨h1, h2⟩
  · intro res c hdr frame sh h0 hsh
    unfold dispatch_frame
    rw [if_pos h0, hsh]
    exact ⟨rfl, rfl, rfl⟩

theorem ex_checked_binds (sync : Bool) : init_binds (ex_env ex_service_checked sync) := by
  intro sh hmem c h f hne
  simp only [ex_env, List.mem_singleton] at hmem
  subst hmem
  simp only [ex_service_checked, ex_init_checked] at hne ⊢
  split
  · exact Nat.succ_ne_zero _
  · rename_i hna
    rw [if_neg hna] at hne
    exact absurd rfl hne

theorem ex_checked_keeps (sync : Bool) :
    services_keep_binding (ex_env ex_service_checked sync) := by
  intro sh hmem
  simp only [ex_env, List.mem_singleton] at hmem
  subst hmem
  refine ⟨?_, ?_⟩
  · intro hd hmem
    simp only [ex_service_checked, ex_handlers, List.mem_cons, List.mem_singleton,
      List.not_mem_nil, or_false] at hmem
    rcases hmem with rfl | rfl | rfl | rfl <;> intro c h f h0 <;> exact h0
  · intro g hg
    simp [ex_service_checked] at hg

set_option maxHeartbeats 1600000 in
/-- C15 at concrete inputs: root sends two frames, one per read event; the first goes to the init
function of service 0, which binds the connection, the second to the handler of opcode 0. -/
theorem init_fn_called_once_witness :
    init_binds (ex_env ex_service_checked false) ∧
    services_keep_binding (ex_env ex_service_checked false) ∧
    calls (run_poll (ex_env ex_service_checked false) 8 (conn_info_create 4 32 [] 7)
      [(ex_pollin, recv_result.data (ex_frame 8 0) (some ⟨1, 0, 0⟩)), (ex_pollin, recv_result.data (ex_frame 8 0) none)]).trace
      = [event.init_fn 0 (ex_frame 8 0), event.handler_fn 1 0 (ex_frame 8 0) true] ∧
    ((run_poll (ex_env ex_service_checked false) 8 (conn_info_create 4 32 [] 7)
      [(ex_pollin, recv_result.data (ex_frame 8 0) (some ⟨1, 0, 0⟩)),
       (ex_pollin, recv_result.data (ex_frame 8 0) none)]).trace.filter is_init).length ≤ 1 :=
  ⟨ex_checked_binds false, ex_checked_keeps false, by decide,
   (init_fn_called_once (ex_env ex_service_checked false) (ex_checked_binds false)
      (ex_checked_keeps false) 4 32 [] 7 8
      [(ex_pollin, recv_result.data (ex_frame 8 0) (some ⟨1, 0, 0⟩)), (ex_pollin, recv_result.data (ex_frame 8 0) none)]).1⟩

set_option maxHeartbeats 1600000 in
/-- C15 as stated fails: with a service whose `libais_init_fn` returns 0 without setting
`conn_info->service`, the connection is still in `SOCKET_SERVICE_INIT` when the second frame
arrives and `libais_init_fn` is invoked again. -/
theorem init_fn_called_again :
    calls (run_poll (ex_env ex_service_unbound false) 8 (conn_info_create 4 32 [] 7)
      [(ex_pollin, recv_result.data (ex_frame 8 0) (some ⟨1, 0, 0⟩)),
       (ex_pollin, recv_result.data (ex_frame 8 0) none)]).trace
      = [event.init_fn 0 (ex_frame 8 0), event.init_fn 0 (ex_frame 8 0)] ∧
    ((run_poll (ex_env ex_service_unbound false) 8 (conn_info_create 4 32 [] 7)
      [(ex_pollin, recv_result.data (ex_frame 8 0) (some ⟨1, 0, 0⟩)),
       (ex_pollin, recv_result.data (ex_frame 8 0) none)]).trace.filter is_init).length
      = 2 := by
  decide


end Corosync
